import Mathlib

/-! Keyframe model of Kdenlive: a verification development.

Shallow embedding of `src/effects/keyframes/keyframemodel.cpp`.

* `m_keyframeList` is a `std::map<GenTime, KeyframeType>`; it is embedded as the list of
  its entries in iteration order.  The operations of `std::map` used by the source are
  embedded in the namespace `std_map`; an iterator is the index of the entry it points
  to, `end()` being the size of the map.
* A `Fun` (`std::function<bool()>` capturing `this`) is a state-passing function on the
  model.  `none` stands for the abort of a failed `Q_ASSERT`; `Q_ASSERT` is compiled out
  when `QT_NO_DEBUG` is set, which is a parameter of every operation.
* Signals are appended to the field `emitted`, each with the entries an observer sees at
  the moment of the emission.
* The locks (`QWriteLocker`, `READ_LOCK`) are not embedded: the development is
  sequential.
* `static_cast<int>` of a size is the embedding of `Nat` into `Int`: sizes beyond the
  range of `int` are not considered.
* The composable operations never return false.  To state what the bodies of the public
  operations do with a false result, each body is also given with its callees as
  parameters (`addKeyframe_with`, `removeKeyframe_with`, `moveKeyframe_with`,
  `removeAllKeyframes_with`); the source function is the body at the composable
  operations.
-/

set_option linter.unusedSectionVars false

namespace Kdenlive

/-- Modelled from the spec: the enumeration `KeyframeType` is declared in
`keyframemodel.hpp`, which is not part of the sources; the spec gives a closed
enumeration of interpolation kinds "Linear, Discrete, Smooth". -/
inductive KeyframeType where
  | Linear
  | Discrete
  | Smooth
  deriving DecidableEq, Repr

/-- Value-initialised `KeyframeType()`, as produced by `std::map::operator[]` on an
absent key: the enumerator of value zero, taken to be the first one. -/
instance : Inhabited KeyframeType := ⟨KeyframeType.Linear⟩

/-! ## The operations of `std::map` used by the model -/

namespace std_map

variable {K V : Type} [LinearOrder K]

/-- Keys of the map in iteration order. -/
def keys (m : List (K × V)) : List K := m.map Prod.fst

/-- Class invariant of `std::map`: the keys are strictly ascending in iteration order
(hence pairwise distinct). -/
def Ordered (m : List (K × V)) : Prop := (keys m).Pairwise (fun a b => a < b)

instance (m : List (K × V)) : Decidable (Ordered m) := by
  unfold Ordered; infer_instance

/-- Member `size()`. -/
def size (m : List (K × V)) : Nat := m.length

/-- Member `at(pos)`; `none` stands for the exception `std::out_of_range`. -/
def «at» : List (K × V) → K → Option V
  | [], _ => none
  | (k, v) :: rest, pos => if k = pos then some v else «at» rest pos

/-- Member `count(pos)`: 1 if the key is stored, 0 otherwise. -/
def count (m : List (K × V)) (pos : K) : Nat :=
  match «at» m pos with
  | some _ => 1
  | none => 0

/-- Member `find(pos)`: iterator to the entry of key `pos`, or `end()`. -/
def find : List (K × V) → K → Nat
  | [], _ => 0
  | (k, _) :: rest, pos => if k = pos then 0 else find rest pos + 1

/-- Member `lower_bound(pos)`: iterator to the first entry whose key is not less than
`pos`, or `end()`. -/
def lower_bound : List (K × V) → K → Nat
  | [], _ => 0
  | (k, _) :: rest, pos => if k < pos then lower_bound rest pos + 1 else 0

/-- The assignment `m[pos] = v`: overwrites the value of a stored key, inserts the entry
at its place in the order otherwise. -/
def assign : List (K × V) → K → V → List (K × V)
  | [], pos, v => [(pos, v)]
  | (k, w) :: rest, pos, v =>
    if pos < k then (pos, v) :: (k, w) :: rest
    else if k < pos then (k, w) :: assign rest pos v
    else (k, v) :: rest

/-- The read `m[pos]` of the non-const `operator[]`: the value of a stored key; an absent
key is first inserted with a value-initialised value. -/
def index [Inhabited V] (m : List (K × V)) (pos : K) : V × List (K × V) :=
  match «at» m pos with
  | some v => (v, m)
  | none => (default, assign m pos default)

/-- Member `erase(pos)`: removes the entry of key `pos`, if any. -/
def erase : List (K × V) → K → List (K × V)
  | [], _ => []
  | (k, w) :: rest, pos => if k = pos then rest else (k, w) :: erase rest pos

/-- Number of stored keys strictly less than `pos`. -/
def rank (m : List (K × V)) (pos : K) : Nat := (keys m).countP (fun k => k < pos)

end std_map

/-! ## The model -/

/-- Qt item role `Qt::DisplayRole`. -/
def DisplayRole : Int := 0
/-- Qt item role `Qt::EditRole`. -/
def EditRole : Int := 2
/-- Qt item role `Qt::UserRole`. -/
def UserRole : Int := 256
/-- Modelled from the spec: the roles "Position, Frame, Type" are declared in
`keyframemodel.hpp`, which is not part of the sources; they are taken to be three
distinct values following `Qt::UserRole`. -/
def TypeRole : Int := UserRole + 1
/-- See `TypeRole`. -/
def PosRole : Int := UserRole + 2
/-- See `TypeRole`. -/
def FrameRole : Int := UserRole + 3

/-- Signals of `QAbstractListModel` raised by the model; a `QModelIndex` of the list is
given by its row. -/
inductive Signal where
  | beginInsertRows (first last : Int)
  | endInsertRows
  | beginRemoveRows (first last : Int)
  | endRemoveRows
  | dataChanged (topLeft bottomRight : Int) (roles : List Int)
  deriving DecidableEq, Repr

/-- State of a `KeyframeModel` object: the member `m_keyframeList` and the signals emitted
so far, oldest first, each with the entries of `m_keyframeList` at the moment of the
emission. -/
structure KeyframeModel (GenTime : Type) where
  m_keyframeList : List (GenTime × KeyframeType)
  emitted : List (Signal × List (GenTime × KeyframeType))

/-- A `Fun` is a `std::function<bool()>`, here a closure over `this`: it returns its
result and the new state of the model, or `none` when a `Q_ASSERT` aborts. -/
abbrev Fun (GenTime : Type) := KeyframeModel GenTime → Option (Bool × KeyframeModel GenTime)

/-- Entry of the undo stack, the `FunctionalUndoCommand(undo, redo, text)` built by
`PUSH_UNDO`. -/
structure FunctionalUndoCommand (GenTime : Type) where
  m_undo : Fun GenTime
  m_redo : Fun GenTime
  text : String

/-- Modelled from the spec: `DocUndoStack` is not part of the sources; the spec has the
undo/redo stack accept "(applyAlreadyRun, invert, description)" and store it "for later
invocation".  The most recently pushed entry is the head of the list. -/
abbrev DocUndoStack (GenTime : Type) := List (FunctionalUndoCommand GenTime)

/-- Macro `Q_ASSERT(cond)` of Qt: aborts when `cond` fails, and expands to nothing when
`QT_NO_DEBUG` is defined. -/
def Q_ASSERT (QT_NO_DEBUG : Bool) (cond : Prop) [Decidable cond] : Option Unit :=
  if QT_NO_DEBUG then some () else if cond then some () else none

/-- Modelled from the spec: the macro `PUSH_UNDO(undo, redo, text)` of `macros.hpp` is
not part of the sources; the composed pair with its description is "handed to the
external undo/redo stack". -/
def PUSH_UNDO {GenTime : Type} (undo redo : Fun GenTime) (text : String)
    (m_undoStack : DocUndoStack GenTime) : DocUndoStack GenTime :=
  { m_undo := undo, m_redo := redo, text := text } :: m_undoStack

/-- Modelled from the spec: the macro `UPDATE_UNDO_REDO(operation, reverse, undo, redo)`
of `macros.hpp` is not part of the sources; the composed inverse runs the inverses "in
reverse order" (the new `reverse` first, then the accumulated `undo`), the composed redo
runs the accumulated `redo` first and then the new `operation`; each reports the
conjunction of the two results.  The result is the new pair `(undo, redo)`. -/
def UPDATE_UNDO_REDO {GenTime : Type} (operation reverse undo redo : Fun GenTime) :
    Fun GenTime × Fun GenTime :=
  (fun self =>
      match reverse self with
      | none => none
      | some (v, self) =>
        match undo self with
        | none => none
        | some (u, self) => some (u && v, self),
   fun self =>
      match redo self with
      | none => none
      | some (v, self) =>
        match operation self with
        | none => none
        | some (o, self) => some (o && v, self))

/-- The closure `[]() { return true; }`. -/
def Fun.true_lambda {GenTime : Type} : Fun GenTime := fun self => some (true, self)

/-- Sequential run of two closures, `bool v = first(); return second() && v;`: the body
of the undo closure that `UPDATE_UNDO_REDO` builds from `reverse` and `undo`. -/
def Fun.andThen {GenTime : Type} (first second : Fun GenTime) : Fun GenTime := fun self =>
  match first self with
  | none => none
  | some (v, self) =>
    match second self with
    | none => none
    | some (u, self) => some (u && v, self)

/-- Signature of a composable operation once its position and type arguments are given,
as `removeKeyframe(pos, undo, redo)` and `addKeyframe(pos, type, undo, redo)`: it takes the
accumulators `undo` and `redo` (passed by reference) and the state of the model, and
yields the returned value, the accumulators and the state it leaves, or `none` when a
`Q_ASSERT` aborts. -/
abbrev Step (GenTime : Type) :=
  Fun GenTime → Fun GenTime → KeyframeModel GenTime →
    Option (Bool × Fun GenTime × Fun GenTime × KeyframeModel GenTime)

namespace KeyframeModel

variable {GenTime : Type} [LinearOrder GenTime]

/-- Emission of a signal: observers see the entries stored at that moment. -/
def emit (self : KeyframeModel GenTime) (sig : Signal) : KeyframeModel GenTime :=
  { self with emitted := self.emitted ++ [(sig, self.m_keyframeList)] }

/-- Source function `KeyframeModel::changeType_lambda` (lines 140-150). -/
def changeType_lambda (QT_NO_DEBUG : Bool) (pos : GenTime) (type : KeyframeType) :
    Fun GenTime := fun self =>
  match Q_ASSERT QT_NO_DEBUG (std_map.count self.m_keyframeList pos > 0) with
  | none => none
  | some () =>
    let row : Int := (std_map.find self.m_keyframeList pos : Nat)
    let self := { self with m_keyframeList := std_map.assign self.m_keyframeList pos type }
    let self := self.emit (Signal.dataChanged row row [TypeRole])
    some (true, self)

/-- Source function `KeyframeModel::addKeyframe_lambda` (lines 152-168). -/
def addKeyframe_lambda (QT_NO_DEBUG : Bool) (pos : GenTime) (type : KeyframeType) :
    Fun GenTime := fun self =>
  match Q_ASSERT QT_NO_DEBUG (std_map.count self.m_keyframeList pos = 0) with
  | none => none
  | some () =>
    let insertionIt := std_map.lower_bound self.m_keyframeList pos
    let insertionRow : Int := (std_map.size self.m_keyframeList : Nat)
    let insertionRow : Int :=
      if insertionIt ≠ std_map.size self.m_keyframeList then (insertionIt : Nat)
      else insertionRow
    let self := self.emit (Signal.beginInsertRows insertionRow insertionRow)
    let self := { self with m_keyframeList := std_map.assign self.m_keyframeList pos type }
    let self := self.emit Signal.endInsertRows
    some (true, self)

/-- Source function `KeyframeModel::deleteKeyframe_lambda` (lines 170-181). -/
def deleteKeyframe_lambda (QT_NO_DEBUG : Bool) (pos : GenTime) : Fun GenTime := fun self =>
  match Q_ASSERT QT_NO_DEBUG (std_map.count self.m_keyframeList pos > 0) with
  | none => none
  | some () =>
    let row : Int := (std_map.find self.m_keyframeList pos : Nat)
    let self := self.emit (Signal.beginRemoveRows row row)
    let self := { self with m_keyframeList := std_map.erase self.m_keyframeList pos }
    let self := self.emit Signal.endRemoveRows
    some (true, self)

/-- The common tail of the composable `addKeyframe` and `removeKeyframe` (lines 71-75 and
99-103): `if (local_redo()) { UPDATE_UNDO_REDO(local_redo, local_undo, undo, redo);
return true; } return false;`.  The result is the returned value, the accumulators
`undo` and `redo` (passed by reference) and the state of the model. -/
def run_local_redo (local_redo local_undo undo redo : Fun GenTime)
    (self : KeyframeModel GenTime) :
    Option (Bool × Fun GenTime × Fun GenTime × KeyframeModel GenTime) :=
  match local_redo self with
  | none => none
  | some (true, self) =>
    let (undo, redo) := UPDATE_UNDO_REDO local_redo local_undo undo redo
    some (true, undo, redo, self)
  | some (false, self) => some (false, undo, redo, self)

/-- Source function
`KeyframeModel::addKeyframe(GenTime pos, KeyframeType type, Fun &undo, Fun &redo)`
(lines 54-76). -/
def addKeyframe_undo_redo (QT_NO_DEBUG : Bool) (pos : GenTime) (type : KeyframeType)
    (undo redo : Fun GenTime) (self : KeyframeModel GenTime) :
    Option (Bool × Fun GenTime × Fun GenTime × KeyframeModel GenTime) :=
  if std_map.count self.m_keyframeList pos > 0 then
    match std_map.«at» self.m_keyframeList pos with
    | none => none
    | some current =>
      if type = current then
        some (true, undo, redo, self)
      else
        let (oldType, list) := std_map.index self.m_keyframeList pos
        let self := { self with m_keyframeList := list }
        let local_undo := changeType_lambda QT_NO_DEBUG pos oldType
        let local_redo := changeType_lambda QT_NO_DEBUG pos type
        run_local_redo local_redo local_undo undo redo self
  else
    let local_redo := addKeyframe_lambda QT_NO_DEBUG pos type
    let local_undo := deleteKeyframe_lambda QT_NO_DEBUG pos
    run_local_redo local_redo local_undo undo redo self

/-- Source function `KeyframeModel::addKeyframe(GenTime pos, KeyframeType type)`
(lines 78-90), with the state of the
undo stack behind `m_undoStack` as a second argument and result. -/
def addKeyframe (QT_NO_DEBUG : Bool) (pos : GenTime) (type : KeyframeType)
    (self : KeyframeModel GenTime) (m_undoStack : DocUndoStack GenTime) :
    Option (Bool × KeyframeModel GenTime × DocUndoStack GenTime) :=
  let undo : Fun GenTime := Fun.true_lambda
  let redo : Fun GenTime := Fun.true_lambda
  let changeType : Bool := std_map.count self.m_keyframeList pos > 0
  match addKeyframe_undo_redo QT_NO_DEBUG pos type undo redo self with
  | none => none
  | some (res, undo, redo, self) =>
    if res then
      some (res, self, PUSH_UNDO undo redo
        (if changeType then "Change keyframe type" else "Add keyframe") m_undoStack)
    else
      some (res, self, m_undoStack)

/-- Source function `KeyframeModel::removeKeyframe(GenTime pos, Fun &undo, Fun &redo)`
(lines 92-104). -/
def removeKeyframe_undo_redo (QT_NO_DEBUG : Bool) (pos : GenTime)
    (undo redo : Fun GenTime) (self : KeyframeModel GenTime) :
    Option (Bool × Fun GenTime × Fun GenTime × KeyframeModel GenTime) :=
  match Q_ASSERT QT_NO_DEBUG (std_map.count self.m_keyframeList pos > 0) with
  | none => none
  | some () =>
    let (oldType, list) := std_map.index self.m_keyframeList pos
    let self := { self with m_keyframeList := list }
    let local_undo := addKeyframe_lambda QT_NO_DEBUG pos oldType
    let local_redo := deleteKeyframe_lambda QT_NO_DEBUG pos
    run_local_redo local_redo local_undo undo redo self

/-- Source function `KeyframeModel::removeKeyframe(GenTime pos)` (lines 106-117). -/
def removeKeyframe (QT_NO_DEBUG : Bool) (pos : GenTime)
    (self : KeyframeModel GenTime) (m_undoStack : DocUndoStack GenTime) :
    Option (Bool × KeyframeModel GenTime × DocUndoStack GenTime) :=
  let undo : Fun GenTime := Fun.true_lambda
  let redo : Fun GenTime := Fun.true_lambda
  match removeKeyframe_undo_redo QT_NO_DEBUG pos undo redo self with
  | none => none
  | some (res, undo, redo, self) =>
    if res then
      some (res, self, PUSH_UNDO undo redo "Delete keyframe" m_undoStack)
    else
      some (res, self, m_undoStack)

/-- Source function `KeyframeModel::moveKeyframe(GenTime oldPos, GenTime pos)` (lines 119-138). -/
def moveKeyframe (QT_NO_DEBUG : Bool) (oldPos pos : GenTime)
    (self : KeyframeModel GenTime) (m_undoStack : DocUndoStack GenTime) :
    Option (Bool × KeyframeModel GenTime × DocUndoStack GenTime) :=
  match Q_ASSERT QT_NO_DEBUG (std_map.count self.m_keyframeList oldPos > 0) with
  | none => none
  | some () =>
    let (oldType, list) := std_map.index self.m_keyframeList oldPos
    let self := { self with m_keyframeList := list }
    if oldPos = pos then some (true, self, m_undoStack)
    else
      let undo : Fun GenTime := Fun.true_lambda
      let redo : Fun GenTime := Fun.true_lambda
      match removeKeyframe_undo_redo QT_NO_DEBUG oldPos undo redo self with
      | none => none
      | some (res, undo, redo, self) =>
        match (if res then addKeyframe_undo_redo QT_NO_DEBUG pos oldType undo redo self
               else some (res, undo, redo, self)) with
        | none => none
        | some (res, undo, redo, self) =>
          if res then
            some (res, self, PUSH_UNDO undo redo "Move keyframe" m_undoStack)
          else
            match undo self with
            | none => none
            | some (undone, self) =>
              match Q_ASSERT QT_NO_DEBUG (undone = true) with
              | none => none
              | some () => some (res, self, m_undoStack)

/-- The loop of `removeAllKeyframes` (lines 250-257) over the collected positions; the
result `Sum.inl` is the early `return false` after the rollback. -/
def removeAllKeyframes_loop (QT_NO_DEBUG : Bool) :
    List GenTime → Fun GenTime → Fun GenTime → KeyframeModel GenTime →
    Option (KeyframeModel GenTime ⊕ (Fun GenTime × Fun GenTime × KeyframeModel GenTime))
  | [], local_undo, local_redo, self => some (Sum.inr (local_undo, local_redo, self))
  | p :: all_pos, local_undo, local_redo, self =>
    match removeKeyframe_undo_redo QT_NO_DEBUG p local_undo local_redo self with
    | none => none
    | some (res, local_undo, local_redo, self) =>
      if ¬ res then
        match local_undo self with
        | none => none
        | some (undone, self) =>
          match Q_ASSERT QT_NO_DEBUG (undone = true) with
          | none => none
          | some () => some (Sum.inl self)
      else
        removeAllKeyframes_loop QT_NO_DEBUG all_pos local_undo local_redo self

/-- Source function `KeyframeModel::removeAllKeyframes()` (lines 240-260). -/
def removeAllKeyframes (QT_NO_DEBUG : Bool)
    (self : KeyframeModel GenTime) (m_undoStack : DocUndoStack GenTime) :
    Option (Bool × KeyframeModel GenTime × DocUndoStack GenTime) :=
  let all_pos : List GenTime := std_map.keys self.m_keyframeList
  let local_undo : Fun GenTime := Fun.true_lambda
  let local_redo : Fun GenTime := Fun.true_lambda
  match removeAllKeyframes_loop QT_NO_DEBUG all_pos local_undo local_redo self with
  | none => none
  | some (Sum.inl self) => some (false, self, m_undoStack)
  | some (Sum.inr (local_undo, local_redo, self)) =>
    some (true, self, PUSH_UNDO local_undo local_redo "Delete all keyframes" m_undoStack)

/-- Source function `KeyframeModel::addKeyframe(GenTime pos, KeyframeType type)` (lines
78-90) with the callee of line 85, the composable `addKeyframe`, taken as the parameter
`addKeyframe_step`; the rest is the body as it stands.  The source function is this one at
the callee `addKeyframe_undo_redo QT_NO_DEBUG`. -/
def addKeyframe_with (addKeyframe_step : GenTime → KeyframeType → Step GenTime)
    (pos : GenTime) (type : KeyframeType)
    (self : KeyframeModel GenTime) (m_undoStack : DocUndoStack GenTime) :
    Option (Bool × KeyframeModel GenTime × DocUndoStack GenTime) :=
  let undo : Fun GenTime := Fun.true_lambda
  let redo : Fun GenTime := Fun.true_lambda
  let changeType : Bool := std_map.count self.m_keyframeList pos > 0
  match addKeyframe_step pos type undo redo self with
  | none => none
  | some (res, undo, redo, self) =>
    if res then
      some (res, self, PUSH_UNDO undo redo
        (if changeType then "Change keyframe type" else "Add keyframe") m_undoStack)
    else
      some (res, self, m_undoStack)

/-- Source function `KeyframeModel::removeKeyframe(GenTime pos)` (lines 106-117) with the
callee of line 112, the composable `removeKeyframe`, taken as the parameter
`removeKeyframe_step`.  The source function is this one at the callee
`removeKeyframe_undo_redo QT_NO_DEBUG`. -/
def removeKeyframe_with (removeKeyframe_step : GenTime → Step GenTime) (pos : GenTime)
    (self : KeyframeModel GenTime) (m_undoStack : DocUndoStack GenTime) :
    Option (Bool × KeyframeModel GenTime × DocUndoStack GenTime) :=
  let undo : Fun GenTime := Fun.true_lambda
  let redo : Fun GenTime := Fun.true_lambda
  match removeKeyframe_step pos undo redo self with
  | none => none
  | some (res, undo, redo, self) =>
    if res then
      some (res, self, PUSH_UNDO undo redo "Delete keyframe" m_undoStack)
    else
      some (res, self, m_undoStack)

/-- Source function `KeyframeModel::moveKeyframe(GenTime oldPos, GenTime pos)` (lines
119-138) with the callees of lines 127 and 129, the composable `removeKeyframe` and
`addKeyframe`, taken as the parameters `removeKeyframe_step` and `addKeyframe_step`; the
rest, with the rollback of lines 133-136, is the body as it stands.  The source function is
this one at the callees `removeKeyframe_undo_redo QT_NO_DEBUG` and
`addKeyframe_undo_redo QT_NO_DEBUG`. -/
def moveKeyframe_with (removeKeyframe_step : GenTime → Step GenTime)
    (addKeyframe_step : GenTime → KeyframeType → Step GenTime)
    (QT_NO_DEBUG : Bool) (oldPos pos : GenTime)
    (self : KeyframeModel GenTime) (m_undoStack : DocUndoStack GenTime) :
    Option (Bool × KeyframeModel GenTime × DocUndoStack GenTime) :=
  match Q_ASSERT QT_NO_DEBUG (std_map.count self.m_keyframeList oldPos > 0) with
  | none => none
  | some () =>
    let (oldType, list) := std_map.index self.m_keyframeList oldPos
    let self := { self with m_keyframeList := list }
    if oldPos = pos then some (true, self, m_undoStack)
    else
      let undo : Fun GenTime := Fun.true_lambda
      let redo : Fun GenTime := Fun.true_lambda
      match removeKeyframe_step oldPos undo redo self with
      | none => none
      | some (res, undo, redo, self) =>
        match (if res then addKeyframe_step pos oldType undo redo self
               else some (res, undo, redo, self)) with
        | none => none
        | some (res, undo, redo, self) =>
          if res then
            some (res, self, PUSH_UNDO undo redo "Move keyframe" m_undoStack)
          else
            match undo self with
            | none => none
            | some (undone, self) =>
              match Q_ASSERT QT_NO_DEBUG (undone = true) with
              | none => none
              | some () => some (res, self, m_undoStack)

/-- The loop of `removeAllKeyframes` (lines 250-257) with the callee of line 251, the
composable `removeKeyframe`, taken as the parameter `removeKeyframe_step`. -/
def removeAllKeyframes_loop_with (removeKeyframe_step : GenTime → Step GenTime)
    (QT_NO_DEBUG : Bool) :
    List GenTime → Fun GenTime → Fun GenTime → KeyframeModel GenTime →
    Option (KeyframeModel GenTime ⊕ (Fun GenTime × Fun GenTime × KeyframeModel GenTime))
  | [], local_undo, local_redo, self => some (Sum.inr (local_undo, local_redo, self))
  | p :: all_pos, local_undo, local_redo, self =>
    match removeKeyframe_step p local_undo local_redo self with
    | none => none
    | some (res, local_undo, local_redo, self) =>
      if ¬ res then
        match local_undo self with
        | none => none
        | some (undone, self) =>
          match Q_ASSERT QT_NO_DEBUG (undone = true) with
          | none => none
          | some () => some (Sum.inl self)
      else
        removeAllKeyframes_loop_with removeKeyframe_step QT_NO_DEBUG all_pos
          local_undo local_redo self

/-- Source function `KeyframeModel::removeAllKeyframes()` (lines 240-260) with the callee of
line 251 taken as the parameter `removeKeyframe_step`.  The source function is this one at
the callee `removeKeyframe_undo_redo QT_NO_DEBUG`. -/
def removeAllKeyframes_with (removeKeyframe_step : GenTime → Step GenTime)
    (QT_NO_DEBUG : Bool)
    (self : KeyframeModel GenTime) (m_undoStack : DocUndoStack GenTime) :
    Option (Bool × KeyframeModel GenTime × DocUndoStack GenTime) :=
  let all_pos : List GenTime := std_map.keys self.m_keyframeList
  let local_undo : Fun GenTime := Fun.true_lambda
  let local_redo : Fun GenTime := Fun.true_lambda
  match removeAllKeyframes_loop_with removeKeyframe_step QT_NO_DEBUG all_pos
      local_undo local_redo self with
  | none => none
  | some (Sum.inl self) => some (false, self, m_undoStack)
  | some (Sum.inr (local_undo, local_redo, self)) =>
    some (true, self, PUSH_UNDO local_undo local_redo "Delete all keyframes" m_undoStack)

/-- Value returned by `data`: the empty `QVariant()`, the position of an entry
(`it->first.seconds()`), its frame number, or its type. -/
inductive QVariant (GenTime : Type) where
  | invalid
  | seconds (pos : GenTime)
  | frames (frame : Int)
  | keyframeType (type : KeyframeType)
  deriving DecidableEq

/-- A `QModelIndex` of the list model, as far as `data` and `rowCount` read it. -/
structure QModelIndex where
  row : Int
  isValid : Bool
  deriving DecidableEq

/-- Source function `KeyframeModel::data` (lines 193-213); `getCurrentFps_frames pos` is
`pos.frames(pCore->getCurrentFps())`, supplied by the hosting project. -/
def data (getCurrentFps_frames : GenTime → Int) (self : KeyframeModel GenTime)
    (index : QModelIndex) (role : Int) : QVariant GenTime :=
  if index.row < 0 ∨ index.row ≥ (std_map.size self.m_keyframeList : Nat) ∨
      ¬ index.isValid then
    QVariant.invalid
  else
    match self.m_keyframeList.get? index.row.toNat with
    | none => QVariant.invalid
    | some it =>
      if role = DisplayRole ∨ role = EditRole ∨ role = PosRole then
        QVariant.seconds it.1
      else if role = FrameRole ∨ role = UserRole then
        QVariant.frames (getCurrentFps_frames it.1)
      else if role = TypeRole then
        QVariant.keyframeType it.2
      else
        QVariant.invalid

/-- Source function `KeyframeModel::rowCount` (lines 215-220). -/
def rowCount (self : KeyframeModel GenTime) (parent : QModelIndex) : Int :=
  if parent.isValid then 0 else (std_map.size self.m_keyframeList : Nat)

end KeyframeModel

/-! ## Sequences of calls, the undo history and reachable states -/

/-- The closure `f`, invoked on any state of the model whose stored entries are `src`,
returns true and leaves the entries `dst`. -/
def Fun.restores {GenTime : Type} (f : Fun GenTime)
    (src dst : List (GenTime × KeyframeType)) : Prop :=
  ∀ x : KeyframeModel GenTime, x.m_keyframeList = src →
    ∃ y, f x = some (true, y) ∧ y.m_keyframeList = dst

/-- The closure `f` keeps the invariant of `std::map` whenever it returns. -/
def Fun.keepsOrdered {GenTime : Type} [LinearOrder GenTime] (f : Fun GenTime) : Prop :=
  ∀ (x y : KeyframeModel GenTime) (b : Bool), std_map.Ordered x.m_keyframeList →
    f x = some (b, y) → std_map.Ordered y.m_keyframeList

/-- Invocation of the undo closures of the given entries of the undo stack, the most
recently pushed entry (the head) first; the result is the conjunction of the results. -/
def undoPushed {GenTime : Type} : List (FunctionalUndoCommand GenTime) → Fun GenTime
  | [], self => some (true, self)
  | cmd :: rest, self =>
    match cmd.m_undo self with
    | none => none
    | some (ok, self) =>
      match undoPushed rest self with
      | none => none
      | some (oks, self) => some (ok && oks, self)

/-- A call of one of the public operations `addKeyframe(pos, type)`,
`removeKeyframe(pos)` and `moveKeyframe(oldPos, pos)`. -/
inductive Call (GenTime : Type) where
  | addKeyframe (pos : GenTime) (type : KeyframeType)
  | removeKeyframe (pos : GenTime)
  | moveKeyframe (oldPos pos : GenTime)

namespace Call

variable {GenTime : Type} [LinearOrder GenTime]

/-- Execution of a call. -/
def run (QT_NO_DEBUG : Bool) (c : Call GenTime) (self : KeyframeModel GenTime)
    (m_undoStack : DocUndoStack GenTime) :
    Option (Bool × KeyframeModel GenTime × DocUndoStack GenTime) :=
  match c with
  | addKeyframe pos type => KeyframeModel.addKeyframe QT_NO_DEBUG pos type self m_undoStack
  | removeKeyframe pos => KeyframeModel.removeKeyframe QT_NO_DEBUG pos self m_undoStack
  | moveKeyframe oldPos pos => KeyframeModel.moveKeyframe QT_NO_DEBUG oldPos pos self m_undoStack

/-- A `removeKeyframe` or `moveKeyframe` call names a position that is stored. -/
def namesStored (c : Call GenTime) (self : KeyframeModel GenTime) : Prop :=
  match c with
  | addKeyframe _ _ => True
  | removeKeyframe pos => std_map.count self.m_keyframeList pos > 0
  | moveKeyframe oldPos _ => std_map.count self.m_keyframeList oldPos > 0

instance (c : Call GenTime) (self : KeyframeModel GenTime) : Decidable (namesStored c self) := by
  cases c <;> unfold namesStored <;> infer_instance

end Call

section Calls

variable {GenTime : Type} [LinearOrder GenTime]

/-- Execution of a sequence of calls, one after the other. -/
def runCalls (QT_NO_DEBUG : Bool) : List (Call GenTime) → KeyframeModel GenTime →
    DocUndoStack GenTime → Option (KeyframeModel GenTime × DocUndoStack GenTime)
  | [], self, m_undoStack => some (self, m_undoStack)
  | c :: cs, self, m_undoStack =>
    match c.run QT_NO_DEBUG self m_undoStack with
    | none => none
    | some (_, self, m_undoStack) => runCalls QT_NO_DEBUG cs self m_undoStack

/-- Every `removeKeyframe` and `moveKeyframe` of the sequence names a position that is
stored at the moment of the call. -/
def callsNameStored (QT_NO_DEBUG : Bool) : List (Call GenTime) → KeyframeModel GenTime →
    DocUndoStack GenTime → Bool
  | [], _, _ => true
  | c :: cs, self, m_undoStack =>
    decide (c.namesStored self) &&
      match c.run QT_NO_DEBUG self m_undoStack with
      | none => true
      | some (_, self, m_undoStack) => callsNameStored QT_NO_DEBUG cs self m_undoStack

/-- Invariant of the model with its undo stack: the entries are ordered, and every closure
held by the undo stack keeps them ordered. -/
def Invariant (self : KeyframeModel GenTime) (m_undoStack : DocUndoStack GenTime) : Prop :=
  std_map.Ordered self.m_keyframeList ∧
    ∀ cmd ∈ m_undoStack, cmd.m_undo.keepsOrdered ∧ cmd.m_redo.keepsOrdered

/-- States of the model and of its undo stack that are reachable from the empty model
created by the constructor, through the public operations with any arguments and through
the invocation of the undo or redo closure of any entry of the undo stack. -/
inductive Reachable (QT_NO_DEBUG : Bool) :
    KeyframeModel GenTime → DocUndoStack GenTime → Prop where
  | init : Reachable QT_NO_DEBUG ⟨[], []⟩ []
  | addKeyframe {self self1 : KeyframeModel GenTime} {st st1 : DocUndoStack GenTime}
      {res : Bool} (pos : GenTime) (type : KeyframeType) :
      Reachable QT_NO_DEBUG self st →
      KeyframeModel.addKeyframe QT_NO_DEBUG pos type self st = some (res, self1, st1) →
      Reachable QT_NO_DEBUG self1 st1
  | removeKeyframe {self self1 : KeyframeModel GenTime} {st st1 : DocUndoStack GenTime}
      {res : Bool} (pos : GenTime) :
      Reachable QT_NO_DEBUG self st →
      KeyframeModel.removeKeyframe QT_NO_DEBUG pos self st = some (res, self1, st1) →
      Reachable QT_NO_DEBUG self1 st1
  | moveKeyframe {self self1 : KeyframeModel GenTime} {st st1 : DocUndoStack GenTime}
      {res : Bool} (oldPos pos : GenTime) :
      Reachable QT_NO_DEBUG self st →
      KeyframeModel.moveKeyframe QT_NO_DEBUG oldPos pos self st = some (res, self1, st1) →
      Reachable QT_NO_DEBUG self1 st1
  | removeAllKeyframes {self self1 : KeyframeModel GenTime} {st st1 : DocUndoStack GenTime}
      {res : Bool} :
      Reachable QT_NO_DEBUG self st →
      KeyframeModel.removeAllKeyframes QT_NO_DEBUG self st = some (res, self1, st1) →
      Reachable QT_NO_DEBUG self1 st1
  | undo {self self1 : KeyframeModel GenTime} {st : DocUndoStack GenTime} {res : Bool}
      (cmd : FunctionalUndoCommand GenTime) :
      Reachable QT_NO_DEBUG self st → cmd ∈ st → cmd.m_undo self = some (res, self1) →
      Reachable QT_NO_DEBUG self1 st
  | redo {self self1 : KeyframeModel GenTime} {st : DocUndoStack GenTime} {res : Bool}
      (cmd : FunctionalUndoCommand GenTime) :
      Reachable QT_NO_DEBUG self st → cmd ∈ st → cmd.m_redo self = some (res, self1) →
      Reachable QT_NO_DEBUG self1 st

end Calls

/-! ## Observers of the emitted signals and the closures built by the model -/

/-- Modelled from the spec: an observer of the list-view protocol (section 4.4) that
mirrors the rows of the model.  `rows` is its copy of the `(position, type)` sequence;
`pending` is the row announced by the last `beginInsertRows` or `beginRemoveRows`,
which Qt hands over with `rowsInserted` or `rowsRemoved` when the `end` call follows. -/
structure Observer (GenTime : Type) where
  rows : List (GenTime × KeyframeType)
  pending : Option Int

namespace Observer

variable {GenTime : Type}

/-- Modelled from the spec: reaction of the observer to one emitted signal, given with the
entries of the model at the moment of the emission.  On the end of an insertion it inserts
the entry that the model holds at the announced row, on the end of a removal it deletes
its element at the announced row, on `dataChanged` it reads the entry of the row again. -/
def receive (o : Observer GenTime) (ev : Signal × List (GenTime × KeyframeType)) :
    Observer GenTime :=
  match ev with
  | (Signal.beginInsertRows first _, _) => ⟨o.rows, some first⟩
  | (Signal.endInsertRows, model) =>
    match o.pending with
    | none => o
    | some row =>
      match model.get? row.toNat with
      | none => ⟨o.rows, none⟩
      | some entry => ⟨o.rows.insertIdx row.toNat entry, none⟩
  | (Signal.beginRemoveRows first _, _) => ⟨o.rows, some first⟩
  | (Signal.endRemoveRows, _) =>
    match o.pending with
    | none => o
    | some row => ⟨o.rows.eraseIdx row.toNat, none⟩
  | (Signal.dataChanged topLeft _ _, model) =>
    match model.get? topLeft.toNat with
    | none => o
    | some entry => ⟨o.rows.set topLeft.toNat entry, o.pending⟩

/-- Replay of a sequence of emitted signals, oldest first. -/
def replay (o : Observer GenTime) (evs : List (Signal × List (GenTime × KeyframeType))) :
    Observer GenTime :=
  evs.foldl receive o

end Observer

/-- The closures that the model builds: `[]() { return true; }`, the three command
closures, and the sequences assembled by `UPDATE_UNDO_REDO`. -/
inductive IsCommand {GenTime : Type} [LinearOrder GenTime] (QT_NO_DEBUG : Bool) :
    Fun GenTime → Prop where
  | true_lambda : IsCommand QT_NO_DEBUG Fun.true_lambda
  | changeType (pos : GenTime) (type : KeyframeType) :
      IsCommand QT_NO_DEBUG (KeyframeModel.changeType_lambda QT_NO_DEBUG pos type)
  | add (pos : GenTime) (type : KeyframeType) :
      IsCommand QT_NO_DEBUG (KeyframeModel.addKeyframe_lambda QT_NO_DEBUG pos type)
  | delete (pos : GenTime) :
      IsCommand QT_NO_DEBUG (KeyframeModel.deleteKeyframe_lambda QT_NO_DEBUG pos)
  | andThen (first second : Fun GenTime) :
      IsCommand QT_NO_DEBUG first → IsCommand QT_NO_DEBUG second →
      IsCommand QT_NO_DEBUG (first.andThen second)

/-- Modelled from the spec: the model `y` has emitted, since it was in the state `x`,
signals whose replay leads an observer holding the entries of `x` (whatever row it has
pending) to the entries of `y`. -/
def Observer.follows {GenTime : Type} (x y : KeyframeModel GenTime) : Prop :=
  ∃ evs, y.emitted = x.emitted ++ evs ∧
    ∀ pending, (Observer.replay ⟨x.m_keyframeList, pending⟩ evs).rows = y.m_keyframeList

/-- The signals that the closure `f` emits on an ordered map, whenever it returns, lead an
observer from the entries stored before to the entries stored after, which are ordered
again. -/
def Fun.replays {GenTime : Type} [LinearOrder GenTime] (f : Fun GenTime) : Prop :=
  ∀ (x y : KeyframeModel GenTime) (b : Bool), std_map.Ordered x.m_keyframeList →
    f x = some (b, y) → std_map.Ordered y.m_keyframeList ∧ Observer.follows x y

/-- The invocation of the closure `f`, one of those the model builds, on the state `x`
violates no `Q_ASSERT` condition: each command closure that runs finds the position it
asserts stored (`changeType_lambda`, `deleteKeyframe_lambda`) or absent
(`addKeyframe_lambda`) at the moment it runs. -/
inductive AssertsHold {GenTime : Type} [LinearOrder GenTime] (QT_NO_DEBUG : Bool) :
    Fun GenTime → KeyframeModel GenTime → Prop where
  | true_lambda (x : KeyframeModel GenTime) : AssertsHold QT_NO_DEBUG Fun.true_lambda x
  | changeType (pos : GenTime) (type : KeyframeType) (x : KeyframeModel GenTime) :
      std_map.count x.m_keyframeList pos > 0 →
      AssertsHold QT_NO_DEBUG (KeyframeModel.changeType_lambda QT_NO_DEBUG pos type) x
  | add (pos : GenTime) (type : KeyframeType) (x : KeyframeModel GenTime) :
      std_map.count x.m_keyframeList pos = 0 →
      AssertsHold QT_NO_DEBUG (KeyframeModel.addKeyframe_lambda QT_NO_DEBUG pos type) x
  | delete (pos : GenTime) (x : KeyframeModel GenTime) :
      std_map.count x.m_keyframeList pos > 0 →
      AssertsHold QT_NO_DEBUG (KeyframeModel.deleteKeyframe_lambda QT_NO_DEBUG pos) x
  | andThen (first second : Fun GenTime) (x x1 : KeyframeModel GenTime) (v : Bool) :
      AssertsHold QT_NO_DEBUG first x → first x = some (v, x1) →
      AssertsHold QT_NO_DEBUG second x1 →
      AssertsHold QT_NO_DEBUG (first.andThen second) x

/-- The invocation of the closure `f` violates no `Q_ASSERT` condition on any state of the
model whose stored entries are `src`. -/
def Fun.assertsHoldFrom {GenTime : Type} [LinearOrder GenTime] (QT_NO_DEBUG : Bool)
    (f : Fun GenTime) (src : List (GenTime × KeyframeType)) : Prop :=
  ∀ x : KeyframeModel GenTime, x.m_keyframeList = src → AssertsHold QT_NO_DEBUG f x

/-- The result `r` of a public call is true with one entry pushed onto the stack `st`; the
undo closure of that entry, invoked directly afterwards, violates no `Q_ASSERT` condition,
returns true and emits signals that lead an observer from the entries the call had
produced to the entries the undo leaves; and its redo closure, invoked after that, does
the same from the entries the undo had left. -/
def observedThroughUndoRedo {GenTime : Type} [LinearOrder GenTime] (QT_NO_DEBUG : Bool)
    (st : DocUndoStack GenTime)
    (r : Option (Bool × KeyframeModel GenTime × DocUndoStack GenTime)) : Prop :=
  ∃ self1 cmd, r = some (true, self1, cmd :: st) ∧
    ∃ self2 self3, AssertsHold QT_NO_DEBUG cmd.m_undo self1 ∧
      cmd.m_undo self1 = some (true, self2) ∧ Observer.follows self1 self2 ∧
      AssertsHold QT_NO_DEBUG cmd.m_redo self2 ∧
      cmd.m_redo self2 = some (true, self3) ∧ Observer.follows self2 self3

/-! ## Facts on the operations of `std::map` -/

namespace std_map

variable {K V : Type} [LinearOrder K]

theorem at_eq_none_iff (m : List (K × V)) (pos : K) : «at» m pos = none ↔ pos ∉ keys m := by
  induction m with
  | nil => simp [«at», keys]
  | cons e rest ih =>
    obtain ⟨k, w⟩ := e
    by_cases h : k = pos
    · simp [«at», keys, h]
    · have h' : ¬ pos = k := fun c => h c.symm
      simp only [keys] at ih
      simp [«at», keys, h, h', ih]

theorem count_eq_zero_iff (m : List (K × V)) (pos : K) : count m pos = 0 ↔ pos ∉ keys m := by
  rw [← at_eq_none_iff]
  unfold count
  cases «at» m pos <;> simp

theorem count_pos_iff (m : List (K × V)) (pos : K) : count m pos > 0 ↔ pos ∈ keys m := by
  have h := count_eq_zero_iff m pos
  constructor
  · intro hc
    by_contra hn
    have := h.mpr hn
    omega
  · intro hm
    by_contra hn
    exact (h.mp (by omega)) hm

theorem count_pos_of_at {m : List (K × V)} {pos : K} {v : V} (h : «at» m pos = some v) :
    count m pos > 0 := by
  simp [count, h]

theorem at_of_count_pos {m : List (K × V)} {pos : K} (h : count m pos > 0) :
    ∃ v, «at» m pos = some v := by
  unfold count at h
  cases hv : «at» m pos with
  | none => simp [hv] at h
  | some v => exact ⟨v, rfl⟩

theorem at_assign_self (m : List (K × V)) (pos : K) (v : V) :
    «at» (assign m pos v) pos = some v := by
  induction m with
  | nil => simp [assign, «at»]
  | cons e rest ih =>
    obtain ⟨k, w⟩ := e
    unfold assign
    split_ifs with h1 h2
    · simp [«at»]
    · simp [«at», ne_of_lt h2, ih]
    · have hk : k = pos := le_antisymm (not_lt.mp h1) (not_lt.mp h2)
      simp [«at», hk]

theorem at_assign_of_ne (m : List (K × V)) (pos : K) (v : V) {p : K} (hp : p ≠ pos) :
    «at» (assign m pos v) p = «at» m p := by
  induction m with
  | nil => simp [assign, «at», Ne.symm hp]
  | cons e rest ih =>
    obtain ⟨k, w⟩ := e
    unfold assign
    split_ifs with h1 h2
    · simp [«at», Ne.symm hp]
    · by_cases hk : k = p
      · simp [«at», hk]
      · simp [«at», hk, ih]
    · have hk : k = pos := le_antisymm (not_lt.mp h1) (not_lt.mp h2)
      have hkp : ¬ k = p := fun c => hp (c.symm.trans hk)
      simp [«at», hkp]

theorem at_erase_of_ne (m : List (K × V)) (pos : K) {p : K} (hp : p ≠ pos) :
    «at» (erase m pos) p = «at» m p := by
  induction m with
  | nil => simp [erase]
  | cons e rest ih =>
    obtain ⟨k, w⟩ := e
    unfold erase
    split_ifs with h1
    · have hkp : ¬ k = p := fun c => hp (c.symm.trans h1)
      simp [«at», hkp]
    · by_cases hk : k = p
      · simp [«at», hk]
      · simp [«at», hk, ih]

theorem Ordered.tail {e : K × V} {rest : List (K × V)} (h : Ordered (e :: rest)) :
    Ordered rest := by
  unfold Ordered keys at *
  exact (List.pairwise_cons.mp h).2

theorem Ordered.head_lt {e : K × V} {rest : List (K × V)} (h : Ordered (e :: rest))
    {p : K} (hp : p ∈ keys rest) : e.1 < p := by
  unfold Ordered keys at h
  exact (List.pairwise_cons.mp h).1 p hp

theorem Ordered.cons {e : K × V} {rest : List (K × V)} (h : Ordered rest)
    (hlt : ∀ p ∈ keys rest, e.1 < p) : Ordered (e :: rest) := by
  unfold Ordered keys at *
  exact List.pairwise_cons.mpr ⟨hlt, h⟩

theorem mem_keys_erase {m : List (K × V)} {pos p : K} (h : p ∈ keys (erase m pos)) :
    p ∈ keys m := by
  induction m with
  | nil => simp [erase, keys] at h
  | cons e rest ih =>
    obtain ⟨k, w⟩ := e
    unfold erase at h
    split_ifs at h with h1
    · simp only [keys, List.map_cons, List.mem_cons]
      exact Or.inr h
    · simp only [keys, List.map_cons, List.mem_cons] at h ⊢
      rcases h with h | h
      · exact Or.inl h
      · exact Or.inr (ih h)

theorem mem_keys_assign {m : List (K × V)} {pos p : K} {v : V}
    (h : p ∈ keys (assign m pos v)) : p = pos ∨ p ∈ keys m := by
  induction m with
  | nil =>
    simp only [assign, keys, List.map_cons, List.map_nil, List.mem_singleton] at h
    exact Or.inl h
  | cons e rest ih =>
    obtain ⟨k, w⟩ := e
    unfold assign at h
    split_ifs at h with h1 h2
    · simp only [keys, List.map_cons, List.mem_cons] at h ⊢
      exact h
    · simp only [keys, List.map_cons, List.mem_cons] at h ⊢
      rcases h with h | h
      · exact Or.inr (Or.inl h)
      · rcases ih h with h | h
        · exact Or.inl h
        · exact Or.inr (Or.inr h)
    · simp only [keys, List.map_cons, List.mem_cons] at h ⊢
      exact Or.inr h

theorem Ordered.erase {m : List (K × V)} (h : Ordered m) (pos : K) : Ordered (erase m pos) := by
  induction m with
  | nil => simpa [std_map.erase] using h
  | cons e rest ih =>
    obtain ⟨k, w⟩ := e
    unfold std_map.erase
    split_ifs with h1
    · exact h.tail
    · exact Ordered.cons (ih h.tail) (fun p hp => h.head_lt (mem_keys_erase hp))

theorem Ordered.assign {m : List (K × V)} (h : Ordered m) (pos : K) (v : V) :
    Ordered (assign m pos v) := by
  induction m with
  | nil => simp [std_map.assign, Ordered, keys]
  | cons e rest ih =>
    obtain ⟨k, w⟩ := e
    unfold std_map.assign
    split_ifs with h1 h2
    · refine Ordered.cons h ?_
      intro p hp
      simp only [keys, List.map_cons, List.mem_cons] at hp
      rcases hp with hp | hp
      · simpa [hp] using h1
      · exact lt_trans h1 (h.head_lt hp)
    · refine Ordered.cons (ih h.tail) ?_
      intro p hp
      rcases mem_keys_assign hp with hp | hp
      · simpa [hp] using h2
      · exact h.head_lt hp
    · exact Ordered.cons h.tail (fun p hp => h.head_lt hp)

theorem erase_assign {m : List (K × V)} {pos : K} (habs : pos ∉ keys m) (v : V) :
    erase (assign m pos v) pos = m := by
  induction m with
  | nil => simp [assign, erase]
  | cons e rest ih =>
    obtain ⟨k, w⟩ := e
    simp only [keys, List.map_cons, List.mem_cons, not_or] at habs
    have hk : ¬ k = pos := fun c => habs.1 c.symm
    unfold assign
    split_ifs with h1 h2
    · simp [erase]
    · simp only [erase, hk, if_false]
      rw [ih habs.2]
    · exact absurd (le_antisymm (not_lt.mp h1) (not_lt.mp h2)) hk

theorem assign_erase {m : List (K × V)} {pos : K} {v : V} (h : Ordered m)
    (hat : «at» m pos = some v) : assign (erase m pos) pos v = m := by
  induction m with
  | nil => simp [«at»] at hat
  | cons e rest ih =>
    obtain ⟨k, w⟩ := e
    by_cases hk : k = pos
    · subst hk
      simp only [«at», if_true, Option.some.injEq] at hat
      subst hat
      simp only [erase, if_true]
      cases rest with
      | nil => simp [assign]
      | cons e2 rest2 =>
        obtain ⟨k2, w2⟩ := e2
        have hlt : k < k2 := h.head_lt (by simp [keys])
        simp [assign, hlt]
    · simp only [«at», hk, if_false] at hat
      have hmem : pos ∈ keys rest := by
        by_contra hn
        rw [(at_eq_none_iff rest pos).mpr hn] at hat
        exact Option.noConfusion hat
      have hlt : k < pos := h.head_lt hmem
      simp only [erase, hk, if_false]
      simp only [assign, not_lt_of_lt hlt, hlt, if_false, if_true]
      rw [ih h.tail hat]

theorem assign_assign {m : List (K × V)} {pos : K} {v : V} (h : Ordered m)
    (hat : «at» m pos = some v) (v2 : V) : assign (assign m pos v2) pos v = m := by
  induction m with
  | nil => simp [«at»] at hat
  | cons e rest ih =>
    obtain ⟨k, w⟩ := e
    by_cases hk : k = pos
    · subst hk
      simp only [«at», if_true, Option.some.injEq] at hat
      subst hat
      simp [assign]
    · simp only [«at», hk, if_false] at hat
      have hmem : pos ∈ keys rest := by
        by_contra hn
        rw [(at_eq_none_iff rest pos).mpr hn] at hat
        exact Option.noConfusion hat
      have hlt : k < pos := h.head_lt hmem
      simp only [assign, not_lt_of_lt hlt, hlt, if_false, if_true]
      rw [ih h.tail hat]

theorem at_erase_self {m : List (K × V)} (h : Ordered m) (pos : K) :
    «at» (erase m pos) pos = none := by
  induction m with
  | nil => simp [erase, «at»]
  | cons e rest ih =>
    obtain ⟨k, w⟩ := e
    by_cases hk : k = pos
    · subst hk
      simp only [erase, if_true]
      rw [at_eq_none_iff]
      intro hc
      exact lt_irrefl _ (h.head_lt hc)
    · simp [erase, «at», hk, ih h.tail]

theorem size_assign_of_absent {m : List (K × V)} {pos : K} (habs : pos ∉ keys m) (v : V) :
    size (assign m pos v) = size m + 1 := by
  induction m with
  | nil => simp [assign, size]
  | cons e rest ih =>
    obtain ⟨k, w⟩ := e
    simp only [keys, List.map_cons, List.mem_cons, not_or] at habs
    unfold assign
    split_ifs with h1 h2
    · simp [size]
    · have := ih habs.2
      simp only [size, List.length_cons] at this ⊢
      omega
    · exact absurd (le_antisymm (not_lt.mp h2) (not_lt.mp h1)) habs.1

theorem keys_assign_of_at {m : List (K × V)} {pos : K} {v : V} (h : Ordered m)
    (hat : «at» m pos = some v) (v2 : V) : keys (assign m pos v2) = keys m := by
  induction m with
  | nil => simp [«at»] at hat
  | cons e rest ih =>
    obtain ⟨k, w⟩ := e
    by_cases hk : k = pos
    · subst hk
      simp [assign, keys]
    · simp only [«at», hk, if_false] at hat
      have hmem : pos ∈ keys rest := by
        by_contra hn
        rw [(at_eq_none_iff rest pos).mpr hn] at hat
        exact Option.noConfusion hat
      have hlt : k < pos := h.head_lt hmem
      have := ih h.tail hat
      simp only [keys] at this
      simp [assign, not_lt_of_lt hlt, hlt, keys, this]

theorem size_erase_of_at {m : List (K × V)} {pos : K} {v : V}
    (hat : «at» m pos = some v) : size (erase m pos) + 1 = size m := by
  induction m with
  | nil => simp [«at»] at hat
  | cons e rest ih =>
    obtain ⟨k, w⟩ := e
    by_cases hk : k = pos
    · simp [erase, hk, size]
    · simp only [«at», hk, if_false] at hat
      have := ih hat
      simp only [size, erase, hk, if_false, List.length_cons] at this ⊢
      omega

theorem index_of_at [Inhabited V] {m : List (K × V)} {pos : K} {v : V}
    (hat : «at» m pos = some v) : index m pos = (v, m) := by
  simp [index, hat]

theorem index_of_absent [Inhabited V] {m : List (K × V)} {pos : K}
    (habs : «at» m pos = none) : index m pos = (default, assign m pos default) := by
  simp [index, habs]

end std_map

/-! ## Facts on the command closures -/

namespace KeyframeModel

variable {GenTime : Type} [LinearOrder GenTime]

theorem Q_ASSERT_of_holds (QT_NO_DEBUG : Bool) {cond : Prop} [Decidable cond] (h : cond) :
    Q_ASSERT QT_NO_DEBUG cond = some () := by
  simp [Q_ASSERT, h]

theorem Q_ASSERT_release (cond : Prop) [Decidable cond] : Q_ASSERT true cond = some () := by
  simp [Q_ASSERT]

theorem Q_ASSERT_debug_of_fails {cond : Prop} [Decidable cond] (h : ¬ cond) :
    Q_ASSERT false cond = none := by
  simp [Q_ASSERT, h]

theorem changeType_lambda_list {QT_NO_DEBUG : Bool} {pos : GenTime} {type : KeyframeType}
    {x y : KeyframeModel GenTime} {b : Bool}
    (h : changeType_lambda QT_NO_DEBUG pos type x = some (b, y)) :
    b = true ∧ y.m_keyframeList = std_map.assign x.m_keyframeList pos type := by
  unfold changeType_lambda at h
  cases hq : Q_ASSERT QT_NO_DEBUG (std_map.count x.m_keyframeList pos > 0) with
  | none => simp [hq] at h
  | some u =>
    simp only [hq, emit, Option.some.injEq, Prod.mk.injEq] at h
    obtain ⟨hb, hy⟩ := h
    subst hy
    exact ⟨hb.symm, rfl⟩

theorem addKeyframe_lambda_list {QT_NO_DEBUG : Bool} {pos : GenTime} {type : KeyframeType}
    {x y : KeyframeModel GenTime} {b : Bool}
    (h : addKeyframe_lambda QT_NO_DEBUG pos type x = some (b, y)) :
    b = true ∧ y.m_keyframeList = std_map.assign x.m_keyframeList pos type := by
  unfold addKeyframe_lambda at h
  cases hq : Q_ASSERT QT_NO_DEBUG (std_map.count x.m_keyframeList pos = 0) with
  | none => simp [hq] at h
  | some u =>
    simp only [hq, emit, Option.some.injEq, Prod.mk.injEq] at h
    obtain ⟨hb, hy⟩ := h
    subst hy
    exact ⟨hb.symm, rfl⟩

theorem deleteKeyframe_lambda_list {QT_NO_DEBUG : Bool} {pos : GenTime}
    {x y : KeyframeModel GenTime} {b : Bool}
    (h : deleteKeyframe_lambda QT_NO_DEBUG pos x = some (b, y)) :
    b = true ∧ y.m_keyframeList = std_map.erase x.m_keyframeList pos := by
  unfold deleteKeyframe_lambda at h
  cases hq : Q_ASSERT QT_NO_DEBUG (std_map.count x.m_keyframeList pos > 0) with
  | none => simp [hq] at h
  | some u =>
    simp only [hq, emit, Option.some.injEq, Prod.mk.injEq] at h
    obtain ⟨hb, hy⟩ := h
    subst hy
    exact ⟨hb.symm, rfl⟩

theorem changeType_lambda_returns (QT_NO_DEBUG : Bool) (pos : GenTime) (type : KeyframeType)
    (x : KeyframeModel GenTime)
    (h : QT_NO_DEBUG = true ∨ std_map.count x.m_keyframeList pos > 0) :
    ∃ y, changeType_lambda QT_NO_DEBUG pos type x = some (true, y) ∧
      y.m_keyframeList = std_map.assign x.m_keyframeList pos type ∧
      y.emitted = x.emitted ++
        [(Signal.dataChanged (std_map.find x.m_keyframeList pos : Nat)
            (std_map.find x.m_keyframeList pos : Nat) [TypeRole],
          std_map.assign x.m_keyframeList pos type)] := by
  have hq : Q_ASSERT QT_NO_DEBUG (std_map.count x.m_keyframeList pos > 0) = some () := by
    rcases h with h | h
    · subst h; exact Q_ASSERT_release _
    · exact Q_ASSERT_of_holds _ h
  simp only [changeType_lambda, hq, emit]
  exact ⟨_, rfl, rfl, rfl⟩

theorem addKeyframe_lambda_returns (QT_NO_DEBUG : Bool) (pos : GenTime) (type : KeyframeType)
    (x : KeyframeModel GenTime)
    (h : QT_NO_DEBUG = true ∨ std_map.count x.m_keyframeList pos = 0) :
    ∃ y, addKeyframe_lambda QT_NO_DEBUG pos type x = some (true, y) ∧
      y.m_keyframeList = std_map.assign x.m_keyframeList pos type := by
  have hq : Q_ASSERT QT_NO_DEBUG (std_map.count x.m_keyframeList pos = 0) = some () := by
    rcases h with h | h
    · subst h; exact Q_ASSERT_release _
    · exact Q_ASSERT_of_holds _ h
  simp only [addKeyframe_lambda, hq, emit]
  exact ⟨_, rfl, rfl⟩

theorem deleteKeyframe_lambda_returns (QT_NO_DEBUG : Bool) (pos : GenTime)
    (x : KeyframeModel GenTime)
    (h : QT_NO_DEBUG = true ∨ std_map.count x.m_keyframeList pos > 0) :
    ∃ y, deleteKeyframe_lambda QT_NO_DEBUG pos x = some (true, y) ∧
      y.m_keyframeList = std_map.erase x.m_keyframeList pos := by
  have hq : Q_ASSERT QT_NO_DEBUG (std_map.count x.m_keyframeList pos > 0) = some () := by
    rcases h with h | h
    · subst h; exact Q_ASSERT_release _
    · exact Q_ASSERT_of_holds _ h
  simp only [deleteKeyframe_lambda, hq, emit]
  exact ⟨_, rfl, rfl⟩

theorem run_local_redo_of_true {local_redo local_undo undo redo : Fun GenTime}
    {x y : KeyframeModel GenTime} (h : local_redo x = some (true, y)) :
    run_local_redo local_redo local_undo undo redo x =
      some (true, (UPDATE_UNDO_REDO local_redo local_undo undo redo).1,
        (UPDATE_UNDO_REDO local_redo local_undo undo redo).2, y) := by
  simp [run_local_redo, h]

/-- The undo closure composed by `UPDATE_UNDO_REDO` runs `reverse` and then `undo`. -/
theorem UPDATE_UNDO_REDO_undo_restores (operation redo : Fun GenTime)
    {reverse undo : Fun GenTime} {a b c : List (GenTime × KeyframeType)}
    (hr : reverse.restores c b) (hu : undo.restores b a) :
    (UPDATE_UNDO_REDO operation reverse undo redo).1.restores c a := by
  intro x hx
  obtain ⟨y, hy, hyl⟩ := hr x hx
  obtain ⟨z, hz, hzl⟩ := hu y hyl
  exact ⟨z, by simp [UPDATE_UNDO_REDO, hy, hz], hzl⟩

/-- The redo closure composed by `UPDATE_UNDO_REDO` runs `redo` and then `operation`. -/
theorem UPDATE_UNDO_REDO_redo_restores {operation reverse undo redo : Fun GenTime}
    {a b c : List (GenTime × KeyframeType)}
    (hr : redo.restores a b) (ho : operation.restores b c) :
    (UPDATE_UNDO_REDO operation reverse undo redo).2.restores a c := by
  intro x hx
  obtain ⟨y, hy, hyl⟩ := hr x hx
  obtain ⟨z, hz, hzl⟩ := ho y hyl
  exact ⟨z, by simp [UPDATE_UNDO_REDO, hy, hz], hzl⟩

theorem true_lambda_restores (a : List (GenTime × KeyframeType)) :
    (Fun.true_lambda : Fun GenTime).restores a a := by
  intro x hx
  exact ⟨x, rfl, hx⟩

theorem addKeyframe_lambda_restores (QT_NO_DEBUG : Bool) {m : List (GenTime × KeyframeType)}
    {pos : GenTime} {type : KeyframeType} (hord : std_map.Ordered m)
    (hat : std_map.«at» m pos = some type) :
    (addKeyframe_lambda QT_NO_DEBUG pos type).restores (std_map.erase m pos) m := by
  intro x hx
  have habs : std_map.count x.m_keyframeList pos = 0 := by
    rw [hx, std_map.count_eq_zero_iff, ← std_map.at_eq_none_iff]
    exact std_map.at_erase_self hord pos
  obtain ⟨y, hy, hyl⟩ := addKeyframe_lambda_returns QT_NO_DEBUG pos type x (Or.inr habs)
  exact ⟨y, hy, by rw [hyl, hx, std_map.assign_erase hord hat]⟩

theorem deleteKeyframe_lambda_restores (QT_NO_DEBUG : Bool)
    {m : List (GenTime × KeyframeType)} {pos : GenTime} (type : KeyframeType)
    (habs : std_map.count m pos = 0) :
    (deleteKeyframe_lambda QT_NO_DEBUG pos).restores (std_map.assign m pos type) m := by
  intro x hx
  have hst : std_map.count x.m_keyframeList pos > 0 := by
    rw [hx]
    exact std_map.count_pos_of_at (std_map.at_assign_self m pos type)
  obtain ⟨y, hy, hyl⟩ := deleteKeyframe_lambda_returns QT_NO_DEBUG pos x (Or.inr hst)
  refine ⟨y, hy, ?_⟩
  rw [hyl, hx, std_map.erase_assign ((std_map.count_eq_zero_iff m pos).mp habs)]

theorem changeType_lambda_restores (QT_NO_DEBUG : Bool) {m : List (GenTime × KeyframeType)}
    {pos : GenTime} {oldType : KeyframeType} (type : KeyframeType)
    (hord : std_map.Ordered m) (hat : std_map.«at» m pos = some oldType) :
    (changeType_lambda QT_NO_DEBUG pos oldType).restores (std_map.assign m pos type) m := by
  intro x hx
  have hst : std_map.count x.m_keyframeList pos > 0 := by
    rw [hx]
    exact std_map.count_pos_of_at (std_map.at_assign_self m pos type)
  obtain ⟨y, hy, hyl, _⟩ := changeType_lambda_returns QT_NO_DEBUG pos oldType x (Or.inr hst)
  refine ⟨y, hy, ?_⟩
  rw [hyl, hx, std_map.assign_assign hord hat]

/-! ## Facts on the composable operations -/

theorem addKeyframe_undo_redo_of_absent (QT_NO_DEBUG : Bool) (pos : GenTime)
    (type : KeyframeType) (undo redo : Fun GenTime) (self : KeyframeModel GenTime)
    (habs : std_map.count self.m_keyframeList pos = 0) :
    ∃ y, addKeyframe_lambda QT_NO_DEBUG pos type self = some (true, y) ∧
      y.m_keyframeList = std_map.assign self.m_keyframeList pos type ∧
      addKeyframe_undo_redo QT_NO_DEBUG pos type undo redo self =
        some (true,
          (UPDATE_UNDO_REDO (addKeyframe_lambda QT_NO_DEBUG pos type)
            (deleteKeyframe_lambda QT_NO_DEBUG pos) undo redo).1,
          (UPDATE_UNDO_REDO (addKeyframe_lambda QT_NO_DEBUG pos type)
            (deleteKeyframe_lambda QT_NO_DEBUG pos) undo redo).2, y) := by
  obtain ⟨y, hy, hyl⟩ := addKeyframe_lambda_returns QT_NO_DEBUG pos type self (Or.inr habs)
  refine ⟨y, hy, hyl, ?_⟩
  have hc : ¬ std_map.count self.m_keyframeList pos > 0 := by omega
  simp only [addKeyframe_undo_redo, hc, if_false]
  exact run_local_redo_of_true hy

theorem addKeyframe_undo_redo_of_same (QT_NO_DEBUG : Bool) (pos : GenTime)
    (type : KeyframeType) (undo redo : Fun GenTime) (self : KeyframeModel GenTime)
    (hat : std_map.«at» self.m_keyframeList pos = some type) :
    addKeyframe_undo_redo QT_NO_DEBUG pos type undo redo self = some (true, undo, redo, self) := by
  have hc : std_map.count self.m_keyframeList pos > 0 := std_map.count_pos_of_at hat
  simp [addKeyframe_undo_redo, hc, hat]

theorem addKeyframe_undo_redo_of_other (QT_NO_DEBUG : Bool) (pos : GenTime)
    (type oldType : KeyframeType) (undo redo : Fun GenTime) (self : KeyframeModel GenTime)
    (hat : std_map.«at» self.m_keyframeList pos = some oldType) (hne : type ≠ oldType) :
    ∃ y, changeType_lambda QT_NO_DEBUG pos type self = some (true, y) ∧
      y.m_keyframeList = std_map.assign self.m_keyframeList pos type ∧
      addKeyframe_undo_redo QT_NO_DEBUG pos type undo redo self =
        some (true,
          (UPDATE_UNDO_REDO (changeType_lambda QT_NO_DEBUG pos type)
            (changeType_lambda QT_NO_DEBUG pos oldType) undo redo).1,
          (UPDATE_UNDO_REDO (changeType_lambda QT_NO_DEBUG pos type)
            (changeType_lambda QT_NO_DEBUG pos oldType) undo redo).2, y) := by
  have hc : std_map.count self.m_keyframeList pos > 0 := std_map.count_pos_of_at hat
  obtain ⟨y, hy, hyl, _⟩ := changeType_lambda_returns QT_NO_DEBUG pos type self (Or.inr hc)
  refine ⟨y, hy, hyl, ?_⟩
  simp only [addKeyframe_undo_redo, hc, if_true, hat, hne, if_false,
    std_map.index_of_at hat]
  exact run_local_redo_of_true hy

theorem removeKeyframe_undo_redo_of_stored (QT_NO_DEBUG : Bool) (pos : GenTime)
    (oldType : KeyframeType) (undo redo : Fun GenTime) (self : KeyframeModel GenTime)
    (hat : std_map.«at» self.m_keyframeList pos = some oldType) :
    ∃ y, deleteKeyframe_lambda QT_NO_DEBUG pos self = some (true, y) ∧
      y.m_keyframeList = std_map.erase self.m_keyframeList pos ∧
      removeKeyframe_undo_redo QT_NO_DEBUG pos undo redo self =
        some (true,
          (UPDATE_UNDO_REDO (deleteKeyframe_lambda QT_NO_DEBUG pos)
            (addKeyframe_lambda QT_NO_DEBUG pos oldType) undo redo).1,
          (UPDATE_UNDO_REDO (deleteKeyframe_lambda QT_NO_DEBUG pos)
            (addKeyframe_lambda QT_NO_DEBUG pos oldType) undo redo).2, y) := by
  have hc : std_map.count self.m_keyframeList pos > 0 := std_map.count_pos_of_at hat
  obtain ⟨y, hy, hyl⟩ := deleteKeyframe_lambda_returns QT_NO_DEBUG pos self (Or.inr hc)
  refine ⟨y, hy, hyl, ?_⟩
  simp only [removeKeyframe_undo_redo, Q_ASSERT_of_holds QT_NO_DEBUG hc,
    std_map.index_of_at hat]
  exact run_local_redo_of_true hy

/-- The composable `addKeyframe` on an ordered map returns true, and the accumulated undo
closure leads from the new entries back to wherever the passed one led from the old
entries. -/
theorem addKeyframe_undo_redo_restores (QT_NO_DEBUG : Bool) (pos : GenTime)
    (type : KeyframeType) (undo redo : Fun GenTime) (self : KeyframeModel GenTime)
    (hord : std_map.Ordered self.m_keyframeList) :
    ∃ undo1 redo1 y, addKeyframe_undo_redo QT_NO_DEBUG pos type undo redo self =
        some (true, undo1, redo1, y) ∧
      std_map.Ordered y.m_keyframeList ∧
      ∀ z, undo.restores self.m_keyframeList z → undo1.restores y.m_keyframeList z := by
  cases hat : std_map.«at» self.m_keyframeList pos with
  | none =>
    have habs : std_map.count self.m_keyframeList pos = 0 := by simp [std_map.count, hat]
    obtain ⟨y, _, hyl, hres⟩ :=
      addKeyframe_undo_redo_of_absent QT_NO_DEBUG pos type undo redo self habs
    refine ⟨_, _, y, hres, ?_, ?_⟩
    · rw [hyl]; exact hord.assign pos type
    · intro z hz
      rw [hyl]
      exact UPDATE_UNDO_REDO_undo_restores _ _
        (deleteKeyframe_lambda_restores QT_NO_DEBUG type habs) hz
  | some oldType =>
    by_cases hne : type = oldType
    · subst hne
      exact ⟨undo, redo, self,
        addKeyframe_undo_redo_of_same QT_NO_DEBUG pos type undo redo self hat, hord,
        fun z hz => hz⟩
    · obtain ⟨y, _, hyl, hres⟩ :=
        addKeyframe_undo_redo_of_other QT_NO_DEBUG pos type oldType undo redo self hat hne
      refine ⟨_, _, y, hres, ?_, ?_⟩
      · rw [hyl]; exact hord.assign pos type
      · intro z hz
        rw [hyl]
        exact UPDATE_UNDO_REDO_undo_restores _ _
          (changeType_lambda_restores QT_NO_DEBUG type hord hat) hz

/-- The composable `removeKeyframe` of a stored position of an ordered map returns true,
and the accumulated undo closure leads from the new entries back to wherever the passed
one led from the old entries. -/
theorem removeKeyframe_undo_redo_restores (QT_NO_DEBUG : Bool) (pos : GenTime)
    (undo redo : Fun GenTime) (self : KeyframeModel GenTime)
    (hord : std_map.Ordered self.m_keyframeList)
    (hst : std_map.count self.m_keyframeList pos > 0) :
    ∃ undo1 redo1 y, removeKeyframe_undo_redo QT_NO_DEBUG pos undo redo self =
        some (true, undo1, redo1, y) ∧
      y.m_keyframeList = std_map.erase self.m_keyframeList pos ∧
      ∀ z, undo.restores self.m_keyframeList z → undo1.restores y.m_keyframeList z := by
  obtain ⟨oldType, hat⟩ := std_map.at_of_count_pos hst
  obtain ⟨y, _, hyl, hres⟩ :=
    removeKeyframe_undo_redo_of_stored QT_NO_DEBUG pos oldType undo redo self hat
  refine ⟨_, _, y, hres, hyl, ?_⟩
  intro z hz
  rw [hyl]
  exact UPDATE_UNDO_REDO_undo_restores _ _
    (addKeyframe_lambda_restores QT_NO_DEBUG hord hat) hz

end KeyframeModel

/-! ## Facts on the public operations and on sequences of calls -/

section CallFacts

variable {GenTime : Type} [LinearOrder GenTime]

open KeyframeModel

theorem addKeyframe_of_true {QT_NO_DEBUG : Bool} {pos : GenTime} {type : KeyframeType}
    {self y : KeyframeModel GenTime} {undo1 redo1 : Fun GenTime}
    (st : DocUndoStack GenTime)
    (h : addKeyframe_undo_redo QT_NO_DEBUG pos type Fun.true_lambda Fun.true_lambda self =
      some (true, undo1, redo1, y)) :
    KeyframeModel.addKeyframe QT_NO_DEBUG pos type self st =
      some (true, y, (⟨undo1, redo1,
        (if decide (std_map.count self.m_keyframeList pos > 0) = true
          then "Change keyframe type" else "Add keyframe")⟩ : FunctionalUndoCommand GenTime)
        :: st) := by
  simp only [KeyframeModel.addKeyframe, h, if_true, PUSH_UNDO]

theorem removeKeyframe_of_true {QT_NO_DEBUG : Bool} {pos : GenTime}
    {self y : KeyframeModel GenTime} {undo1 redo1 : Fun GenTime}
    (st : DocUndoStack GenTime)
    (h : removeKeyframe_undo_redo QT_NO_DEBUG pos Fun.true_lambda Fun.true_lambda self =
      some (true, undo1, redo1, y)) :
    KeyframeModel.removeKeyframe QT_NO_DEBUG pos self st =
      some (true, y,
        (⟨undo1, redo1, "Delete keyframe"⟩ : FunctionalUndoCommand GenTime) :: st) := by
  simp only [KeyframeModel.removeKeyframe, h, if_true, PUSH_UNDO]

/-- The public `addKeyframe` at an absent position pushes one entry, whose undo closure
leads back to the former entries. -/
theorem addKeyframe_absent_undo (QT_NO_DEBUG : Bool) (pos : GenTime) (type : KeyframeType)
    (self : KeyframeModel GenTime) (st : DocUndoStack GenTime)
    (habs : std_map.count self.m_keyframeList pos = 0) :
    ∃ self1 cmd, KeyframeModel.addKeyframe QT_NO_DEBUG pos type self st =
        some (true, self1, cmd :: st) ∧
      self1.m_keyframeList = std_map.assign self.m_keyframeList pos type ∧
      cmd.m_undo.restores self1.m_keyframeList self.m_keyframeList := by
  obtain ⟨y, _, hyl, hres⟩ := addKeyframe_undo_redo_of_absent QT_NO_DEBUG pos type
    Fun.true_lambda Fun.true_lambda self habs
  refine ⟨y, _, addKeyframe_of_true st hres, hyl, ?_⟩
  rw [hyl]
  exact UPDATE_UNDO_REDO_undo_restores (addKeyframe_lambda QT_NO_DEBUG pos type)
    Fun.true_lambda (deleteKeyframe_lambda_restores QT_NO_DEBUG type habs)
    (true_lambda_restores self.m_keyframeList)

/-- The public `addKeyframe` at a position stored with another type pushes one entry,
whose undo closure leads back to the former entries. -/
theorem addKeyframe_other_undo (QT_NO_DEBUG : Bool) (pos : GenTime) (t1 t2 : KeyframeType)
    (self : KeyframeModel GenTime) (st : DocUndoStack GenTime)
    (hord : std_map.Ordered self.m_keyframeList)
    (hat : std_map.«at» self.m_keyframeList pos = some t1) (hne : t2 ≠ t1) :
    ∃ self1 cmd, KeyframeModel.addKeyframe QT_NO_DEBUG pos t2 self st =
        some (true, self1, cmd :: st) ∧
      self1.m_keyframeList = std_map.assign self.m_keyframeList pos t2 ∧
      cmd.m_undo.restores self1.m_keyframeList self.m_keyframeList := by
  obtain ⟨y, _, hyl, hres⟩ := addKeyframe_undo_redo_of_other QT_NO_DEBUG pos t2 t1
    Fun.true_lambda Fun.true_lambda self hat hne
  refine ⟨y, _, addKeyframe_of_true st hres, hyl, ?_⟩
  rw [hyl]
  exact UPDATE_UNDO_REDO_undo_restores (changeType_lambda QT_NO_DEBUG pos t2)
    Fun.true_lambda (changeType_lambda_restores QT_NO_DEBUG t2 hord hat)
    (true_lambda_restores self.m_keyframeList)

/-- The public `addKeyframe` at a position stored with the same type changes nothing in
the model and pushes an entry made of the two closures `[]() { return true; }`. -/
theorem addKeyframe_of_same (QT_NO_DEBUG : Bool) (pos : GenTime) (type : KeyframeType)
    (self : KeyframeModel GenTime) (st : DocUndoStack GenTime)
    (hat : std_map.«at» self.m_keyframeList pos = some type) :
    KeyframeModel.addKeyframe QT_NO_DEBUG pos type self st =
      some (true, self, (⟨Fun.true_lambda, Fun.true_lambda, "Change keyframe type"⟩ :
        FunctionalUndoCommand GenTime) :: st) := by
  have h := addKeyframe_of_true st
    (addKeyframe_undo_redo_of_same QT_NO_DEBUG pos type Fun.true_lambda Fun.true_lambda self hat)
  rw [h]
  simp [std_map.count_pos_of_at hat]

/-- The public `removeKeyframe` of a stored position pushes one entry, whose undo closure
leads back to the former entries. -/
theorem removeKeyframe_stored_undo (QT_NO_DEBUG : Bool) (pos : GenTime)
    (self : KeyframeModel GenTime) (st : DocUndoStack GenTime)
    (hord : std_map.Ordered self.m_keyframeList)
    (hst : std_map.count self.m_keyframeList pos > 0) :
    ∃ self1 cmd, KeyframeModel.removeKeyframe QT_NO_DEBUG pos self st =
        some (true, self1, cmd :: st) ∧
      self1.m_keyframeList = std_map.erase self.m_keyframeList pos ∧
      cmd.m_undo.restores self1.m_keyframeList self.m_keyframeList := by
  obtain ⟨undo1, redo1, y, hres, hyl, hrest⟩ :=
    removeKeyframe_undo_redo_restores QT_NO_DEBUG pos Fun.true_lambda Fun.true_lambda
      self hord hst
  exact ⟨y, _, removeKeyframe_of_true st hres, hyl, hrest _ (true_lambda_restores _)⟩

/-- The public `removeKeyframe` of an absent position: the abort of `Q_ASSERT`, or, with
`Q_ASSERT` compiled out, the insertion by `operator[]` followed by its removal. -/
theorem removeKeyframe_of_absent (pos : GenTime)
    (self : KeyframeModel GenTime) (st : DocUndoStack GenTime)
    (habs : std_map.count self.m_keyframeList pos = 0) :
    KeyframeModel.removeKeyframe false pos self st = none ∧
    ∃ self1 st1, KeyframeModel.removeKeyframe true pos self st = some (true, self1, st1) ∧
      self1.m_keyframeList = self.m_keyframeList := by
  have hnone : std_map.«at» self.m_keyframeList pos = none :=
    (std_map.at_eq_none_iff _ _).mpr ((std_map.count_eq_zero_iff _ _).mp habs)
  constructor
  · have hq : Q_ASSERT false (std_map.count self.m_keyframeList pos > 0) = none :=
      Q_ASSERT_debug_of_fails (by omega)
    simp [KeyframeModel.removeKeyframe, removeKeyframe_undo_redo, hq]
  · obtain ⟨y, hy, hyl⟩ := deleteKeyframe_lambda_returns true pos
      { self with m_keyframeList := std_map.assign self.m_keyframeList pos default }
      (Or.inl rfl)
    have hres : removeKeyframe_undo_redo true pos Fun.true_lambda Fun.true_lambda self =
        some (true,
          (UPDATE_UNDO_REDO (deleteKeyframe_lambda true pos)
            (addKeyframe_lambda true pos default) Fun.true_lambda Fun.true_lambda).1,
          (UPDATE_UNDO_REDO (deleteKeyframe_lambda true pos)
            (addKeyframe_lambda true pos default) Fun.true_lambda Fun.true_lambda).2, y) := by
      simp only [removeKeyframe_undo_redo, Q_ASSERT_release, std_map.index_of_absent hnone]
      exact run_local_redo_of_true hy
    refine ⟨y, _, removeKeyframe_of_true st hres, ?_⟩
    rw [hyl]
    exact std_map.erase_assign ((std_map.count_eq_zero_iff _ _).mp habs) default

theorem undoPushed_single_restores {cmd : FunctionalUndoCommand GenTime}
    {a b : List (GenTime × KeyframeType)} (h : cmd.m_undo.restores a b) :
    (undoPushed [cmd]).restores a b := by
  intro x hx
  obtain ⟨y, hy, hyl⟩ := h x hx
  exact ⟨y, by simp [undoPushed, hy], hyl⟩

theorem undoPushed_append {l1 l2 : List (FunctionalUndoCommand GenTime)}
    {x y z : KeyframeModel GenTime} (h1 : undoPushed l1 x = some (true, y))
    (h2 : undoPushed l2 y = some (true, z)) : undoPushed (l1 ++ l2) x = some (true, z) := by
  induction l1 generalizing x with
  | nil =>
    simp only [undoPushed, Option.some.injEq, Prod.mk.injEq, true_and] at h1
    subst h1
    simpa using h2
  | cons cmd rest ih =>
    simp only [undoPushed] at h1
    cases hc : cmd.m_undo x with
    | none => simp [hc] at h1
    | some r =>
      obtain ⟨ok, x1⟩ := r
      cases hr : undoPushed rest x1 with
      | none => simp [hc, hr] at h1
      | some r2 =>
        obtain ⟨oks, x2⟩ := r2
        simp only [hc, hr, Option.some.injEq, Prod.mk.injEq, Bool.and_eq_true] at h1
        obtain ⟨⟨hok, hoks⟩, hx2⟩ := h1
        subst hok hoks hx2
        have := ih hr
        simp [undoPushed, hc, this]

/-- A public `addKeyframe`, `removeKeyframe` or `moveKeyframe` call on an ordered map
that names a stored position returns true and pushes at most one entry, whose undo
closure leads back to the entries stored before the call. -/
theorem Call.run_restores (QT_NO_DEBUG : Bool) (c : Call GenTime)
    (self : KeyframeModel GenTime) (st : DocUndoStack GenTime)
    (hord : std_map.Ordered self.m_keyframeList) (hv : c.namesStored self) :
    ∃ self1 pushed, c.run QT_NO_DEBUG self st = some (true, self1, pushed ++ st) ∧
      std_map.Ordered self1.m_keyframeList ∧
      (undoPushed pushed).restores self1.m_keyframeList self.m_keyframeList := by
  cases c with
  | addKeyframe pos type =>
    obtain ⟨undo1, redo1, y, hres, hyo, hrest⟩ :=
      addKeyframe_undo_redo_restores QT_NO_DEBUG pos type Fun.true_lambda Fun.true_lambda
        self hord
    refine ⟨y, [⟨undo1, redo1, if (decide (std_map.count self.m_keyframeList pos > 0)) = true
        then "Change keyframe type" else "Add keyframe"⟩], ?_, hyo,
      undoPushed_single_restores (hrest _ (true_lambda_restores _))⟩
    simp only [Call.run, KeyframeModel.addKeyframe, hres, if_true, PUSH_UNDO,
      List.singleton_append]
  | removeKeyframe pos =>
    obtain ⟨undo1, redo1, y, hres, hyl, hrest⟩ :=
      removeKeyframe_undo_redo_restores QT_NO_DEBUG pos Fun.true_lambda Fun.true_lambda
        self hord hv
    refine ⟨y, [⟨undo1, redo1, "Delete keyframe"⟩], ?_, ?_,
      undoPushed_single_restores (hrest _ (true_lambda_restores _))⟩
    · simp only [Call.run, KeyframeModel.removeKeyframe, hres, if_true, PUSH_UNDO,
        List.singleton_append]
    · rw [hyl]; exact hord.erase pos
  | moveKeyframe oldPos pos =>
    have hst : std_map.count self.m_keyframeList oldPos > 0 := hv
    obtain ⟨oldType, hat⟩ := std_map.at_of_count_pos hst
    by_cases heq : oldPos = pos
    · subst heq
      refine ⟨self, [], ?_, hord, ?_⟩
      · simp [Call.run, KeyframeModel.moveKeyframe, Q_ASSERT_of_holds QT_NO_DEBUG hst,
          std_map.index_of_at hat]
      · intro x hx
        exact ⟨x, rfl, hx⟩
    · obtain ⟨undo1, redo1, y, hres, hyl, hrest⟩ :=
        removeKeyframe_undo_redo_restores QT_NO_DEBUG oldPos Fun.true_lambda
          Fun.true_lambda self hord hst
      have hyo : std_map.Ordered y.m_keyframeList := by rw [hyl]; exact hord.erase oldPos
      obtain ⟨undo2, redo2, y2, hres2, hyo2, hrest2⟩ :=
        addKeyframe_undo_redo_restores QT_NO_DEBUG pos oldType undo1 redo1 y hyo
      refine ⟨y2, [⟨undo2, redo2, "Move keyframe"⟩], ?_, hyo2,
        undoPushed_single_restores (hrest2 _ (hrest _ (true_lambda_restores _)))⟩
      simp only [Call.run, KeyframeModel.moveKeyframe, Q_ASSERT_of_holds QT_NO_DEBUG hst,
        std_map.index_of_at hat, heq, if_false, hres, if_true, hres2, PUSH_UNDO,
        List.singleton_append]

/-! ## The invariant of `std::map` in every reachable state -/

theorem true_lambda_keepsOrdered : (Fun.true_lambda : Fun GenTime).keepsOrdered := by
  intro x y b hx h
  simp only [Fun.true_lambda, Option.some.injEq, Prod.mk.injEq] at h
  rw [← h.2]; exact hx

theorem changeType_lambda_keepsOrdered (QT_NO_DEBUG : Bool) (pos : GenTime)
    (type : KeyframeType) : (changeType_lambda QT_NO_DEBUG pos type).keepsOrdered := by
  intro x y b hx h
  rw [(changeType_lambda_list h).2]; exact hx.assign pos type

theorem addKeyframe_lambda_keepsOrdered (QT_NO_DEBUG : Bool) (pos : GenTime)
    (type : KeyframeType) : (addKeyframe_lambda QT_NO_DEBUG pos type).keepsOrdered := by
  intro x y b hx h
  rw [(addKeyframe_lambda_list h).2]; exact hx.assign pos type

theorem deleteKeyframe_lambda_keepsOrdered (QT_NO_DEBUG : Bool) (pos : GenTime) :
    (deleteKeyframe_lambda QT_NO_DEBUG pos).keepsOrdered := by
  intro x y b hx h
  rw [(deleteKeyframe_lambda_list h).2]; exact hx.erase pos

theorem UPDATE_UNDO_REDO_keepsOrdered {operation reverse undo redo : Fun GenTime}
    (ho : operation.keepsOrdered) (hr : reverse.keepsOrdered)
    (hu : undo.keepsOrdered) (hd : redo.keepsOrdered) :
    (UPDATE_UNDO_REDO operation reverse undo redo).1.keepsOrdered ∧
      (UPDATE_UNDO_REDO operation reverse undo redo).2.keepsOrdered := by
  constructor
  · intro x y b hx h
    simp only [UPDATE_UNDO_REDO] at h
    cases h1 : reverse x with
    | none => simp [h1] at h
    | some r1 =>
      obtain ⟨v, x1⟩ := r1
      cases h2 : undo x1 with
      | none => simp [h1, h2] at h
      | some r2 =>
        obtain ⟨u, x2⟩ := r2
        simp only [h1, h2, Option.some.injEq, Prod.mk.injEq] at h
        rw [← h.2]
        exact hu x1 x2 u (hr x x1 v hx h1) h2
  · intro x y b hx h
    simp only [UPDATE_UNDO_REDO] at h
    cases h1 : redo x with
    | none => simp [h1] at h
    | some r1 =>
      obtain ⟨v, x1⟩ := r1
      cases h2 : operation x1 with
      | none => simp [h1, h2] at h
      | some r2 =>
        obtain ⟨u, x2⟩ := r2
        simp only [h1, h2, Option.some.injEq, Prod.mk.injEq] at h
        rw [← h.2]
        exact ho x1 x2 u (hd x x1 v hx h1) h2

theorem run_local_redo_keepsOrdered {local_redo local_undo undo redo undo1 redo1 : Fun GenTime}
    {x y : KeyframeModel GenTime} {b : Bool}
    (ho : local_redo.keepsOrdered) (hr : local_undo.keepsOrdered)
    (hu : undo.keepsOrdered) (hd : redo.keepsOrdered)
    (hx : std_map.Ordered x.m_keyframeList)
    (h : run_local_redo local_redo local_undo undo redo x = some (b, undo1, redo1, y)) :
    std_map.Ordered y.m_keyframeList ∧ undo1.keepsOrdered ∧ redo1.keepsOrdered := by
  unfold run_local_redo at h
  cases h1 : local_redo x with
  | none => simp [h1] at h
  | some r1 =>
    obtain ⟨v, x1⟩ := r1
    have hx1 := ho x x1 v hx h1
    cases v with
    | true =>
      simp only [h1, Option.some.injEq, Prod.mk.injEq] at h
      obtain ⟨_, h2, h3, h4⟩ := h
      have hk := UPDATE_UNDO_REDO_keepsOrdered ho hr hu hd
      rw [← h2, ← h3, ← h4]
      exact ⟨hx1, hk.1, hk.2⟩
    | false =>
      simp only [h1, Option.some.injEq, Prod.mk.injEq] at h
      obtain ⟨_, h2, h3, h4⟩ := h
      rw [← h2, ← h3, ← h4]
      exact ⟨hx1, hu, hd⟩

theorem index_ordered {m : List (GenTime × KeyframeType)}
    (h : std_map.Ordered m) (pos : GenTime) : std_map.Ordered (std_map.index m pos).2 := by
  unfold std_map.index
  cases std_map.«at» m pos with
  | none => exact h.assign pos default
  | some v => exact h

theorem addKeyframe_undo_redo_keepsOrdered {QT_NO_DEBUG : Bool} {pos : GenTime}
    {type : KeyframeType} {undo redo undo1 redo1 : Fun GenTime}
    {x y : KeyframeModel GenTime} {b : Bool}
    (hu : undo.keepsOrdered) (hd : redo.keepsOrdered)
    (hx : std_map.Ordered x.m_keyframeList)
    (h : addKeyframe_undo_redo QT_NO_DEBUG pos type undo redo x = some (b, undo1, redo1, y)) :
    std_map.Ordered y.m_keyframeList ∧ undo1.keepsOrdered ∧ redo1.keepsOrdered := by
  unfold addKeyframe_undo_redo at h
  split_ifs at h with hc
  · cases hat : std_map.«at» x.m_keyframeList pos with
    | none => simp [hat] at h
    | some current =>
      simp only [hat] at h
      split_ifs at h with hty
      · simp only [Option.some.injEq, Prod.mk.injEq] at h
        obtain ⟨_, h2, h3, h4⟩ := h
        rw [← h2, ← h3, ← h4]
        exact ⟨hx, hu, hd⟩
      · exact run_local_redo_keepsOrdered (changeType_lambda_keepsOrdered _ _ _)
          (changeType_lambda_keepsOrdered _ _ _) hu hd (index_ordered hx pos) h
  · exact run_local_redo_keepsOrdered (addKeyframe_lambda_keepsOrdered _ _ _)
      (deleteKeyframe_lambda_keepsOrdered _ _) hu hd hx h

theorem removeKeyframe_undo_redo_keepsOrdered {QT_NO_DEBUG : Bool} {pos : GenTime}
    {undo redo undo1 redo1 : Fun GenTime}
    {x y : KeyframeModel GenTime} {b : Bool}
    (hu : undo.keepsOrdered) (hd : redo.keepsOrdered)
    (hx : std_map.Ordered x.m_keyframeList)
    (h : removeKeyframe_undo_redo QT_NO_DEBUG pos undo redo x = some (b, undo1, redo1, y)) :
    std_map.Ordered y.m_keyframeList ∧ undo1.keepsOrdered ∧ redo1.keepsOrdered := by
  unfold removeKeyframe_undo_redo at h
  cases hq : Q_ASSERT QT_NO_DEBUG (std_map.count x.m_keyframeList pos > 0) with
  | none => simp [hq] at h
  | some u =>
    simp only [hq] at h
    exact run_local_redo_keepsOrdered (deleteKeyframe_lambda_keepsOrdered _ _)
      (addKeyframe_lambda_keepsOrdered _ _ _) hu hd (index_ordered hx pos) h

theorem Invariant.push {self : KeyframeModel GenTime} {st : DocUndoStack GenTime}
    {undo redo : Fun GenTime} (text : String) (hst : ∀ cmd ∈ st, cmd.m_undo.keepsOrdered ∧
      cmd.m_redo.keepsOrdered) (hx : std_map.Ordered self.m_keyframeList)
    (hu : undo.keepsOrdered) (hd : redo.keepsOrdered) :
    Invariant self (PUSH_UNDO undo redo text st) := by
  refine ⟨hx, ?_⟩
  intro cmd hcmd
  simp only [PUSH_UNDO, List.mem_cons] at hcmd
  rcases hcmd with hcmd | hcmd
  · subst hcmd; exact ⟨hu, hd⟩
  · exact hst cmd hcmd

theorem addKeyframe_invariant {QT_NO_DEBUG : Bool} {pos : GenTime} {type : KeyframeType}
    {self self1 : KeyframeModel GenTime} {st st1 : DocUndoStack GenTime} {res : Bool}
    (hinv : Invariant self st)
    (h : KeyframeModel.addKeyframe QT_NO_DEBUG pos type self st = some (res, self1, st1)) :
    Invariant self1 st1 := by
  unfold KeyframeModel.addKeyframe at h
  cases hr : addKeyframe_undo_redo QT_NO_DEBUG pos type Fun.true_lambda Fun.true_lambda self with
  | none => simp [hr] at h
  | some r =>
    obtain ⟨b, undo1, redo1, y⟩ := r
    obtain ⟨hy, hu, hd⟩ := addKeyframe_undo_redo_keepsOrdered true_lambda_keepsOrdered
      true_lambda_keepsOrdered hinv.1 hr
    cases b with
    | true =>
      simp only [hr, if_true, Option.some.injEq, Prod.mk.injEq] at h
      obtain ⟨_, h2, h3⟩ := h
      rw [← h2, ← h3]
      exact Invariant.push _ hinv.2 hy hu hd
    | false =>
      simp only [hr, Bool.false_eq_true, if_false, Option.some.injEq, Prod.mk.injEq] at h
      obtain ⟨_, h2, h3⟩ := h
      rw [← h2, ← h3]
      exact ⟨hy, hinv.2⟩

theorem removeKeyframe_invariant {QT_NO_DEBUG : Bool} {pos : GenTime}
    {self self1 : KeyframeModel GenTime} {st st1 : DocUndoStack GenTime} {res : Bool}
    (hinv : Invariant self st)
    (h : KeyframeModel.removeKeyframe QT_NO_DEBUG pos self st = some (res, self1, st1)) :
    Invariant self1 st1 := by
  unfold KeyframeModel.removeKeyframe at h
  cases hr : removeKeyframe_undo_redo QT_NO_DEBUG pos Fun.true_lambda Fun.true_lambda self with
  | none => simp [hr] at h
  | some r =>
    obtain ⟨b, undo1, redo1, y⟩ := r
    obtain ⟨hy, hu, hd⟩ := removeKeyframe_undo_redo_keepsOrdered true_lambda_keepsOrdered
      true_lambda_keepsOrdered hinv.1 hr
    simp only [hr] at h
    split_ifs at h with hb
    · simp only [Option.some.injEq, Prod.mk.injEq] at h
      obtain ⟨_, h2, h3⟩ := h
      rw [← h2, ← h3]
      exact Invariant.push _ hinv.2 hy hu hd
    · simp only [Option.some.injEq, Prod.mk.injEq] at h
      obtain ⟨_, h2, h3⟩ := h
      rw [← h2, ← h3]
      exact ⟨hy, hinv.2⟩

theorem moveKeyframe_invariant {QT_NO_DEBUG : Bool} {oldPos pos : GenTime}
    {self self1 : KeyframeModel GenTime} {st st1 : DocUndoStack GenTime} {res : Bool}
    (hinv : Invariant self st)
    (h : KeyframeModel.moveKeyframe QT_NO_DEBUG oldPos pos self st = some (res, self1, st1)) :
    Invariant self1 st1 := by
  unfold KeyframeModel.moveKeyframe at h
  cases hq : Q_ASSERT QT_NO_DEBUG (std_map.count self.m_keyframeList oldPos > 0) with
  | none => simp [hq] at h
  | some u =>
    simp only [hq] at h
    have hi := index_ordered hinv.1 oldPos
    split_ifs at h with heq
    · simp only [Option.some.injEq, Prod.mk.injEq] at h
      obtain ⟨_, h2, h3⟩ := h
      rw [← h2, ← h3]
      exact ⟨hi, hinv.2⟩
    · cases hr : removeKeyframe_undo_redo QT_NO_DEBUG oldPos Fun.true_lambda Fun.true_lambda
          { self with m_keyframeList := (std_map.index self.m_keyframeList oldPos).2 } with
      | none => simp [hr] at h
      | some r =>
        obtain ⟨b, undo1, redo1, y⟩ := r
        obtain ⟨hy, hu, hd⟩ := removeKeyframe_undo_redo_keepsOrdered true_lambda_keepsOrdered
          true_lambda_keepsOrdered hi hr
        simp only [hr] at h
        cases hr2 : (if b = true then addKeyframe_undo_redo QT_NO_DEBUG pos
            (std_map.index self.m_keyframeList oldPos).1 undo1 redo1 y
            else some (b, undo1, redo1, y)) with
        | none => simp [hr2] at h
        | some r2 =>
          obtain ⟨b2, undo2, redo2, y2⟩ := r2
          have h2 : std_map.Ordered y2.m_keyframeList ∧ undo2.keepsOrdered ∧
              redo2.keepsOrdered := by
            split_ifs at hr2 with hb
            · exact addKeyframe_undo_redo_keepsOrdered hu hd hy hr2
            · simp only [Option.some.injEq, Prod.mk.injEq] at hr2
              obtain ⟨_, e2, e3, e4⟩ := hr2
              rw [← e2, ← e3, ← e4]
              exact ⟨hy, hu, hd⟩
          simp only [hr2] at h
          split_ifs at h with hb2
          · simp only [Option.some.injEq, Prod.mk.injEq] at h
            obtain ⟨_, e2, e3⟩ := h
            rw [← e2, ← e3]
            exact Invariant.push _ hinv.2 h2.1 h2.2.1 h2.2.2
          · cases hun : undo2 y2 with
            | none => simp [hun] at h
            | some r3 =>
              obtain ⟨undone, y3⟩ := r3
              simp only [hun] at h
              cases hq2 : Q_ASSERT QT_NO_DEBUG (undone = true) with
              | none => simp [hq2] at h
              | some u2 =>
                simp only [hq2, Option.some.injEq, Prod.mk.injEq] at h
                obtain ⟨_, e2, e3⟩ := h
                rw [← e2, ← e3]
                exact ⟨h2.2.1 y2 y3 undone h2.1 hun, hinv.2⟩

theorem removeAllKeyframes_loop_keepsOrdered (QT_NO_DEBUG : Bool) (all_pos : List GenTime)
    {local_undo local_redo : Fun GenTime} {x : KeyframeModel GenTime}
    (hu : local_undo.keepsOrdered) (hd : local_redo.keepsOrdered)
    (hx : std_map.Ordered x.m_keyframeList) :
    match removeAllKeyframes_loop QT_NO_DEBUG all_pos local_undo local_redo x with
    | none => True
    | some (Sum.inl y) => std_map.Ordered y.m_keyframeList
    | some (Sum.inr (undo1, redo1, y)) =>
      std_map.Ordered y.m_keyframeList ∧ undo1.keepsOrdered ∧ redo1.keepsOrdered := by
  induction all_pos generalizing local_undo local_redo x with
  | nil => exact ⟨hx, hu, hd⟩
  | cons p rest ih =>
    unfold removeAllKeyframes_loop
    cases hr : removeKeyframe_undo_redo QT_NO_DEBUG p local_undo local_redo x with
    | none => trivial
    | some r =>
      obtain ⟨b, undo1, redo1, y⟩ := r
      obtain ⟨hy, hu1, hd1⟩ := removeKeyframe_undo_redo_keepsOrdered hu hd hx hr
      cases b with
      | true =>
        simpa using ih hu1 hd1 hy
      | false =>
        simp only [Bool.false_eq_true, not_false_eq_true, if_true]
        cases hun : undo1 y with
        | none => trivial
        | some r3 =>
          obtain ⟨undone, y3⟩ := r3
          cases hq2 : Q_ASSERT QT_NO_DEBUG (undone = true) with
          | none => simp only [hq2]
          | some u2 =>
            simp only [hq2]
            exact hu1 y y3 undone hy hun

theorem removeAllKeyframes_invariant {QT_NO_DEBUG : Bool}
    {self self1 : KeyframeModel GenTime} {st st1 : DocUndoStack GenTime} {res : Bool}
    (hinv : Invariant self st)
    (h : KeyframeModel.removeAllKeyframes QT_NO_DEBUG self st = some (res, self1, st1)) :
    Invariant self1 st1 := by
  unfold KeyframeModel.removeAllKeyframes at h
  have hl := removeAllKeyframes_loop_keepsOrdered QT_NO_DEBUG
    (std_map.keys self.m_keyframeList) true_lambda_keepsOrdered true_lambda_keepsOrdered hinv.1
  cases hr : removeAllKeyframes_loop QT_NO_DEBUG (std_map.keys self.m_keyframeList)
      Fun.true_lambda Fun.true_lambda self with
  | none => simp [hr] at h
  | some r =>
    rw [hr] at hl
    cases r with
    | inl y =>
      simp only [hr, Option.some.injEq, Prod.mk.injEq] at h
      obtain ⟨_, e2, e3⟩ := h
      rw [← e2, ← e3]
      exact ⟨hl, hinv.2⟩
    | inr t =>
      obtain ⟨undo1, redo1, y⟩ := t
      simp only [hr, Option.some.injEq, Prod.mk.injEq] at h
      obtain ⟨_, e2, e3⟩ := h
      rw [← e2, ← e3]
      exact Invariant.push _ hinv.2 hl.1 hl.2.1 hl.2.2

/-- Every reachable state satisfies the invariant. -/
theorem Reachable.invariant {QT_NO_DEBUG : Bool} {self : KeyframeModel GenTime}
    {st : DocUndoStack GenTime} (h : Reachable QT_NO_DEBUG self st) : Invariant self st := by
  induction h with
  | init => exact ⟨by simp [std_map.Ordered, std_map.keys], by simp⟩
  | addKeyframe pos type _ hrun ih => exact addKeyframe_invariant ih hrun
  | removeKeyframe pos _ hrun ih => exact removeKeyframe_invariant ih hrun
  | moveKeyframe oldPos pos _ hrun ih => exact moveKeyframe_invariant ih hrun
  | removeAllKeyframes _ hrun ih => exact removeAllKeyframes_invariant ih hrun
  | undo cmd _ hmem hrun ih => exact ⟨(ih.2 cmd hmem).1 _ _ _ ih.1 hrun, ih.2⟩
  | redo cmd _ hmem hrun ih => exact ⟨(ih.2 cmd hmem).2 _ _ _ ih.1 hrun, ih.2⟩

end CallFacts

/-! ## Rows -/

namespace std_map

variable {K V : Type} [LinearOrder K]

theorem mem_keys_of_get? {m : List (K × V)} {r : Nat} {e : K × V}
    (hg : m.get? r = some e) : e.1 ∈ keys m := by
  unfold keys
  exact List.mem_map_of_mem Prod.fst (List.get?_mem hg)

/-- In an ordered map the entry at row `r` has exactly `r` keys below it. -/
theorem rank_of_get? {m : List (K × V)} (h : Ordered m) {r : Nat} {e : K × V}
    (hg : m.get? r = some e) : rank m e.1 = r ∧ «at» m e.1 = some e.2 := by
  induction m generalizing r with
  | nil => simp at hg
  | cons e0 rest ih =>
    obtain ⟨k, w⟩ := e0
    cases r with
    | zero =>
      simp only [List.get?_cons_zero, Option.some.injEq] at hg
      subst hg
      refine ⟨?_, by simp [«at»]⟩
      unfold rank
      rw [List.countP_eq_zero]
      intro p hp
      simp only [keys, List.map_cons, List.mem_cons] at hp
      rcases hp with hp | hp
      · simp [hp]
      · have := h.head_lt hp
        simp [not_lt_of_lt this]
    | succ r1 =>
      simp only [List.get?_cons_succ] at hg
      obtain ⟨hr, ha⟩ := ih h.tail hg
      have hlt : k < e.1 := h.head_lt (mem_keys_of_get? hg)
      refine ⟨?_, ?_⟩
      · unfold rank at hr ⊢
        simp only [keys, List.map_cons] at hr ⊢
        rw [List.countP_cons_of_pos _ _ (by simpa using hlt), hr]
      · simp [«at», ne_of_lt hlt, ha]

theorem get?_of_mem_keys {m : List (K × V)} {p : K} (hp : p ∈ keys m) :
    ∃ r e, m.get? r = some e ∧ e.1 = p := by
  unfold keys at hp
  obtain ⟨e, he, hep⟩ := List.mem_map.mp hp
  obtain ⟨r, hr⟩ := List.get?_of_mem he
  exact ⟨r, e, hr, hep⟩

/-- In an ordered map the position at row `r + 1` is strictly greater than the one at row
`r`. -/
theorem lt_of_get?_succ {m : List (K × V)} (h : Ordered m) {r : Nat} {e e1 : K × V}
    (hg : m.get? r = some e) (hg1 : m.get? (r + 1) = some e1) : e.1 < e1.1 := by
  induction m generalizing r with
  | nil => simp at hg
  | cons e0 rest ih =>
    cases r with
    | zero =>
      simp only [List.get?_cons_zero, Option.some.injEq] at hg
      simp only [List.get?_cons_succ] at hg1
      subst hg
      exact h.head_lt (mem_keys_of_get? hg1)
    | succ r1 =>
      simp only [List.get?_cons_succ] at hg hg1
      exact ih h.tail hg hg1

end std_map

namespace KeyframeModel

variable {GenTime : Type} [LinearOrder GenTime]

theorem data_of_get? (getCurrentFps_frames : GenTime → Int) (self : KeyframeModel GenTime)
    {r : Nat} {e : GenTime × KeyframeType} (hg : self.m_keyframeList.get? r = some e) :
    data getCurrentFps_frames self ⟨r, true⟩ PosRole = QVariant.seconds e.1 ∧
      data getCurrentFps_frames self ⟨r, true⟩ TypeRole = QVariant.keyframeType e.2 := by
  have hlt : r < self.m_keyframeList.length := by
    by_contra hn
    rw [List.get?_eq_none.mpr (by omega)] at hg
    exact Option.noConfusion hg
  have h1 : ¬ ((r : Int) < 0 ∨ (r : Int) ≥ (std_map.size self.m_keyframeList : Nat) ∨
      ¬ (true = true)) := by
    unfold std_map.size
    intro hc
    rcases hc with hc | hc | hc
    · omega
    · omega
    · simp at hc
  constructor
  · unfold data
    dsimp only
    rw [if_neg h1, Int.toNat_ofNat, hg]
    simp [DisplayRole, EditRole, PosRole, UserRole]
  · unfold data
    dsimp only
    rw [if_neg h1, Int.toNat_ofNat, hg]
    simp [DisplayRole, EditRole, PosRole, UserRole, TypeRole, FrameRole]

end KeyframeModel

/-! ## Results of the operations -/

section Results

variable {GenTime : Type} [LinearOrder GenTime]

open KeyframeModel

theorem UPDATE_UNDO_REDO_undo_eq (operation reverse undo redo : Fun GenTime) :
    (UPDATE_UNDO_REDO operation reverse undo redo).1 = reverse.andThen undo := rfl

theorem true_lambda_andThen (f : Fun GenTime) : Fun.true_lambda.andThen f = f := by
  funext x
  simp only [Fun.andThen, Fun.true_lambda]
  cases f x with
  | none => rfl
  | some r => simp

theorem run_local_redo_result {local_redo local_undo undo redo undo1 redo1 : Fun GenTime}
    {x y : KeyframeModel GenTime} {b : Bool}
    (h : run_local_redo local_redo local_undo undo redo x = some (b, undo1, redo1, y)) :
    local_redo x = some (b, y) := by
  unfold run_local_redo at h
  cases h1 : local_redo x with
  | none => simp [h1] at h
  | some r1 =>
    obtain ⟨v, x1⟩ := r1
    cases v with
    | true =>
      simp only [h1, Option.some.injEq, Prod.mk.injEq] at h
      rw [← h.1, ← h.2.2.2]
    | false =>
      simp only [h1, Option.some.injEq, Prod.mk.injEq] at h
      rw [← h.1, ← h.2.2.2]

/-- The composable `addKeyframe` never returns false. -/
theorem addKeyframe_undo_redo_result {QT_NO_DEBUG : Bool} {pos : GenTime}
    {type : KeyframeType} {undo redo undo1 redo1 : Fun GenTime}
    {x y : KeyframeModel GenTime} {b : Bool}
    (h : addKeyframe_undo_redo QT_NO_DEBUG pos type undo redo x = some (b, undo1, redo1, y)) :
    b = true := by
  unfold addKeyframe_undo_redo at h
  split_ifs at h with hc
  · cases hat : std_map.«at» x.m_keyframeList pos with
    | none => simp [hat] at h
    | some current =>
      simp only [hat] at h
      split_ifs at h with hty
      · simp only [Option.some.injEq, Prod.mk.injEq] at h
        exact h.1.symm
      · exact (changeType_lambda_list (run_local_redo_result h)).1
  · exact (addKeyframe_lambda_list (run_local_redo_result h)).1

/-- The composable `removeKeyframe` never returns false. -/
theorem removeKeyframe_undo_redo_result {QT_NO_DEBUG : Bool} {pos : GenTime}
    {undo redo undo1 redo1 : Fun GenTime} {x y : KeyframeModel GenTime} {b : Bool}
    (h : removeKeyframe_undo_redo QT_NO_DEBUG pos undo redo x = some (b, undo1, redo1, y)) :
    b = true := by
  unfold removeKeyframe_undo_redo at h
  cases hq : Q_ASSERT QT_NO_DEBUG (std_map.count x.m_keyframeList pos > 0) with
  | none => simp [hq] at h
  | some u =>
    simp only [hq] at h
    exact (deleteKeyframe_lambda_list (run_local_redo_result h)).1

/-- The public `addKeyframe` never returns false. -/
theorem addKeyframe_result {QT_NO_DEBUG : Bool} {pos : GenTime} {type : KeyframeType}
    {self self1 : KeyframeModel GenTime} {st st1 : DocUndoStack GenTime} {res : Bool}
    (h : KeyframeModel.addKeyframe QT_NO_DEBUG pos type self st = some (res, self1, st1)) :
    res = true := by
  unfold KeyframeModel.addKeyframe at h
  cases hr : addKeyframe_undo_redo QT_NO_DEBUG pos type Fun.true_lambda Fun.true_lambda self with
  | none => simp [hr] at h
  | some r =>
    obtain ⟨b, undo1, redo1, y⟩ := r
    have hb := addKeyframe_undo_redo_result hr
    subst hb
    simp only [hr, if_true, Option.some.injEq, Prod.mk.injEq] at h
    exact h.1.symm

/-- The public `removeKeyframe` never returns false. -/
theorem removeKeyframe_result {QT_NO_DEBUG : Bool} {pos : GenTime}
    {self self1 : KeyframeModel GenTime} {st st1 : DocUndoStack GenTime} {res : Bool}
    (h : KeyframeModel.removeKeyframe QT_NO_DEBUG pos self st = some (res, self1, st1)) :
    res = true := by
  unfold KeyframeModel.removeKeyframe at h
  cases hr : removeKeyframe_undo_redo QT_NO_DEBUG pos Fun.true_lambda Fun.true_lambda self with
  | none => simp [hr] at h
  | some r =>
    obtain ⟨b, undo1, redo1, y⟩ := r
    have hb := removeKeyframe_undo_redo_result hr
    subst hb
    simp only [hr, if_true, Option.some.injEq, Prod.mk.injEq] at h
    exact h.1.symm

/-- The public `moveKeyframe` never returns false. -/
theorem moveKeyframe_result {QT_NO_DEBUG : Bool} {oldPos pos : GenTime}
    {self self1 : KeyframeModel GenTime} {st st1 : DocUndoStack GenTime} {res : Bool}
    (h : KeyframeModel.moveKeyframe QT_NO_DEBUG oldPos pos self st = some (res, self1, st1)) :
    res = true := by
  unfold KeyframeModel.moveKeyframe at h
  cases hq : Q_ASSERT QT_NO_DEBUG (std_map.count self.m_keyframeList oldPos > 0) with
  | none => simp [hq] at h
  | some u =>
    simp only [hq] at h
    split_ifs at h with heq
    · simp only [Option.some.injEq, Prod.mk.injEq] at h
      exact h.1.symm
    · cases hr : removeKeyframe_undo_redo QT_NO_DEBUG oldPos Fun.true_lambda Fun.true_lambda
          { self with m_keyframeList := (std_map.index self.m_keyframeList oldPos).2 } with
      | none => simp [hr] at h
      | some r =>
        obtain ⟨b, undo1, redo1, y⟩ := r
        have hb := removeKeyframe_undo_redo_result hr
        subst hb
        simp only [hr, if_true] at h
        cases hr2 : addKeyframe_undo_redo QT_NO_DEBUG pos
            (std_map.index self.m_keyframeList oldPos).1 undo1 redo1 y with
        | none => simp [hr2] at h
        | some r2 =>
          obtain ⟨b2, undo2, redo2, y2⟩ := r2
          have hb2 := addKeyframe_undo_redo_result hr2
          subst hb2
          simp only [hr2, if_true, Option.some.injEq, Prod.mk.injEq] at h
          exact h.1.symm

/-- The composable `addKeyframe` returns true in every state of the model and leaves
`pos` stored with `type`. -/
theorem addKeyframe_undo_redo_returns (QT_NO_DEBUG : Bool) (pos : GenTime)
    (type : KeyframeType) (undo redo : Fun GenTime) (self : KeyframeModel GenTime) :
    ∃ undo1 redo1 y, addKeyframe_undo_redo QT_NO_DEBUG pos type undo redo self =
        some (true, undo1, redo1, y) ∧
      std_map.«at» y.m_keyframeList pos = some type ∧
      (∀ p, p ≠ pos →
        std_map.«at» y.m_keyframeList p = std_map.«at» self.m_keyframeList p) := by
  cases hat : std_map.«at» self.m_keyframeList pos with
  | none =>
    have habs : std_map.count self.m_keyframeList pos = 0 := by simp [std_map.count, hat]
    obtain ⟨y, _, hyl, hres⟩ :=
      addKeyframe_undo_redo_of_absent QT_NO_DEBUG pos type undo redo self habs
    refine ⟨_, _, y, hres, ?_, ?_⟩
    · rw [hyl]; exact std_map.at_assign_self _ _ _
    · intro p hp
      rw [hyl]; exact std_map.at_assign_of_ne _ _ _ hp
  | some oldType =>
    by_cases hne : type = oldType
    · subst hne
      exact ⟨undo, redo, self,
        addKeyframe_undo_redo_of_same QT_NO_DEBUG pos type undo redo self hat, hat,
        fun p _ => rfl⟩
    · obtain ⟨y, _, hyl, hres⟩ :=
        addKeyframe_undo_redo_of_other QT_NO_DEBUG pos type oldType undo redo self hat hne
      refine ⟨_, _, y, hres, ?_, ?_⟩
      · rw [hyl]; exact std_map.at_assign_self _ _ _
      · intro p hp
        rw [hyl]; exact std_map.at_assign_of_ne _ _ _ hp

/-- The steps of `moveKeyframe(oldPos, pos)` for a stored `oldPos` different from `pos`:
the remove step, then the add step with the captured type on the accumulators of the
remove step, then the push of the accumulated pair. -/
theorem moveKeyframe_of_stored (QT_NO_DEBUG : Bool) (oldPos pos : GenTime)
    (oldType : KeyframeType) (self : KeyframeModel GenTime) (st : DocUndoStack GenTime)
    (hat : std_map.«at» self.m_keyframeList oldPos = some oldType) (hne : oldPos ≠ pos) :
    ∃ y1 undo2 redo2 y2,
      deleteKeyframe_lambda QT_NO_DEBUG oldPos self = some (true, y1) ∧
      y1.m_keyframeList = std_map.erase self.m_keyframeList oldPos ∧
      addKeyframe_undo_redo QT_NO_DEBUG pos oldType
        ((addKeyframe_lambda QT_NO_DEBUG oldPos oldType).andThen Fun.true_lambda)
        (UPDATE_UNDO_REDO (deleteKeyframe_lambda QT_NO_DEBUG oldPos)
          (addKeyframe_lambda QT_NO_DEBUG oldPos oldType) Fun.true_lambda Fun.true_lambda).2
        y1 = some (true, undo2, redo2, y2) ∧
      KeyframeModel.moveKeyframe QT_NO_DEBUG oldPos pos self st =
        some (true, y2, (⟨undo2, redo2, "Move keyframe"⟩ : FunctionalUndoCommand GenTime)
          :: st) := by
  have hst : std_map.count self.m_keyframeList oldPos > 0 := std_map.count_pos_of_at hat
  obtain ⟨y1, hy1, hyl1, hres1⟩ := removeKeyframe_undo_redo_of_stored QT_NO_DEBUG oldPos
    oldType Fun.true_lambda Fun.true_lambda self hat
  obtain ⟨undo2, redo2, y2, hres2, _, _⟩ := addKeyframe_undo_redo_returns QT_NO_DEBUG pos
    oldType ((addKeyframe_lambda QT_NO_DEBUG oldPos oldType).andThen Fun.true_lambda)
    (UPDATE_UNDO_REDO (deleteKeyframe_lambda QT_NO_DEBUG oldPos)
      (addKeyframe_lambda QT_NO_DEBUG oldPos oldType) Fun.true_lambda Fun.true_lambda).2 y1
  refine ⟨y1, undo2, redo2, y2, hy1, hyl1, hres2, ?_⟩
  rw [UPDATE_UNDO_REDO_undo_eq] at hres1
  simp only [KeyframeModel.moveKeyframe, Q_ASSERT_of_holds QT_NO_DEBUG hst,
    std_map.index_of_at hat, hne, if_false, hres1, if_true, hres2, PUSH_UNDO]

/-- The public `moveKeyframe(pos, pos)` of a stored position changes nothing. -/
theorem moveKeyframe_same_of_stored (QT_NO_DEBUG : Bool) (pos : GenTime)
    (self : KeyframeModel GenTime) (st : DocUndoStack GenTime)
    (hst : std_map.count self.m_keyframeList pos > 0) :
    KeyframeModel.moveKeyframe QT_NO_DEBUG pos pos self st = some (true, self, st) := by
  obtain ⟨oldType, hat⟩ := std_map.at_of_count_pos hst
  simp [KeyframeModel.moveKeyframe, Q_ASSERT_of_holds QT_NO_DEBUG hst,
    std_map.index_of_at hat]

theorem andThen_restores {first second : Fun GenTime}
    {a b c : List (GenTime × KeyframeType)}
    (h1 : first.restores c b) (h2 : second.restores b a) :
    (first.andThen second).restores c a :=
  UPDATE_UNDO_REDO_undo_restores Fun.true_lambda Fun.true_lambda h1 h2

/-- The undo accumulator after the composable `addKeyframe` on an ordered map: the inverse
of the command that was run (the removal of `pos`, the change of `pos` back to its former
type, or nothing when nothing was to be done), followed by the accumulator passed in. -/
theorem addKeyframe_undo_redo_inverse (QT_NO_DEBUG : Bool) (pos : GenTime)
    (type : KeyframeType) (undo redo : Fun GenTime) (self : KeyframeModel GenTime)
    (hord : std_map.Ordered self.m_keyframeList) :
    ∃ undo1 redo1 y inverse, addKeyframe_undo_redo QT_NO_DEBUG pos type undo redo self =
        some (true, undo1, redo1, y) ∧
      undo1 = inverse.andThen undo ∧
      inverse.restores y.m_keyframeList self.m_keyframeList ∧
      (inverse = deleteKeyframe_lambda QT_NO_DEBUG pos ∨
        (∃ oldType, inverse = changeType_lambda QT_NO_DEBUG pos oldType) ∨
        inverse = Fun.true_lambda) := by
  cases hat : std_map.«at» self.m_keyframeList pos with
  | none =>
    have habs : std_map.count self.m_keyframeList pos = 0 := by simp [std_map.count, hat]
    obtain ⟨y, _, hyl, hres⟩ :=
      addKeyframe_undo_redo_of_absent QT_NO_DEBUG pos type undo redo self habs
    refine ⟨_, _, y, deleteKeyframe_lambda QT_NO_DEBUG pos, hres, rfl, ?_, Or.inl rfl⟩
    rw [hyl]
    exact deleteKeyframe_lambda_restores QT_NO_DEBUG type habs
  | some oldType =>
    by_cases hne : type = oldType
    · subst hne
      exact ⟨undo, redo, self, Fun.true_lambda,
        addKeyframe_undo_redo_of_same QT_NO_DEBUG pos type undo redo self hat,
        (true_lambda_andThen undo).symm, true_lambda_restores _, Or.inr (Or.inr rfl)⟩
    · obtain ⟨y, _, hyl, hres⟩ :=
        addKeyframe_undo_redo_of_other QT_NO_DEBUG pos type oldType undo redo self hat hne
      refine ⟨_, _, y, changeType_lambda QT_NO_DEBUG pos oldType, hres, rfl, ?_,
        Or.inr (Or.inl ⟨oldType, rfl⟩)⟩
      rw [hyl]
      exact changeType_lambda_restores QT_NO_DEBUG type hord hat

/-- With `Q_ASSERT` enabled, `moveKeyframe` of an absent `oldPos` aborts. -/
theorem moveKeyframe_of_absent_debug (oldPos pos : GenTime)
    (self : KeyframeModel GenTime) (st : DocUndoStack GenTime)
    (habs : std_map.count self.m_keyframeList oldPos = 0) :
    KeyframeModel.moveKeyframe false oldPos pos self st = none := by
  have hq : Q_ASSERT false (std_map.count self.m_keyframeList oldPos > 0) = none :=
    Q_ASSERT_debug_of_fails (by omega)
  simp [KeyframeModel.moveKeyframe, hq]

/-- With `Q_ASSERT` compiled out, `moveKeyframe(pos, pos)` of an absent `pos` returns
true after `operator[]` has inserted `pos` with a value-initialised type. -/
theorem moveKeyframe_same_of_absent_release (pos : GenTime)
    (self : KeyframeModel GenTime) (st : DocUndoStack GenTime)
    (habs : std_map.count self.m_keyframeList pos = 0) :
    KeyframeModel.moveKeyframe true pos pos self st =
      some (true, ⟨std_map.assign self.m_keyframeList pos default, self.emitted⟩, st) := by
  have hnone : std_map.«at» self.m_keyframeList pos = none :=
    (std_map.at_eq_none_iff _ _).mpr ((std_map.count_eq_zero_iff _ _).mp habs)
  simp [KeyframeModel.moveKeyframe, Q_ASSERT_release, std_map.index_of_absent hnone]

/-- With `Q_ASSERT` compiled out, `moveKeyframe` of an absent `oldPos` to another position
returns true, pushes an entry and leaves `pos` stored with a value-initialised type. -/
theorem moveKeyframe_of_absent_release (oldPos pos : GenTime)
    (self : KeyframeModel GenTime) (st : DocUndoStack GenTime)
    (habs : std_map.count self.m_keyframeList oldPos = 0) (hne : oldPos ≠ pos) :
    ∃ self1 cmd, KeyframeModel.moveKeyframe true oldPos pos self st =
        some (true, self1, cmd :: st) ∧
      cmd.text = "Move keyframe" ∧
      std_map.«at» self1.m_keyframeList pos = some default ∧
      (∀ p, p ≠ pos →
        std_map.«at» self1.m_keyframeList p = std_map.«at» self.m_keyframeList p) := by
  have hmem : oldPos ∉ std_map.keys self.m_keyframeList :=
    (std_map.count_eq_zero_iff _ _).mp habs
  have hnone : std_map.«at» self.m_keyframeList oldPos = none :=
    (std_map.at_eq_none_iff _ _).mpr hmem
  have hat0 : std_map.«at» (⟨std_map.assign self.m_keyframeList oldPos default,
      self.emitted⟩ : KeyframeModel GenTime).m_keyframeList oldPos = some default :=
    std_map.at_assign_self _ _ _
  obtain ⟨y1, _, hyl1, hres1⟩ := removeKeyframe_undo_redo_of_stored true oldPos default
    Fun.true_lambda Fun.true_lambda _ hat0
  have hl1 : y1.m_keyframeList = self.m_keyframeList := by
    rw [hyl1]; exact std_map.erase_assign hmem default
  obtain ⟨undo2, redo2, y2, hres2, hb, hother⟩ := addKeyframe_undo_redo_returns true pos
    default
    (UPDATE_UNDO_REDO (deleteKeyframe_lambda true oldPos)
      (addKeyframe_lambda true oldPos default) Fun.true_lambda Fun.true_lambda).1
    (UPDATE_UNDO_REDO (deleteKeyframe_lambda true oldPos)
      (addKeyframe_lambda true oldPos default) Fun.true_lambda Fun.true_lambda).2 y1
  refine ⟨y2, ⟨undo2, redo2, "Move keyframe"⟩, ?_, rfl, hb, ?_⟩
  · simp only [KeyframeModel.moveKeyframe, Q_ASSERT_release, std_map.index_of_absent hnone,
      hne, if_false, hres1, if_true, hres2, PUSH_UNDO]
  · intro p hp
    rw [hother p hp, hl1]

/-- The loop of `removeAllKeyframes` never takes the early `return false`. -/
theorem removeAllKeyframes_loop_result {QT_NO_DEBUG : Bool} (all_pos : List GenTime)
    {local_undo local_redo : Fun GenTime} {x y : KeyframeModel GenTime}
    (h : removeAllKeyframes_loop QT_NO_DEBUG all_pos local_undo local_redo x =
      some (Sum.inl y)) : False := by
  induction all_pos generalizing local_undo local_redo x with
  | nil => simp [removeAllKeyframes_loop] at h
  | cons p rest ih =>
    unfold removeAllKeyframes_loop at h
    cases hr : removeKeyframe_undo_redo QT_NO_DEBUG p local_undo local_redo x with
    | none => simp [hr] at h
    | some r =>
      obtain ⟨b, undo1, redo1, y1⟩ := r
      have hb := removeKeyframe_undo_redo_result hr
      subst hb
      simp only [hr, not_true_eq_false, if_false] at h
      exact ih h

/-- The public `removeAllKeyframes` never returns false. -/
theorem removeAllKeyframes_result {QT_NO_DEBUG : Bool}
    {self self1 : KeyframeModel GenTime} {st st1 : DocUndoStack GenTime} {res : Bool}
    (h : KeyframeModel.removeAllKeyframes QT_NO_DEBUG self st = some (res, self1, st1)) :
    res = true := by
  unfold KeyframeModel.removeAllKeyframes at h
  cases hr : removeAllKeyframes_loop QT_NO_DEBUG (std_map.keys self.m_keyframeList)
      Fun.true_lambda Fun.true_lambda self with
  | none => simp [hr] at h
  | some r =>
    cases r with
    | inl y => exact (removeAllKeyframes_loop_result _ hr).elim
    | inr t =>
      obtain ⟨undo1, redo1, y⟩ := t
      simp only [hr, Option.some.injEq, Prod.mk.injEq] at h
      exact h.1.symm

/-- The loop of `removeAllKeyframes` over the keys of an ordered map removes every entry,
and the accumulated undo closure leads from the empty map back to wherever the passed one
led from the original entries. -/
theorem removeAllKeyframes_loop_of_keys (QT_NO_DEBUG : Bool)
    (m : List (GenTime × KeyframeType)) (local_undo local_redo : Fun GenTime)
    (x : KeyframeModel GenTime) (hx : x.m_keyframeList = m) (hord : std_map.Ordered m) :
    ∃ undo1 redo1 y,
      removeAllKeyframes_loop QT_NO_DEBUG (std_map.keys m) local_undo local_redo x =
        some (Sum.inr (undo1, redo1, y)) ∧
      y.m_keyframeList = [] ∧
      ∀ z, local_undo.restores m z → undo1.restores [] z := by
  induction m generalizing local_undo local_redo x with
  | nil => exact ⟨local_undo, local_redo, x, rfl, hx, fun z hz => hz⟩
  | cons e rest ih =>
    obtain ⟨k, w⟩ := e
    have hxo : std_map.Ordered x.m_keyframeList := by rw [hx]; exact hord
    have hst : std_map.count x.m_keyframeList k > 0 := by
      rw [hx]; simp [std_map.count, std_map.«at»]
    obtain ⟨undo1, redo1, y, hres, hyl, hrest⟩ :=
      removeKeyframe_undo_redo_restores QT_NO_DEBUG k local_undo local_redo x hxo hst
    have hy : y.m_keyframeList = rest := by
      rw [hyl, hx]; simp [std_map.erase]
    obtain ⟨undo2, redo2, y2, hloop, hy2, hrest2⟩ := ih undo1 redo1 y hy hord.tail
    refine ⟨undo2, redo2, y2, ?_, hy2, ?_⟩
    · simp only [std_map.keys, List.map_cons] at hloop ⊢
      simp only [removeAllKeyframes_loop, hres, not_true_eq_false, if_false, hloop]
    · intro z hz
      apply hrest2 z
      rw [← hy]
      apply hrest z
      rw [hx]
      exact hz

/-- The public `removeAllKeyframes` on an ordered map returns true, empties the map and
pushes one entry, whose undo closure leads from the empty map back to the original
entries. -/
theorem removeAllKeyframes_of_ordered (QT_NO_DEBUG : Bool)
    (self : KeyframeModel GenTime) (st : DocUndoStack GenTime)
    (hord : std_map.Ordered self.m_keyframeList) :
    ∃ self1 cmd, KeyframeModel.removeAllKeyframes QT_NO_DEBUG self st =
        some (true, self1, cmd :: st) ∧
      cmd.text = "Delete all keyframes" ∧
      self1.m_keyframeList = [] ∧
      cmd.m_undo.restores [] self.m_keyframeList := by
  obtain ⟨undo1, redo1, y, hloop, hy, hrest⟩ := removeAllKeyframes_loop_of_keys QT_NO_DEBUG
    self.m_keyframeList Fun.true_lambda Fun.true_lambda self rfl hord
  refine ⟨y, ⟨undo1, redo1, "Delete all keyframes"⟩, ?_, rfl, hy,
    hrest _ (true_lambda_restores _)⟩
  simp only [KeyframeModel.removeAllKeyframes, hloop, PUSH_UNDO]

/-- In an ordered map, `lower_bound(pos)` is at distance `rank` from `begin()`. -/
theorem lower_bound_eq_rank {m : List (GenTime × KeyframeType)} (hord : std_map.Ordered m)
    (pos : GenTime) : std_map.lower_bound m pos = std_map.rank m pos := by
  induction m with
  | nil => simp [std_map.lower_bound, std_map.rank, std_map.keys]
  | cons e rest ih =>
    obtain ⟨k, w⟩ := e
    have hrest := ih hord.tail
    unfold std_map.rank at hrest ⊢
    simp only [std_map.keys, List.map_cons] at hrest ⊢
    by_cases hk : k < pos
    · rw [List.countP_cons_of_pos _ _ (by simpa using hk)]
      simp [std_map.lower_bound, hk, hrest]
    · simp only [std_map.lower_bound, hk, if_false]
      symm
      rw [List.countP_eq_zero]
      intro p hp
      simp only [List.mem_cons] at hp
      rcases hp with hp | hp
      · simpa [hp] using hk
      · have hlt : k < p := hord.head_lt hp
        have : ¬ p < pos := fun hc => hk (lt_trans hlt hc)
        simpa using this

/-- After the assignment `m[pos] = v` the entry `(pos, v)` sits at the place that
`lower_bound(pos)` pointed to. -/
theorem get?_assign_lower_bound (m : List (GenTime × KeyframeType)) (pos : GenTime)
    (v : KeyframeType) :
    (std_map.assign m pos v).get? (std_map.lower_bound m pos) = some (pos, v) := by
  induction m with
  | nil => simp [std_map.assign, std_map.lower_bound]
  | cons e rest ih =>
    obtain ⟨k, w⟩ := e
    by_cases h1 : pos < k
    · simp [std_map.assign, std_map.lower_bound, h1, not_lt_of_lt h1]
    · by_cases h2 : k < pos
      · simpa [std_map.assign, std_map.lower_bound, h1, h2] using ih
      · have hk : k = pos := le_antisymm (not_lt.mp h1) (not_lt.mp h2)
        simp [std_map.assign, std_map.lower_bound, hk]

/-- When every stored key is less than `pos`, the rank of `pos` is the size of the map. -/
theorem rank_eq_size_of_all_lt {m : List (GenTime × KeyframeType)} {pos : GenTime}
    (h : ∀ k ∈ std_map.keys m, k < pos) : std_map.rank m pos = std_map.size m := by
  unfold std_map.rank std_map.size
  rw [List.countP_eq_length.mpr (by simpa using h)]
  simp [std_map.keys]

/-- The signals of the insert command, with the row as computed by the source. -/
theorem addKeyframe_lambda_emitted (QT_NO_DEBUG : Bool) (pos : GenTime)
    (type : KeyframeType) (x : KeyframeModel GenTime)
    (h : QT_NO_DEBUG = true ∨ std_map.count x.m_keyframeList pos = 0) :
    ∃ y, addKeyframe_lambda QT_NO_DEBUG pos type x = some (true, y) ∧
      y.m_keyframeList = std_map.assign x.m_keyframeList pos type ∧
      y.emitted = x.emitted ++
        [(Signal.beginInsertRows (std_map.lower_bound x.m_keyframeList pos : Nat)
            (std_map.lower_bound x.m_keyframeList pos : Nat), x.m_keyframeList),
          (Signal.endInsertRows, std_map.assign x.m_keyframeList pos type)] := by
  have hq : Q_ASSERT QT_NO_DEBUG (std_map.count x.m_keyframeList pos = 0) = some () := by
    rcases h with h | h
    · subst h; exact Q_ASSERT_release _
    · exact Q_ASSERT_of_holds _ h
  have hrow : (if std_map.lower_bound x.m_keyframeList pos ≠ std_map.size x.m_keyframeList
      then ((std_map.lower_bound x.m_keyframeList pos : Nat) : Int)
      else ((std_map.size x.m_keyframeList : Nat) : Int)) =
        ((std_map.lower_bound x.m_keyframeList pos : Nat) : Int) := by
    split_ifs with hc
    · rfl
    · rw [not_not] at hc; rw [hc]
  simp only [addKeyframe_lambda, hq, emit, hrow]
  exact ⟨_, rfl, rfl, by simp⟩

end Results

/-! ## Rows of the signals -/

section SignalRows

variable {GenTime : Type} [LinearOrder GenTime]

open KeyframeModel

/-- The iterator `find(pos)` of a stored key points to its entry. -/
theorem get?_find_of_at {m : List (GenTime × KeyframeType)} {pos : GenTime}
    {w : KeyframeType} (hat : std_map.«at» m pos = some w) :
    m.get? (std_map.find m pos) = some (pos, w) := by
  induction m with
  | nil => simp [std_map.«at»] at hat
  | cons e rest ih =>
    obtain ⟨k, v⟩ := e
    by_cases hk : k = pos
    · subst hk
      simp only [std_map.«at», if_true, Option.some.injEq] at hat
      simp [std_map.find, hat]
    · simp only [std_map.«at», hk, if_false] at hat
      simpa [std_map.find, hk] using ih hat

/-- In an ordered map, `find(pos)` of a stored key is at distance `rank` from
`begin()`. -/
theorem find_eq_rank {m : List (GenTime × KeyframeType)} (hord : std_map.Ordered m)
    {pos : GenTime} {w : KeyframeType} (hat : std_map.«at» m pos = some w) :
    std_map.find m pos = std_map.rank m pos := by
  have h := (std_map.rank_of_get? hord (get?_find_of_at hat)).1
  simpa using h.symm

/-- The member `erase(pos)` removes the element that `find(pos)` points to. -/
theorem erase_eq_eraseIdx (m : List (GenTime × KeyframeType)) (pos : GenTime) :
    std_map.erase m pos = m.eraseIdx (std_map.find m pos) := by
  induction m with
  | nil => simp [std_map.erase]
  | cons e rest ih =>
    obtain ⟨k, v⟩ := e
    by_cases hk : k = pos
    · simp [std_map.erase, std_map.find, hk]
    · simp [std_map.erase, std_map.find, hk, ih]

/-- In an ordered map, the assignment to a stored key overwrites the element that
`find(pos)` points to. -/
theorem assign_eq_set {m : List (GenTime × KeyframeType)} (hord : std_map.Ordered m)
    {pos : GenTime} {w : KeyframeType} (hat : std_map.«at» m pos = some w)
    (v : KeyframeType) :
    std_map.assign m pos v = m.set (std_map.find m pos) (pos, v) := by
  induction m with
  | nil => simp [std_map.«at»] at hat
  | cons e rest ih =>
    obtain ⟨k, u⟩ := e
    by_cases hk : k = pos
    · subst hk
      simp [std_map.assign, std_map.find]
    · simp only [std_map.«at», hk, if_false] at hat
      have hmem : pos ∈ std_map.keys rest := by
        by_contra hn
        rw [(std_map.at_eq_none_iff rest pos).mpr hn] at hat
        exact Option.noConfusion hat
      have hlt : k < pos := hord.head_lt hmem
      simp [std_map.assign, std_map.find, hk, not_lt_of_lt hlt, hlt, ih hord.tail hat]

/-- The assignment to an absent key inserts the entry at the place that
`lower_bound(pos)` points to. -/
theorem assign_eq_insertIdx {m : List (GenTime × KeyframeType)} {pos : GenTime}
    (habs : pos ∉ std_map.keys m) (v : KeyframeType) :
    std_map.assign m pos v = m.insertIdx (std_map.lower_bound m pos) (pos, v) := by
  induction m with
  | nil => simp [std_map.assign, std_map.lower_bound]
  | cons e rest ih =>
    obtain ⟨k, u⟩ := e
    simp only [std_map.keys, List.map_cons, List.mem_cons, not_or] at habs
    by_cases h1 : pos < k
    · simp [std_map.assign, std_map.lower_bound, h1, not_lt_of_lt h1]
    · by_cases h2 : k < pos
      · have := ih habs.2
        simp [std_map.assign, std_map.lower_bound, h1, h2, this]
      · exact absurd (le_antisymm (not_lt.mp h2) (not_lt.mp h1)) habs.1

/-- The signals of the remove command, with the row as computed by the source. -/
theorem deleteKeyframe_lambda_emitted (QT_NO_DEBUG : Bool) (pos : GenTime)
    (x : KeyframeModel GenTime)
    (h : QT_NO_DEBUG = true ∨ std_map.count x.m_keyframeList pos > 0) :
    ∃ y, deleteKeyframe_lambda QT_NO_DEBUG pos x = some (true, y) ∧
      y.m_keyframeList = std_map.erase x.m_keyframeList pos ∧
      y.emitted = x.emitted ++
        [(Signal.beginRemoveRows (std_map.find x.m_keyframeList pos : Nat)
            (std_map.find x.m_keyframeList pos : Nat), x.m_keyframeList),
          (Signal.endRemoveRows, std_map.erase x.m_keyframeList pos)] := by
  have hq : Q_ASSERT QT_NO_DEBUG (std_map.count x.m_keyframeList pos > 0) = some () := by
    rcases h with h | h
    · subst h; exact Q_ASSERT_release _
    · exact Q_ASSERT_of_holds _ h
  simp only [deleteKeyframe_lambda, hq, emit]
  exact ⟨_, rfl, rfl, by simp⟩

/-! ## The steps behind the result of a public call -/

theorem addKeyframe_steps {QT_NO_DEBUG : Bool} {pos : GenTime} {type : KeyframeType}
    {self self1 : KeyframeModel GenTime} {st st1 : DocUndoStack GenTime} {res : Bool}
    (h : KeyframeModel.addKeyframe QT_NO_DEBUG pos type self st = some (res, self1, st1)) :
    ∃ undo1 redo1 text,
      addKeyframe_undo_redo QT_NO_DEBUG pos type Fun.true_lambda Fun.true_lambda self =
        some (true, undo1, redo1, self1) ∧
      st1 = (⟨undo1, redo1, text⟩ : FunctionalUndoCommand GenTime) :: st := by
  unfold KeyframeModel.addKeyframe at h
  cases hr : addKeyframe_undo_redo QT_NO_DEBUG pos type Fun.true_lambda Fun.true_lambda self with
  | none => simp [hr] at h
  | some r =>
    obtain ⟨b, undo1, redo1, y⟩ := r
    have hb := addKeyframe_undo_redo_result hr
    subst hb
    simp only [hr, if_true, Option.some.injEq, Prod.mk.injEq, PUSH_UNDO] at h
    obtain ⟨_, h2, h3⟩ := h
    subst h2
    exact ⟨undo1, redo1, _, rfl, h3.symm⟩

theorem removeKeyframe_steps {QT_NO_DEBUG : Bool} {pos : GenTime}
    {self self1 : KeyframeModel GenTime} {st st1 : DocUndoStack GenTime} {res : Bool}
    (h : KeyframeModel.removeKeyframe QT_NO_DEBUG pos self st = some (res, self1, st1)) :
    ∃ undo1 redo1,
      removeKeyframe_undo_redo QT_NO_DEBUG pos Fun.true_lambda Fun.true_lambda self =
        some (true, undo1, redo1, self1) ∧
      st1 = (⟨undo1, redo1, "Delete keyframe"⟩ : FunctionalUndoCommand GenTime) :: st := by
  unfold KeyframeModel.removeKeyframe at h
  cases hr : removeKeyframe_undo_redo QT_NO_DEBUG pos Fun.true_lambda Fun.true_lambda self with
  | none => simp [hr] at h
  | some r =>
    obtain ⟨b, undo1, redo1, y⟩ := r
    have hb := removeKeyframe_undo_redo_result hr
    subst hb
    simp only [hr, if_true, Option.some.injEq, Prod.mk.injEq, PUSH_UNDO] at h
    obtain ⟨_, h2, h3⟩ := h
    subst h2
    exact ⟨undo1, redo1, rfl, h3.symm⟩

theorem moveKeyframe_steps {QT_NO_DEBUG : Bool} {oldPos pos : GenTime}
    {self self1 : KeyframeModel GenTime} {st st1 : DocUndoStack GenTime} {res : Bool}
    (h : KeyframeModel.moveKeyframe QT_NO_DEBUG oldPos pos self st = some (res, self1, st1)) :
    (QT_NO_DEBUG = false → std_map.count self.m_keyframeList oldPos > 0) ∧
    ((oldPos = pos ∧ self1 = ⟨(std_map.index self.m_keyframeList oldPos).2, self.emitted⟩ ∧
        st1 = st) ∨
      (oldPos ≠ pos ∧ ∃ undo1 redo1 y1 undo2 redo2,
        removeKeyframe_undo_redo QT_NO_DEBUG oldPos Fun.true_lambda Fun.true_lambda
          ⟨(std_map.index self.m_keyframeList oldPos).2, self.emitted⟩ =
            some (true, undo1, redo1, y1) ∧
        addKeyframe_undo_redo QT_NO_DEBUG pos (std_map.index self.m_keyframeList oldPos).1
          undo1 redo1 y1 = some (true, undo2, redo2, self1) ∧
        st1 = (⟨undo2, redo2, "Move keyframe"⟩ : FunctionalUndoCommand GenTime) :: st)) := by
  unfold KeyframeModel.moveKeyframe at h
  cases hq : Q_ASSERT QT_NO_DEBUG (std_map.count self.m_keyframeList oldPos > 0) with
  | none => simp [hq] at h
  | some u =>
    constructor
    · intro hdbg
      subst hdbg
      by_contra hn
      rw [Q_ASSERT_debug_of_fails hn] at hq
      exact Option.noConfusion hq
    · simp only [hq] at h
      split_ifs at h with heq
      · simp only [Option.some.injEq, Prod.mk.injEq] at h
        exact Or.inl ⟨heq, h.2.1.symm, h.2.2.symm⟩
      · right
        refine ⟨heq, ?_⟩
        cases hr : removeKeyframe_undo_redo QT_NO_DEBUG oldPos Fun.true_lambda
            Fun.true_lambda
            { self with m_keyframeList := (std_map.index self.m_keyframeList oldPos).2 } with
        | none => simp [hr] at h
        | some r =>
          obtain ⟨b, undo1, redo1, y⟩ := r
          have hb := removeKeyframe_undo_redo_result hr
          subst hb
          simp only [hr, if_true] at h
          cases hr2 : addKeyframe_undo_redo QT_NO_DEBUG pos
              (std_map.index self.m_keyframeList oldPos).1 undo1 redo1 y with
          | none => simp [hr2] at h
          | some r2 =>
            obtain ⟨b2, undo2, redo2, y2⟩ := r2
            have hb2 := addKeyframe_undo_redo_result hr2
            subst hb2
            simp only [hr2, if_true, Option.some.injEq, Prod.mk.injEq, PUSH_UNDO] at h
            obtain ⟨_, h2, h3⟩ := h
            subst h2
            exact ⟨undo1, redo1, y, undo2, redo2, rfl, hr2, h3.symm⟩

theorem removeAllKeyframes_steps {QT_NO_DEBUG : Bool}
    {self self1 : KeyframeModel GenTime} {st st1 : DocUndoStack GenTime} {res : Bool}
    (h : KeyframeModel.removeAllKeyframes QT_NO_DEBUG self st = some (res, self1, st1)) :
    ∃ undo1 redo1,
      removeAllKeyframes_loop QT_NO_DEBUG (std_map.keys self.m_keyframeList)
        Fun.true_lambda Fun.true_lambda self = some (Sum.inr (undo1, redo1, self1)) ∧
      st1 = (⟨undo1, redo1, "Delete all keyframes"⟩ : FunctionalUndoCommand GenTime)
        :: st := by
  unfold KeyframeModel.removeAllKeyframes at h
  cases hr : removeAllKeyframes_loop QT_NO_DEBUG (std_map.keys self.m_keyframeList)
      Fun.true_lambda Fun.true_lambda self with
  | none => simp [hr] at h
  | some r =>
    cases r with
    | inl y => exact (removeAllKeyframes_loop_result _ hr).elim
    | inr t =>
      obtain ⟨undo1, redo1, y⟩ := t
      simp only [hr, Option.some.injEq, Prod.mk.injEq, PUSH_UNDO] at h
      obtain ⟨_, h2, h3⟩ := h
      subst h2
      exact ⟨undo1, redo1, rfl, h3.symm⟩

/-! ## Public calls on an ordered map, whatever the undo stack holds -/

theorem Ordered_keys_nodup {m : List (GenTime × KeyframeType)} (h : std_map.Ordered m) :
    (std_map.keys m).Nodup := by
  unfold std_map.Ordered at h
  exact List.Pairwise.imp (fun hab => ne_of_lt hab) h

theorem addKeyframe_ordered {QT_NO_DEBUG : Bool} {pos : GenTime} {type : KeyframeType}
    {self self1 : KeyframeModel GenTime} {st st1 : DocUndoStack GenTime} {res : Bool}
    (hord : std_map.Ordered self.m_keyframeList)
    (h : KeyframeModel.addKeyframe QT_NO_DEBUG pos type self st = some (res, self1, st1)) :
    std_map.Ordered self1.m_keyframeList := by
  obtain ⟨undo1, redo1, text, hstep, _⟩ := addKeyframe_steps h
  exact (addKeyframe_undo_redo_keepsOrdered true_lambda_keepsOrdered
    true_lambda_keepsOrdered hord hstep).1

theorem removeKeyframe_ordered {QT_NO_DEBUG : Bool} {pos : GenTime}
    {self self1 : KeyframeModel GenTime} {st st1 : DocUndoStack GenTime} {res : Bool}
    (hord : std_map.Ordered self.m_keyframeList)
    (h : KeyframeModel.removeKeyframe QT_NO_DEBUG pos self st = some (res, self1, st1)) :
    std_map.Ordered self1.m_keyframeList := by
  obtain ⟨undo1, redo1, hstep, _⟩ := removeKeyframe_steps h
  exact (removeKeyframe_undo_redo_keepsOrdered true_lambda_keepsOrdered
    true_lambda_keepsOrdered hord hstep).1

theorem moveKeyframe_ordered {QT_NO_DEBUG : Bool} {oldPos pos : GenTime}
    {self self1 : KeyframeModel GenTime} {st st1 : DocUndoStack GenTime} {res : Bool}
    (hord : std_map.Ordered self.m_keyframeList)
    (h : KeyframeModel.moveKeyframe QT_NO_DEBUG oldPos pos self st = some (res, self1, st1)) :
    std_map.Ordered self1.m_keyframeList := by
  have hi := index_ordered hord oldPos
  rcases (moveKeyframe_steps h).2 with ⟨_, hself, _⟩ | ⟨_, undo1, redo1, y1, undo2, redo2,
    hrem, hadd, _⟩
  · rw [hself]; exact hi
  · obtain ⟨hy, hu, hd⟩ := removeKeyframe_undo_redo_keepsOrdered true_lambda_keepsOrdered
      true_lambda_keepsOrdered hi hrem
    exact (addKeyframe_undo_redo_keepsOrdered hu hd hy hadd).1

theorem removeAllKeyframes_ordered {QT_NO_DEBUG : Bool}
    {self self1 : KeyframeModel GenTime} {st st1 : DocUndoStack GenTime} {res : Bool}
    (hord : std_map.Ordered self.m_keyframeList)
    (h : KeyframeModel.removeAllKeyframes QT_NO_DEBUG self st = some (res, self1, st1)) :
    std_map.Ordered self1.m_keyframeList := by
  obtain ⟨undo1, redo1, hloop, _⟩ := removeAllKeyframes_steps h
  have hl := removeAllKeyframes_loop_keepsOrdered QT_NO_DEBUG
    (std_map.keys self.m_keyframeList) true_lambda_keepsOrdered true_lambda_keepsOrdered hord
  rw [hloop] at hl
  exact hl.1

/-- The composable `addKeyframe` at a stored position keeps the keys. -/
theorem addKeyframe_undo_redo_keys_of_stored {QT_NO_DEBUG : Bool} {pos : GenTime}
    {type old : KeyframeType} {undo redo undo1 redo1 : Fun GenTime}
    {x y : KeyframeModel GenTime} {b : Bool}
    (hord : std_map.Ordered x.m_keyframeList)
    (hat : std_map.«at» x.m_keyframeList pos = some old)
    (h : addKeyframe_undo_redo QT_NO_DEBUG pos type undo redo x = some (b, undo1, redo1, y)) :
    std_map.keys y.m_keyframeList = std_map.keys x.m_keyframeList := by
  by_cases hty : type = old
  · subst hty
    rw [addKeyframe_undo_redo_of_same QT_NO_DEBUG pos type undo redo x hat] at h
    simp only [Option.some.injEq, Prod.mk.injEq] at h
    rw [← h.2.2.2]
  · obtain ⟨y1, _, hyl, hres⟩ :=
      addKeyframe_undo_redo_of_other QT_NO_DEBUG pos type old undo redo x hat hty
    rw [h] at hres
    simp only [Option.some.injEq, Prod.mk.injEq] at hres
    rw [hres.2.2.2, hyl]
    exact std_map.keys_assign_of_at hord hat type

/-- A closure built by the model returns true whenever it returns. -/
theorem IsCommand.result {QT_NO_DEBUG : Bool} {f : Fun GenTime}
    (hf : IsCommand QT_NO_DEBUG f) {x y : KeyframeModel GenTime} {b : Bool}
    (h : f x = some (b, y)) : b = true := by
  induction hf generalizing x y b with
  | true_lambda =>
    simp only [Fun.true_lambda, Option.some.injEq, Prod.mk.injEq] at h
    exact h.1.symm
  | changeType pos type => exact (changeType_lambda_list h).1
  | add pos type => exact (addKeyframe_lambda_list h).1
  | delete pos => exact (deleteKeyframe_lambda_list h).1
  | andThen first second _ _ ih1 ih2 =>
    simp only [Fun.andThen] at h
    cases h1 : first x with
    | none => simp [h1] at h
    | some r1 =>
      obtain ⟨v, x1⟩ := r1
      cases h2 : second x1 with
      | none => simp [h1, h2] at h
      | some r2 =>
        obtain ⟨u, x2⟩ := r2
        simp only [h1, h2, Option.some.injEq, Prod.mk.injEq] at h
        rw [← h.1, ih1 h1, ih2 h2]
        rfl

/-! ## Redo closures -/

theorem UPDATE_UNDO_REDO_redo_eq (operation reverse undo redo : Fun GenTime) :
    (UPDATE_UNDO_REDO operation reverse undo redo).2 = redo.andThen operation := rfl

theorem addKeyframe_lambda_forward (QT_NO_DEBUG : Bool) {m : List (GenTime × KeyframeType)}
    {pos : GenTime} (type : KeyframeType) (habs : std_map.count m pos = 0) :
    (addKeyframe_lambda QT_NO_DEBUG pos type).restores m (std_map.assign m pos type) := by
  intro x hx
  obtain ⟨y, hy, hyl⟩ := addKeyframe_lambda_returns QT_NO_DEBUG pos type x
    (Or.inr (by rw [hx]; exact habs))
  exact ⟨y, hy, by rw [hyl, hx]⟩

theorem deleteKeyframe_lambda_forward (QT_NO_DEBUG : Bool)
    {m : List (GenTime × KeyframeType)} {pos : GenTime} (hst : std_map.count m pos > 0) :
    (deleteKeyframe_lambda QT_NO_DEBUG pos).restores m (std_map.erase m pos) := by
  intro x hx
  obtain ⟨y, hy, hyl⟩ := deleteKeyframe_lambda_returns QT_NO_DEBUG pos x
    (Or.inr (by rw [hx]; exact hst))
  exact ⟨y, hy, by rw [hyl, hx]⟩

theorem changeType_lambda_forward (QT_NO_DEBUG : Bool) {m : List (GenTime × KeyframeType)}
    {pos : GenTime} (type : KeyframeType) (hst : std_map.count m pos > 0) :
    (changeType_lambda QT_NO_DEBUG pos type).restores m (std_map.assign m pos type) := by
  intro x hx
  obtain ⟨y, hy, hyl, _⟩ := changeType_lambda_returns QT_NO_DEBUG pos type x
    (Or.inr (by rw [hx]; exact hst))
  exact ⟨y, hy, by rw [hyl, hx]⟩

/-- The redo accumulator after the composable `addKeyframe` leads to the new entries from
wherever the passed one led to the old entries. -/
theorem addKeyframe_undo_redo_redo_restores {QT_NO_DEBUG : Bool} {pos : GenTime}
    {type : KeyframeType} {undo redo undo1 redo1 : Fun GenTime}
    {x y : KeyframeModel GenTime} {b : Bool} {z : List (GenTime × KeyframeType)}
    (h : addKeyframe_undo_redo QT_NO_DEBUG pos type undo redo x = some (b, undo1, redo1, y))
    (hr : redo.restores z x.m_keyframeList) : redo1.restores z y.m_keyframeList := by
  cases hat : std_map.«at» x.m_keyframeList pos with
  | none =>
    have habs : std_map.count x.m_keyframeList pos = 0 := by simp [std_map.count, hat]
    obtain ⟨y1, _, hyl, hres⟩ :=
      addKeyframe_undo_redo_of_absent QT_NO_DEBUG pos type undo redo x habs
    rw [h] at hres
    simp only [Option.some.injEq, Prod.mk.injEq] at hres
    rw [hres.2.2.1, hres.2.2.2, hyl]
    exact UPDATE_UNDO_REDO_redo_restores hr (addKeyframe_lambda_forward QT_NO_DEBUG type habs)
  | some old =>
    by_cases hty : type = old
    · subst hty
      rw [addKeyframe_undo_redo_of_same QT_NO_DEBUG pos type undo redo x hat] at h
      simp only [Option.some.injEq, Prod.mk.injEq] at h
      rw [← h.2.2.1, ← h.2.2.2]
      exact hr
    · obtain ⟨y1, _, hyl, hres⟩ :=
        addKeyframe_undo_redo_of_other QT_NO_DEBUG pos type old undo redo x hat hty
      rw [h] at hres
      simp only [Option.some.injEq, Prod.mk.injEq] at hres
      rw [hres.2.2.1, hres.2.2.2, hyl]
      exact UPDATE_UNDO_REDO_redo_restores hr
        (changeType_lambda_forward QT_NO_DEBUG type (std_map.count_pos_of_at hat))

/-- The redo accumulator after the composable `removeKeyframe` of a stored position leads
to the new entries from wherever the passed one led to the old entries. -/
theorem removeKeyframe_undo_redo_redo_restores {QT_NO_DEBUG : Bool} {pos : GenTime}
    {undo redo undo1 redo1 : Fun GenTime}
    {x y : KeyframeModel GenTime} {b : Bool} {z : List (GenTime × KeyframeType)}
    (hst : std_map.count x.m_keyframeList pos > 0)
    (h : removeKeyframe_undo_redo QT_NO_DEBUG pos undo redo x = some (b, undo1, redo1, y))
    (hr : redo.restores z x.m_keyframeList) : redo1.restores z y.m_keyframeList := by
  obtain ⟨old, hat⟩ := std_map.at_of_count_pos hst
  obtain ⟨y1, _, hyl, hres⟩ :=
    removeKeyframe_undo_redo_of_stored QT_NO_DEBUG pos old undo redo x hat
  rw [h] at hres
  simp only [Option.some.injEq, Prod.mk.injEq] at hres
  rw [hres.2.2.1, hres.2.2.2, hyl]
  exact UPDATE_UNDO_REDO_redo_restores hr (deleteKeyframe_lambda_forward QT_NO_DEBUG hst)

/-- The redo accumulator after the loop of `removeAllKeyframes` over the keys of an
ordered map leads to the empty map from wherever the passed one led to the original
entries. -/
theorem removeAllKeyframes_loop_redo_restores (QT_NO_DEBUG : Bool)
    (m : List (GenTime × KeyframeType)) (local_undo local_redo undo1 redo1 : Fun GenTime)
    (x y : KeyframeModel GenTime) (z : List (GenTime × KeyframeType))
    (hx : x.m_keyframeList = m) (hord : std_map.Ordered m)
    (h : removeAllKeyframes_loop QT_NO_DEBUG (std_map.keys m) local_undo local_redo x =
      some (Sum.inr (undo1, redo1, y)))
    (hr : local_redo.restores z m) : redo1.restores z y.m_keyframeList := by
  induction m generalizing local_undo local_redo x with
  | nil =>
    simp only [std_map.keys, List.map_nil, removeAllKeyframes_loop, Option.some.injEq,
      Sum.inr.injEq, Prod.mk.injEq] at h
    rw [← h.2.1, ← h.2.2, hx]
    exact hr
  | cons e rest ih =>
    obtain ⟨k, w⟩ := e
    have hst : std_map.count x.m_keyframeList k > 0 := by
      rw [hx]; simp [std_map.count, std_map.«at»]
    have hat : std_map.«at» x.m_keyframeList k = some w := by
      rw [hx]; simp [std_map.«at»]
    obtain ⟨y1, _, hyl, hres⟩ :=
      removeKeyframe_undo_redo_of_stored QT_NO_DEBUG k w local_undo local_redo x hat
    have hy1 : y1.m_keyframeList = rest := by
      rw [hyl, hx]; simp [std_map.erase]
    simp only [std_map.keys, List.map_cons, removeAllKeyframes_loop, hres,
      not_true_eq_false, if_false] at h
    refine ih _ _ y1 hy1 hord.tail h ?_
    have := removeKeyframe_undo_redo_redo_restores hst hres (hx ▸ hr)
    rw [hy1] at this
    exact this

end SignalRows

/-! ## Replay of the emitted signals by an observer -/

section Replay

variable {GenTime : Type} [LinearOrder GenTime]

open KeyframeModel

theorem Observer.follows_refl (x : KeyframeModel GenTime) : Observer.follows x x :=
  ⟨[], by simp, fun _ => rfl⟩

theorem Observer.follows_trans {x y z : KeyframeModel GenTime}
    (h1 : Observer.follows x y) (h2 : Observer.follows y z) : Observer.follows x z := by
  obtain ⟨evs1, he1, hr1⟩ := h1
  obtain ⟨evs2, he2, hr2⟩ := h2
  refine ⟨evs1 ++ evs2, by rw [he2, he1, List.append_assoc], ?_⟩
  intro pending
  have h := hr1 pending
  simp only [Observer.replay] at h hr2 ⊢
  rw [List.foldl_append]
  have heta : List.foldl Observer.receive ⟨x.m_keyframeList, pending⟩ evs1 =
      ⟨y.m_keyframeList, (List.foldl Observer.receive ⟨x.m_keyframeList, pending⟩
        evs1).pending⟩ := by
    rw [← h]
  rw [heta]
  exact hr2 _

/-- The entries of the model changed without any signal: an observer follows only if
they are the same. -/
theorem Observer.follows_of_eq {x y : KeyframeModel GenTime}
    (hl : y.m_keyframeList = x.m_keyframeList) (he : y.emitted = x.emitted) :
    Observer.follows x y :=
  ⟨[], by simp [he], fun _ => by simp [Observer.replay, hl]⟩

theorem Q_ASSERT_debug_holds {cond : Prop} [Decidable cond]
    (h : Q_ASSERT false cond = some ()) : cond := by
  by_contra hn
  rw [Q_ASSERT_debug_of_fails hn] at h
  exact Option.noConfusion h

/-- A command closure that returns had its `Q_ASSERT` condition satisfied, when `Q_ASSERT`
is enabled. -/
theorem addKeyframe_lambda_debug {pos : GenTime} {type : KeyframeType}
    {x y : KeyframeModel GenTime} {b : Bool}
    (h : addKeyframe_lambda false pos type x = some (b, y)) :
    std_map.count x.m_keyframeList pos = 0 := by
  unfold addKeyframe_lambda at h
  cases hq : Q_ASSERT false (std_map.count x.m_keyframeList pos = 0) with
  | none => simp [hq] at h
  | some u => exact Q_ASSERT_debug_holds hq

theorem deleteKeyframe_lambda_debug {pos : GenTime}
    {x y : KeyframeModel GenTime} {b : Bool}
    (h : deleteKeyframe_lambda false pos x = some (b, y)) :
    std_map.count x.m_keyframeList pos > 0 := by
  unfold deleteKeyframe_lambda at h
  cases hq : Q_ASSERT false (std_map.count x.m_keyframeList pos > 0) with
  | none => simp [hq] at h
  | some u => exact Q_ASSERT_debug_holds hq

theorem changeType_lambda_debug {pos : GenTime} {type : KeyframeType}
    {x y : KeyframeModel GenTime} {b : Bool}
    (h : changeType_lambda false pos type x = some (b, y)) :
    std_map.count x.m_keyframeList pos > 0 := by
  unfold changeType_lambda at h
  cases hq : Q_ASSERT false (std_map.count x.m_keyframeList pos > 0) with
  | none => simp [hq] at h
  | some u => exact Q_ASSERT_debug_holds hq

/-- The signals of an insertion at an absent position lead an observer to the new
entries. -/
theorem addKeyframe_lambda_follows {QT_NO_DEBUG : Bool} {pos : GenTime}
    {type : KeyframeType} {x y : KeyframeModel GenTime} {b : Bool}
    (habs : std_map.count x.m_keyframeList pos = 0)
    (h : addKeyframe_lambda QT_NO_DEBUG pos type x = some (b, y)) :
    Observer.follows x y := by
  obtain ⟨y1, hy1, hyl, hem⟩ :=
    addKeyframe_lambda_emitted QT_NO_DEBUG pos type x (Or.inr habs)
  rw [h] at hy1
  simp only [Option.some.injEq, Prod.mk.injEq] at hy1
  obtain ⟨_, hy⟩ := hy1
  subst hy
  refine ⟨_, hem, ?_⟩
  intro pending
  have hget := get?_assign_lower_bound x.m_keyframeList pos type
  simp only [Observer.replay, List.foldl_cons, List.foldl_nil, Observer.receive,
    Int.toNat_ofNat, hget]
  rw [hyl, assign_eq_insertIdx ((std_map.count_eq_zero_iff _ _).mp habs)]

/-- The signals of the removal of a stored position lead an observer to the new
entries. -/
theorem deleteKeyframe_lambda_follows {QT_NO_DEBUG : Bool} {pos : GenTime}
    {x y : KeyframeModel GenTime} {b : Bool}
    (hst : std_map.count x.m_keyframeList pos > 0)
    (h : deleteKeyframe_lambda QT_NO_DEBUG pos x = some (b, y)) :
    Observer.follows x y := by
  obtain ⟨y1, hy1, hyl, hem⟩ := deleteKeyframe_lambda_emitted QT_NO_DEBUG pos x (Or.inr hst)
  rw [h] at hy1
  simp only [Option.some.injEq, Prod.mk.injEq] at hy1
  obtain ⟨_, hy⟩ := hy1
  subst hy
  refine ⟨_, hem, ?_⟩
  intro pending
  simp only [Observer.replay, List.foldl_cons, List.foldl_nil, Observer.receive,
    Int.toNat_ofNat]
  rw [hyl, erase_eq_eraseIdx]

/-- The signal of the retype of a stored position of an ordered map leads an observer to
the new entries. -/
theorem changeType_lambda_follows {QT_NO_DEBUG : Bool} {pos : GenTime}
    {type : KeyframeType} {x y : KeyframeModel GenTime} {b : Bool}
    (hord : std_map.Ordered x.m_keyframeList)
    (hst : std_map.count x.m_keyframeList pos > 0)
    (h : changeType_lambda QT_NO_DEBUG pos type x = some (b, y)) :
    Observer.follows x y := by
  obtain ⟨w, hat⟩ := std_map.at_of_count_pos hst
  obtain ⟨y1, hy1, hyl, hem⟩ :=
    changeType_lambda_returns QT_NO_DEBUG pos type x (Or.inr hst)
  rw [h] at hy1
  simp only [Option.some.injEq, Prod.mk.injEq] at hy1
  obtain ⟨_, hy⟩ := hy1
  subst hy
  refine ⟨_, hem, ?_⟩
  intro pending
  have hset := assign_eq_set hord hat type
  have hlt : std_map.find x.m_keyframeList pos < x.m_keyframeList.length := by
    by_contra hn
    have := get?_find_of_at hat
    rw [List.get?_eq_none.mpr (by omega)] at this
    exact Option.noConfusion this
  have hget : (std_map.assign x.m_keyframeList pos type).get?
      (std_map.find x.m_keyframeList pos) = some (pos, type) := by
    rw [hset]
    simp [hlt]
  simp only [Observer.replay, List.foldl_cons, List.foldl_nil, Observer.receive,
    Int.toNat_ofNat, hget]
  rw [hyl, hset]

theorem IsCommand.keepsOrdered {QT_NO_DEBUG : Bool} {f : Fun GenTime}
    (hf : IsCommand QT_NO_DEBUG f) : f.keepsOrdered := by
  induction hf with
  | true_lambda => exact true_lambda_keepsOrdered
  | changeType pos type => exact changeType_lambda_keepsOrdered _ _ _
  | add pos type => exact addKeyframe_lambda_keepsOrdered _ _ _
  | delete pos => exact deleteKeyframe_lambda_keepsOrdered _ _
  | andThen first second _ _ ih1 ih2 =>
    exact (UPDATE_UNDO_REDO_keepsOrdered true_lambda_keepsOrdered ih1 ih2
      true_lambda_keepsOrdered).1

/-- With `Q_ASSERT` enabled, the signals of every closure built by the model lead an
observer from the entries before its invocation to the entries after it. -/
theorem IsCommand.replays {f : Fun GenTime} (hf : IsCommand false f) : f.replays := by
  induction hf with
  | true_lambda =>
    intro x y b hx h
    simp only [Fun.true_lambda, Option.some.injEq, Prod.mk.injEq] at h
    rw [← h.2]
    exact ⟨hx, Observer.follows_refl x⟩
  | changeType pos type =>
    intro x y b hx h
    exact ⟨changeType_lambda_keepsOrdered _ _ _ x y b hx h,
      changeType_lambda_follows hx (changeType_lambda_debug h) h⟩
  | add pos type =>
    intro x y b hx h
    exact ⟨addKeyframe_lambda_keepsOrdered _ _ _ x y b hx h,
      addKeyframe_lambda_follows (addKeyframe_lambda_debug h) h⟩
  | delete pos =>
    intro x y b hx h
    exact ⟨deleteKeyframe_lambda_keepsOrdered _ _ x y b hx h,
      deleteKeyframe_lambda_follows (deleteKeyframe_lambda_debug h) h⟩
  | andThen first second _ _ ih1 ih2 =>
    intro x y b hx h
    simp only [Fun.andThen] at h
    cases h1 : first x with
    | none => simp [h1] at h
    | some r1 =>
      obtain ⟨v, x1⟩ := r1
      cases h2 : second x1 with
      | none => simp [h1, h2] at h
      | some r2 =>
        obtain ⟨u, x2⟩ := r2
        simp only [h1, h2, Option.some.injEq, Prod.mk.injEq] at h
        obtain ⟨ho1, hf1⟩ := ih1 x x1 v hx h1
        obtain ⟨ho2, hf2⟩ := ih2 x1 x2 u ho1 h2
        rw [← h.2]
        exact ⟨ho2, Observer.follows_trans hf1 hf2⟩

/-- The signals of the composable `addKeyframe` on an ordered map lead an observer to the
new entries. -/
theorem addKeyframe_undo_redo_follows {QT_NO_DEBUG : Bool} {pos : GenTime}
    {type : KeyframeType} {undo redo undo1 redo1 : Fun GenTime}
    {x y : KeyframeModel GenTime} {b : Bool}
    (hord : std_map.Ordered x.m_keyframeList)
    (h : addKeyframe_undo_redo QT_NO_DEBUG pos type undo redo x = some (b, undo1, redo1, y)) :
    Observer.follows x y := by
  cases hat : std_map.«at» x.m_keyframeList pos with
  | none =>
    have habs : std_map.count x.m_keyframeList pos = 0 := by simp [std_map.count, hat]
    obtain ⟨y1, hy1, _, hres⟩ :=
      addKeyframe_undo_redo_of_absent QT_NO_DEBUG pos type undo redo x habs
    rw [h] at hres
    simp only [Option.some.injEq, Prod.mk.injEq] at hres
    rw [hres.2.2.2]
    exact addKeyframe_lambda_follows habs hy1
  | some old =>
    by_cases hty : type = old
    · subst hty
      rw [addKeyframe_undo_redo_of_same QT_NO_DEBUG pos type undo redo x hat] at h
      simp only [Option.some.injEq, Prod.mk.injEq] at h
      rw [← h.2.2.2]
      exact Observer.follows_refl x
    · obtain ⟨y1, hy1, _, hres⟩ :=
        addKeyframe_undo_redo_of_other QT_NO_DEBUG pos type old undo redo x hat hty
      rw [h] at hres
      simp only [Option.some.injEq, Prod.mk.injEq] at hres
      rw [hres.2.2.2]
      exact changeType_lambda_follows hord (std_map.count_pos_of_at hat) hy1

/-- The signals of the composable `removeKeyframe` of a stored position lead an observer
to the new entries. -/
theorem removeKeyframe_undo_redo_follows {QT_NO_DEBUG : Bool} {pos : GenTime}
    {undo redo undo1 redo1 : Fun GenTime} {x y : KeyframeModel GenTime} {b : Bool}
    (hst : std_map.count x.m_keyframeList pos > 0)
    (h : removeKeyframe_undo_redo QT_NO_DEBUG pos undo redo x = some (b, undo1, redo1, y)) :
    Observer.follows x y := by
  obtain ⟨old, hat⟩ := std_map.at_of_count_pos hst
  obtain ⟨y1, hy1, _, hres⟩ :=
    removeKeyframe_undo_redo_of_stored QT_NO_DEBUG pos old undo redo x hat
  rw [h] at hres
  simp only [Option.some.injEq, Prod.mk.injEq] at hres
  rw [hres.2.2.2]
  exact deleteKeyframe_lambda_follows hst hy1

/-- With `Q_ASSERT` enabled, the composable `removeKeyframe` returns only for a stored
position. -/
theorem removeKeyframe_undo_redo_debug {pos : GenTime}
    {undo redo undo1 redo1 : Fun GenTime} {x y : KeyframeModel GenTime} {b : Bool}
    (h : removeKeyframe_undo_redo false pos undo redo x = some (b, undo1, redo1, y)) :
    std_map.count x.m_keyframeList pos > 0 := by
  unfold removeKeyframe_undo_redo at h
  cases hq : Q_ASSERT false (std_map.count x.m_keyframeList pos > 0) with
  | none => simp [hq] at h
  | some u => exact Q_ASSERT_debug_holds hq

/-- The signals of the loop of `removeAllKeyframes` over the keys of an ordered map lead
an observer to the new entries. -/
theorem removeAllKeyframes_loop_follows (QT_NO_DEBUG : Bool)
    (m : List (GenTime × KeyframeType)) (local_undo local_redo undo1 redo1 : Fun GenTime)
    (x y : KeyframeModel GenTime) (hx : x.m_keyframeList = m) (hord : std_map.Ordered m)
    (h : removeAllKeyframes_loop QT_NO_DEBUG (std_map.keys m) local_undo local_redo x =
      some (Sum.inr (undo1, redo1, y))) : Observer.follows x y := by
  induction m generalizing local_undo local_redo x with
  | nil =>
    simp only [std_map.keys, List.map_nil, removeAllKeyframes_loop, Option.some.injEq,
      Sum.inr.injEq, Prod.mk.injEq] at h
    rw [← h.2.2]
    exact Observer.follows_refl x
  | cons e rest ih =>
    obtain ⟨k, w⟩ := e
    have hst : std_map.count x.m_keyframeList k > 0 := by
      rw [hx]; simp [std_map.count, std_map.«at»]
    have hat : std_map.«at» x.m_keyframeList k = some w := by
      rw [hx]; simp [std_map.«at»]
    obtain ⟨y1, _, hyl, hres⟩ :=
      removeKeyframe_undo_redo_of_stored QT_NO_DEBUG k w local_undo local_redo x hat
    have hy1 : y1.m_keyframeList = rest := by
      rw [hyl, hx]; simp [std_map.erase]
    simp only [std_map.keys, List.map_cons, removeAllKeyframes_loop, hres,
      not_true_eq_false, if_false] at h
    exact Observer.follows_trans (removeKeyframe_undo_redo_follows hst hres)
      (ih _ _ y1 hy1 hord.tail h)

theorem addKeyframe_follows {QT_NO_DEBUG : Bool} {pos : GenTime} {type : KeyframeType}
    {self self1 : KeyframeModel GenTime} {st st1 : DocUndoStack GenTime} {res : Bool}
    (hord : std_map.Ordered self.m_keyframeList)
    (h : KeyframeModel.addKeyframe QT_NO_DEBUG pos type self st = some (res, self1, st1)) :
    Observer.follows self self1 := by
  obtain ⟨undo1, redo1, text, hstep, _⟩ := addKeyframe_steps h
  exact addKeyframe_undo_redo_follows hord hstep

theorem removeKeyframe_follows {QT_NO_DEBUG : Bool} {pos : GenTime}
    {self self1 : KeyframeModel GenTime} {st st1 : DocUndoStack GenTime} {res : Bool}
    (hc : QT_NO_DEBUG = false ∨ std_map.count self.m_keyframeList pos > 0)
    (h : KeyframeModel.removeKeyframe QT_NO_DEBUG pos self st = some (res, self1, st1)) :
    Observer.follows self self1 := by
  obtain ⟨undo1, redo1, hstep, _⟩ := removeKeyframe_steps h
  have hst : std_map.count self.m_keyframeList pos > 0 := by
    rcases hc with hc | hc
    · subst hc; exact removeKeyframe_undo_redo_debug hstep
    · exact hc
  exact removeKeyframe_undo_redo_follows hst hstep

theorem moveKeyframe_follows {QT_NO_DEBUG : Bool} {oldPos pos : GenTime}
    {self self1 : KeyframeModel GenTime} {st st1 : DocUndoStack GenTime} {res : Bool}
    (hord : std_map.Ordered self.m_keyframeList)
    (hc : QT_NO_DEBUG = false ∨ std_map.count self.m_keyframeList oldPos > 0)
    (h : KeyframeModel.moveKeyframe QT_NO_DEBUG oldPos pos self st = some (res, self1, st1)) :
    Observer.follows self self1 := by
  obtain ⟨hdbg, hsteps⟩ := moveKeyframe_steps h
  have hst : std_map.count self.m_keyframeList oldPos > 0 := by
    rcases hc with hc | hc
    · exact hdbg hc
    · exact hc
  obtain ⟨oldType, hat⟩ := std_map.at_of_count_pos hst
  rw [std_map.index_of_at hat] at hsteps
  rcases hsteps with ⟨_, hself, _⟩ | ⟨_, undo1, redo1, y1, undo2, redo2, hrem, hadd, _⟩
  · rw [hself]
    exact Observer.follows_of_eq rfl rfl
  · have h0 : Observer.follows self ⟨self.m_keyframeList, self.emitted⟩ :=
      Observer.follows_of_eq rfl rfl
    have h1 := removeKeyframe_undo_redo_follows
      (x := (⟨self.m_keyframeList, self.emitted⟩ : KeyframeModel GenTime)) hst hrem
    have ho1 := (removeKeyframe_undo_redo_keepsOrdered
      (x := (⟨self.m_keyframeList, self.emitted⟩ : KeyframeModel GenTime))
      true_lambda_keepsOrdered true_lambda_keepsOrdered hord hrem).1
    exact Observer.follows_trans h0
      (Observer.follows_trans h1 (addKeyframe_undo_redo_follows ho1 hadd))

theorem removeAllKeyframes_follows {QT_NO_DEBUG : Bool}
    {self self1 : KeyframeModel GenTime} {st st1 : DocUndoStack GenTime} {res : Bool}
    (hord : std_map.Ordered self.m_keyframeList)
    (h : KeyframeModel.removeAllKeyframes QT_NO_DEBUG self st = some (res, self1, st1)) :
    Observer.follows self self1 := by
  obtain ⟨undo1, redo1, hloop, _⟩ := removeAllKeyframes_steps h
  exact removeAllKeyframes_loop_follows QT_NO_DEBUG self.m_keyframeList _ _ _ _ self self1
    rfl hord hloop

/-! ## The closures held by the undo stack are built by the model -/

theorem run_local_redo_isCommand {QT_NO_DEBUG : Bool}
    {local_redo local_undo undo redo undo1 redo1 : Fun GenTime}
    {x y : KeyframeModel GenTime} {b : Bool}
    (ho : IsCommand QT_NO_DEBUG local_redo) (hr : IsCommand QT_NO_DEBUG local_undo)
    (hu : IsCommand QT_NO_DEBUG undo) (hd : IsCommand QT_NO_DEBUG redo)
    (h : run_local_redo local_redo local_undo undo redo x = some (b, undo1, redo1, y)) :
    IsCommand QT_NO_DEBUG undo1 ∧ IsCommand QT_NO_DEBUG redo1 := by
  unfold run_local_redo at h
  cases h1 : local_redo x with
  | none => simp [h1] at h
  | some r1 =>
    obtain ⟨v, x1⟩ := r1
    cases v with
    | true =>
      simp only [h1, Option.some.injEq, Prod.mk.injEq] at h
      obtain ⟨_, h2, h3, _⟩ := h
      rw [← h2, ← h3, UPDATE_UNDO_REDO_undo_eq, UPDATE_UNDO_REDO_redo_eq]
      exact ⟨IsCommand.andThen _ _ hr hu, IsCommand.andThen _ _ hd ho⟩
    | false =>
      simp only [h1, Option.some.injEq, Prod.mk.injEq] at h
      obtain ⟨_, h2, h3, _⟩ := h
      rw [← h2, ← h3]
      exact ⟨hu, hd⟩

theorem addKeyframe_undo_redo_isCommand {QT_NO_DEBUG : Bool} {pos : GenTime}
    {type : KeyframeType} {undo redo undo1 redo1 : Fun GenTime}
    {x y : KeyframeModel GenTime} {b : Bool}
    (hu : IsCommand QT_NO_DEBUG undo) (hd : IsCommand QT_NO_DEBUG redo)
    (h : addKeyframe_undo_redo QT_NO_DEBUG pos type undo redo x = some (b, undo1, redo1, y)) :
    IsCommand QT_NO_DEBUG undo1 ∧ IsCommand QT_NO_DEBUG redo1 := by
  unfold addKeyframe_undo_redo at h
  split_ifs at h with hc
  · cases hat : std_map.«at» x.m_keyframeList pos with
    | none => simp [hat] at h
    | some current =>
      simp only [hat] at h
      split_ifs at h with hty
      · simp only [Option.some.injEq, Prod.mk.injEq] at h
        obtain ⟨_, h2, h3, _⟩ := h
        rw [← h2, ← h3]
        exact ⟨hu, hd⟩
      · exact run_local_redo_isCommand (IsCommand.changeType _ _) (IsCommand.changeType _ _)
          hu hd h
  · exact run_local_redo_isCommand (IsCommand.add _ _) (IsCommand.delete _) hu hd h

theorem removeKeyframe_undo_redo_isCommand {QT_NO_DEBUG : Bool} {pos : GenTime}
    {undo redo undo1 redo1 : Fun GenTime} {x y : KeyframeModel GenTime} {b : Bool}
    (hu : IsCommand QT_NO_DEBUG undo) (hd : IsCommand QT_NO_DEBUG redo)
    (h : removeKeyframe_undo_redo QT_NO_DEBUG pos undo redo x = some (b, undo1, redo1, y)) :
    IsCommand QT_NO_DEBUG undo1 ∧ IsCommand QT_NO_DEBUG redo1 := by
  unfold removeKeyframe_undo_redo at h
  cases hq : Q_ASSERT QT_NO_DEBUG (std_map.count x.m_keyframeList pos > 0) with
  | none => simp [hq] at h
  | some u =>
    simp only [hq] at h
    exact run_local_redo_isCommand (IsCommand.delete _) (IsCommand.add _ _) hu hd h

theorem removeAllKeyframes_loop_isCommand {QT_NO_DEBUG : Bool} (all_pos : List GenTime)
    {local_undo local_redo undo1 redo1 : Fun GenTime} {x y : KeyframeModel GenTime}
    (hu : IsCommand QT_NO_DEBUG local_undo) (hd : IsCommand QT_NO_DEBUG local_redo)
    (h : removeAllKeyframes_loop QT_NO_DEBUG all_pos local_undo local_redo x =
      some (Sum.inr (undo1, redo1, y))) :
    IsCommand QT_NO_DEBUG undo1 ∧ IsCommand QT_NO_DEBUG redo1 := by
  induction all_pos generalizing local_undo local_redo x with
  | nil =>
    simp only [removeAllKeyframes_loop, Option.some.injEq, Sum.inr.injEq,
      Prod.mk.injEq] at h
    rw [← h.1, ← h.2.1]
    exact ⟨hu, hd⟩
  | cons p rest ih =>
    unfold removeAllKeyframes_loop at h
    cases hr : removeKeyframe_undo_redo QT_NO_DEBUG p local_undo local_redo x with
    | none => simp [hr] at h
    | some r =>
      obtain ⟨b, u1, r1, y1⟩ := r
      have hb := removeKeyframe_undo_redo_result hr
      subst hb
      obtain ⟨hu1, hd1⟩ := removeKeyframe_undo_redo_isCommand hu hd hr
      simp only [hr, not_true_eq_false, if_false] at h
      exact ih hu1 hd1 h

/-- In every reachable state the closures held by the undo stack are built by the
model. -/
theorem Reachable.isCommand {QT_NO_DEBUG : Bool} {self : KeyframeModel GenTime}
    {st : DocUndoStack GenTime} (h : Reachable QT_NO_DEBUG self st) :
    ∀ cmd ∈ st, IsCommand QT_NO_DEBUG cmd.m_undo ∧ IsCommand QT_NO_DEBUG cmd.m_redo := by
  induction h with
  | init => simp
  | addKeyframe pos type _ hrun ih =>
    obtain ⟨undo1, redo1, text, hstep, hst⟩ := addKeyframe_steps hrun
    intro cmd hcmd
    rw [hst, List.mem_cons] at hcmd
    rcases hcmd with hcmd | hcmd
    · rw [hcmd]
      exact addKeyframe_undo_redo_isCommand IsCommand.true_lambda IsCommand.true_lambda hstep
    · exact ih cmd hcmd
  | removeKeyframe pos _ hrun ih =>
    obtain ⟨undo1, redo1, hstep, hst⟩ := removeKeyframe_steps hrun
    intro cmd hcmd
    rw [hst, List.mem_cons] at hcmd
    rcases hcmd with hcmd | hcmd
    · rw [hcmd]
      exact removeKeyframe_undo_redo_isCommand IsCommand.true_lambda IsCommand.true_lambda
        hstep
    · exact ih cmd hcmd
  | moveKeyframe oldPos pos _ hrun ih =>
    rcases (moveKeyframe_steps hrun).2 with ⟨_, _, hst⟩ | ⟨_, undo1, redo1, y1, undo2, redo2,
      hrem, hadd, hst⟩
    · rw [hst]; exact ih
    · intro cmd hcmd
      rw [hst, List.mem_cons] at hcmd
      rcases hcmd with hcmd | hcmd
      · rw [hcmd]
        obtain ⟨hu1, hd1⟩ := removeKeyframe_undo_redo_isCommand IsCommand.true_lambda
          IsCommand.true_lambda hrem
        exact addKeyframe_undo_redo_isCommand hu1 hd1 hadd
      · exact ih cmd hcmd
  | removeAllKeyframes _ hrun ih =>
    obtain ⟨undo1, redo1, hloop, hst⟩ := removeAllKeyframes_steps hrun
    intro cmd hcmd
    rw [hst, List.mem_cons] at hcmd
    rcases hcmd with hcmd | hcmd
    · rw [hcmd]
      exact removeAllKeyframes_loop_isCommand _ IsCommand.true_lambda IsCommand.true_lambda
        hloop
    · exact ih cmd hcmd
  | undo cmd _ _ _ ih => exact ih
  | redo cmd _ _ _ ih => exact ih

/-- The signals of `moveKeyframe(a, b)` for a stored `a` and a free `b`: the removal of
the row of `a`, then the insertion at the row that `b` has in the store without `a`. -/
theorem moveKeyframe_to_free_emitted (QT_NO_DEBUG : Bool) (a b : GenTime)
    (t : KeyframeType) (self : KeyframeModel GenTime) (st : DocUndoStack GenTime)
    (hord : std_map.Ordered self.m_keyframeList)
    (hat : std_map.«at» self.m_keyframeList a = some t) (hne : b ≠ a)
    (hfree : std_map.count self.m_keyframeList b = 0) :
    ∃ self1 st1, KeyframeModel.moveKeyframe QT_NO_DEBUG a b self st =
        some (true, self1, st1) ∧
      self1.emitted = self.emitted ++
        [(Signal.beginRemoveRows (std_map.rank self.m_keyframeList a : Nat)
            (std_map.rank self.m_keyframeList a : Nat), self.m_keyframeList),
          (Signal.endRemoveRows, std_map.erase self.m_keyframeList a),
          (Signal.beginInsertRows
            (std_map.rank (std_map.erase self.m_keyframeList a) b : Nat)
            (std_map.rank (std_map.erase self.m_keyframeList a) b : Nat),
            std_map.erase self.m_keyframeList a),
          (Signal.endInsertRows, self1.m_keyframeList)] := by
  obtain ⟨y1, undo2, redo2, y2, hdel, hyl1, hres2, hrun⟩ :=
    moveKeyframe_of_stored QT_NO_DEBUG a b t self st hat (Ne.symm hne)
  have hst : std_map.count self.m_keyframeList a > 0 := std_map.count_pos_of_at hat
  obtain ⟨y1', hdel', _, hem1⟩ := deleteKeyframe_lambda_emitted QT_NO_DEBUG a self (Or.inr hst)
  rw [hdel] at hdel'
  simp only [Option.some.injEq, Prod.mk.injEq, true_and] at hdel'
  subst hdel'
  have hb1 : std_map.«at» y1.m_keyframeList b = none := by
    rw [hyl1, std_map.at_erase_of_ne _ _ hne, std_map.at_eq_none_iff,
      ← std_map.count_eq_zero_iff]
    exact hfree
  have hfree1 : std_map.count y1.m_keyframeList b = 0 := by simp [std_map.count, hb1]
  obtain ⟨y, hadd, _, hres⟩ := addKeyframe_undo_redo_of_absent QT_NO_DEBUG b t
    ((addKeyframe_lambda QT_NO_DEBUG a t).andThen Fun.true_lambda)
    (UPDATE_UNDO_REDO (deleteKeyframe_lambda QT_NO_DEBUG a)
      (addKeyframe_lambda QT_NO_DEBUG a t) Fun.true_lambda Fun.true_lambda).2 y1 hfree1
  rw [hres2] at hres
  simp only [Option.some.injEq, Prod.mk.injEq, true_and] at hres
  have hy : y2 = y := hres.2.2
  subst hy
  obtain ⟨y', hadd', hyl2, hem2⟩ :=
    addKeyframe_lambda_emitted QT_NO_DEBUG b t y1 (Or.inr hfree1)
  rw [hadd] at hadd'
  simp only [Option.some.injEq, Prod.mk.injEq, true_and] at hadd'
  subst hadd'
  refine ⟨y2, _, hrun, ?_⟩
  rw [hem2, hem1, hyl2, hyl1, find_eq_rank hord hat,
    lower_bound_eq_rank (hord.erase a) b]
  simp

end Replay

/-! ## The public operations around their callees -/

section Callees

variable {GenTime : Type} [LinearOrder GenTime]

open KeyframeModel

/-- The public `addKeyframe` is its body around the composable `addKeyframe`. -/
theorem addKeyframe_eq_with (QT_NO_DEBUG : Bool) (pos : GenTime) (type : KeyframeType)
    (self : KeyframeModel GenTime) (st : DocUndoStack GenTime) :
    KeyframeModel.addKeyframe QT_NO_DEBUG pos type self st =
      addKeyframe_with (addKeyframe_undo_redo QT_NO_DEBUG) pos type self st := rfl

/-- The public `removeKeyframe` is its body around the composable `removeKeyframe`. -/
theorem removeKeyframe_eq_with (QT_NO_DEBUG : Bool) (pos : GenTime)
    (self : KeyframeModel GenTime) (st : DocUndoStack GenTime) :
    KeyframeModel.removeKeyframe QT_NO_DEBUG pos self st =
      removeKeyframe_with (removeKeyframe_undo_redo QT_NO_DEBUG) pos self st := rfl

/-- The public `moveKeyframe` is its body around the two composable operations. -/
theorem moveKeyframe_eq_with (QT_NO_DEBUG : Bool) (oldPos pos : GenTime)
    (self : KeyframeModel GenTime) (st : DocUndoStack GenTime) :
    KeyframeModel.moveKeyframe QT_NO_DEBUG oldPos pos self st =
      moveKeyframe_with (removeKeyframe_undo_redo QT_NO_DEBUG)
        (addKeyframe_undo_redo QT_NO_DEBUG) QT_NO_DEBUG oldPos pos self st := rfl

theorem removeAllKeyframes_loop_eq_with (QT_NO_DEBUG : Bool) (all_pos : List GenTime)
    (local_undo local_redo : Fun GenTime) (self : KeyframeModel GenTime) :
    removeAllKeyframes_loop QT_NO_DEBUG all_pos local_undo local_redo self =
      removeAllKeyframes_loop_with (removeKeyframe_undo_redo QT_NO_DEBUG) QT_NO_DEBUG
        all_pos local_undo local_redo self := by
  induction all_pos generalizing local_undo local_redo self with
  | nil => rfl
  | cons p rest ih =>
    simp only [removeAllKeyframes_loop, removeAllKeyframes_loop_with]
    cases removeKeyframe_undo_redo QT_NO_DEBUG p local_undo local_redo self with
    | none => rfl
    | some r =>
      obtain ⟨res, undo1, redo1, y⟩ := r
      cases res with
      | true => simp [ih]
      | false => simp

/-- The public `removeAllKeyframes` is its body around the composable `removeKeyframe`. -/
theorem removeAllKeyframes_eq_with (QT_NO_DEBUG : Bool)
    (self : KeyframeModel GenTime) (st : DocUndoStack GenTime) :
    KeyframeModel.removeAllKeyframes QT_NO_DEBUG self st =
      removeAllKeyframes_with (removeKeyframe_undo_redo QT_NO_DEBUG) QT_NO_DEBUG self st := by
  simp only [KeyframeModel.removeAllKeyframes, removeAllKeyframes_with,
    removeAllKeyframes_loop_eq_with]

/-- Whatever the callee, the public `addKeyframe` pushes nothing when it returns false. -/
theorem addKeyframe_with_false {addKeyframe_step : GenTime → KeyframeType → Step GenTime}
    {pos : GenTime} {type : KeyframeType}
    {self self1 : KeyframeModel GenTime} {st st1 : DocUndoStack GenTime}
    (h : addKeyframe_with addKeyframe_step pos type self st = some (false, self1, st1)) :
    st1 = st := by
  unfold addKeyframe_with at h
  cases hr : addKeyframe_step pos type Fun.true_lambda Fun.true_lambda self with
  | none => simp [hr] at h
  | some r =>
    obtain ⟨res, undo1, redo1, y⟩ := r
    cases res with
    | true => simp [hr] at h
    | false =>
      simp only [hr, Bool.false_eq_true, if_false, Option.some.injEq, Prod.mk.injEq,
        true_and] at h
      exact h.2.symm

theorem removeKeyframe_with_false {removeKeyframe_step : GenTime → Step GenTime}
    {pos : GenTime} {self self1 : KeyframeModel GenTime} {st st1 : DocUndoStack GenTime}
    (h : removeKeyframe_with removeKeyframe_step pos self st = some (false, self1, st1)) :
    st1 = st := by
  unfold removeKeyframe_with at h
  cases hr : removeKeyframe_step pos Fun.true_lambda Fun.true_lambda self with
  | none => simp [hr] at h
  | some r =>
    obtain ⟨res, undo1, redo1, y⟩ := r
    cases res with
    | true => simp [hr] at h
    | false =>
      simp only [hr, Bool.false_eq_true, if_false, Option.some.injEq, Prod.mk.injEq,
        true_and] at h
      exact h.2.symm

/-- Whatever the callees, the public `moveKeyframe` pushes nothing when it returns
false. -/
theorem moveKeyframe_with_false {removeKeyframe_step : GenTime → Step GenTime}
    {addKeyframe_step : GenTime → KeyframeType → Step GenTime}
    {QT_NO_DEBUG : Bool} {oldPos pos : GenTime}
    {self self1 : KeyframeModel GenTime} {st st1 : DocUndoStack GenTime}
    (h : moveKeyframe_with removeKeyframe_step addKeyframe_step QT_NO_DEBUG oldPos pos
      self st = some (false, self1, st1)) : st1 = st := by
  unfold moveKeyframe_with at h
  cases hq : Q_ASSERT QT_NO_DEBUG (std_map.count self.m_keyframeList oldPos > 0) with
  | none => simp [hq] at h
  | some u =>
    simp only [hq] at h
    split_ifs at h with heq
    · simp at h
    · cases hr : removeKeyframe_step oldPos Fun.true_lambda Fun.true_lambda
          { self with m_keyframeList := (std_map.index self.m_keyframeList oldPos).2 } with
      | none => simp [hr] at h
      | some r =>
        obtain ⟨b, undo1, redo1, y⟩ := r
        simp only [hr] at h
        cases hr2 : (if b = true then addKeyframe_step pos
            (std_map.index self.m_keyframeList oldPos).1 undo1 redo1 y
            else some (b, undo1, redo1, y)) with
        | none => simp [hr2] at h
        | some r2 =>
          obtain ⟨b2, undo2, redo2, y2⟩ := r2
          simp only [hr2] at h
          cases b2 with
          | true => simp at h
          | false =>
            simp only [Bool.false_eq_true, if_false] at h
            cases hu : undo2 y2 with
            | none => simp [hu] at h
            | some r3 =>
              obtain ⟨undone, y3⟩ := r3
              simp only [hu] at h
              cases hq2 : Q_ASSERT QT_NO_DEBUG (undone = true) with
              | none => simp [hq2] at h
              | some u2 =>
                simp only [hq2, Option.some.injEq, Prod.mk.injEq, true_and] at h
                exact h.2.symm

/-- Whatever the callee, the loop of `removeAllKeyframes` hands on no accumulator when it
stops at a step that returned false. -/
theorem removeAllKeyframes_with_false {removeKeyframe_step : GenTime → Step GenTime}
    {QT_NO_DEBUG : Bool}
    {self self1 : KeyframeModel GenTime} {st st1 : DocUndoStack GenTime}
    (h : removeAllKeyframes_with removeKeyframe_step QT_NO_DEBUG self st =
      some (false, self1, st1)) : st1 = st := by
  unfold removeAllKeyframes_with at h
  cases hl : removeAllKeyframes_loop_with removeKeyframe_step QT_NO_DEBUG
      (std_map.keys self.m_keyframeList) Fun.true_lambda Fun.true_lambda self with
  | none => simp [hl] at h
  | some r =>
    cases r with
    | inl y =>
      simp only [hl, Option.some.injEq, Prod.mk.injEq, true_and] at h
      exact h.2.symm
    | inr r =>
      obtain ⟨u, v, y⟩ := r
      simp [hl] at h

end Callees

/-! ## Invocations of closures that violate no `Q_ASSERT` condition -/

section Asserts

variable {GenTime : Type} [LinearOrder GenTime]

open KeyframeModel

/-- In either build, the signals of an invocation that violates no `Q_ASSERT` condition,
on an ordered map, lead an observer from the entries before it to the entries after it,
which are ordered again. -/
theorem AssertsHold.leadsObserver {QT_NO_DEBUG : Bool} {f : Fun GenTime}
    {x : KeyframeModel GenTime} (hf : AssertsHold QT_NO_DEBUG f x) :
    ∀ (y : KeyframeModel GenTime) (b : Bool), std_map.Ordered x.m_keyframeList →
      f x = some (b, y) → std_map.Ordered y.m_keyframeList ∧ Observer.follows x y := by
  induction hf with
  | true_lambda x =>
    intro y b hx h
    simp only [Fun.true_lambda, Option.some.injEq, Prod.mk.injEq] at h
    rw [← h.2]
    exact ⟨hx, Observer.follows_refl x⟩
  | changeType pos type x hst =>
    intro y b hx h
    exact ⟨changeType_lambda_keepsOrdered _ _ _ x y b hx h,
      changeType_lambda_follows hx hst h⟩
  | add pos type x habs =>
    intro y b hx h
    exact ⟨addKeyframe_lambda_keepsOrdered _ _ _ x y b hx h,
      addKeyframe_lambda_follows habs h⟩
  | delete pos x hst =>
    intro y b hx h
    exact ⟨deleteKeyframe_lambda_keepsOrdered _ _ x y b hx h,
      deleteKeyframe_lambda_follows hst h⟩
  | andThen first second x x1 v _ hrun _ ih1 ih2 =>
    intro y b hx h
    simp only [Fun.andThen, hrun] at h
    cases h2 : second x1 with
    | none => simp [h2] at h
    | some r2 =>
      obtain ⟨u, x2⟩ := r2
      simp only [h2, Option.some.injEq, Prod.mk.injEq] at h
      obtain ⟨ho1, hf1⟩ := ih1 x1 v hx hrun
      obtain ⟨ho2, hf2⟩ := ih2 x2 u ho1 h2
      rw [← h.2]
      exact ⟨ho2, Observer.follows_trans hf1 hf2⟩

/-- With `Q_ASSERT` enabled, every invocation of a closure built by the model that returns
has violated no `Q_ASSERT` condition. -/
theorem IsCommand.assertsHold {f : Fun GenTime} (hf : IsCommand false f) :
    ∀ (x y : KeyframeModel GenTime) (b : Bool), f x = some (b, y) →
      AssertsHold false f x := by
  induction hf with
  | true_lambda =>
    intro x y b _
    exact AssertsHold.true_lambda x
  | changeType pos type =>
    intro x y b h
    exact AssertsHold.changeType pos type x (changeType_lambda_debug h)
  | add pos type =>
    intro x y b h
    exact AssertsHold.add pos type x (addKeyframe_lambda_debug h)
  | delete pos =>
    intro x y b h
    exact AssertsHold.delete pos x (deleteKeyframe_lambda_debug h)
  | andThen first second _ _ ih1 ih2 =>
    intro x y b h
    simp only [Fun.andThen] at h
    cases h1 : first x with
    | none => simp [h1] at h
    | some r1 =>
      obtain ⟨v, x1⟩ := r1
      cases h2 : second x1 with
      | none => simp [h1, h2] at h
      | some r2 =>
        obtain ⟨u, x2⟩ := r2
        exact AssertsHold.andThen first second x x1 v (ih1 x x1 v h1) h1 (ih2 x1 x2 u h2)

theorem true_lambda_assertsHoldFrom (QT_NO_DEBUG : Bool)
    (a : List (GenTime × KeyframeType)) :
    (Fun.true_lambda : Fun GenTime).assertsHoldFrom QT_NO_DEBUG a :=
  fun x _ => AssertsHold.true_lambda x

theorem addKeyframe_lambda_assertsHoldFrom (QT_NO_DEBUG : Bool)
    {m : List (GenTime × KeyframeType)} {pos : GenTime} (type : KeyframeType)
    (habs : std_map.count m pos = 0) :
    (addKeyframe_lambda QT_NO_DEBUG pos type).assertsHoldFrom QT_NO_DEBUG m :=
  fun x hx => AssertsHold.add pos type x (by rw [hx]; exact habs)

theorem deleteKeyframe_lambda_assertsHoldFrom (QT_NO_DEBUG : Bool)
    {m : List (GenTime × KeyframeType)} {pos : GenTime}
    (hst : std_map.count m pos > 0) :
    (deleteKeyframe_lambda QT_NO_DEBUG pos).assertsHoldFrom QT_NO_DEBUG m :=
  fun x hx => AssertsHold.delete pos x (by rw [hx]; exact hst)

theorem changeType_lambda_assertsHoldFrom (QT_NO_DEBUG : Bool)
    {m : List (GenTime × KeyframeType)} {pos : GenTime} (type : KeyframeType)
    (hst : std_map.count m pos > 0) :
    (changeType_lambda QT_NO_DEBUG pos type).assertsHoldFrom QT_NO_DEBUG m :=
  fun x hx => AssertsHold.changeType pos type x (by rw [hx]; exact hst)

theorem andThen_assertsHoldFrom {QT_NO_DEBUG : Bool} {first second : Fun GenTime}
    {b c : List (GenTime × KeyframeType)}
    (h1 : first.assertsHoldFrom QT_NO_DEBUG c) (hr : first.restores c b)
    (h2 : second.assertsHoldFrom QT_NO_DEBUG b) :
    (first.andThen second).assertsHoldFrom QT_NO_DEBUG c := by
  intro x hx
  obtain ⟨y, hy, hyl⟩ := hr x hx
  exact AssertsHold.andThen first second x y true (h1 x hx) hy (h2 y hyl)

/-- The undo accumulator after the composable `addKeyframe` on an ordered map violates no
`Q_ASSERT` condition on the new entries, when the passed one violates none on the old
entries. -/
theorem addKeyframe_undo_redo_undo_assertsHold {QT_NO_DEBUG : Bool} {pos : GenTime}
    {type : KeyframeType} {undo redo undo1 redo1 : Fun GenTime}
    {x y : KeyframeModel GenTime} {b : Bool}
    (hord : std_map.Ordered x.m_keyframeList)
    (h : addKeyframe_undo_redo QT_NO_DEBUG pos type undo redo x = some (b, undo1, redo1, y))
    (hu : undo.assertsHoldFrom QT_NO_DEBUG x.m_keyframeList) :
    undo1.assertsHoldFrom QT_NO_DEBUG y.m_keyframeList := by
  cases hat : std_map.«at» x.m_keyframeList pos with
  | none =>
    have habs : std_map.count x.m_keyframeList pos = 0 := by simp [std_map.count, hat]
    obtain ⟨y1, _, hyl, hres⟩ :=
      addKeyframe_undo_redo_of_absent QT_NO_DEBUG pos type undo redo x habs
    rw [h] at hres
    simp only [Option.some.injEq, Prod.mk.injEq] at hres
    rw [hres.2.1, hres.2.2.2, hyl, UPDATE_UNDO_REDO_undo_eq]
    exact andThen_assertsHoldFrom
      (deleteKeyframe_lambda_assertsHoldFrom QT_NO_DEBUG
        (std_map.count_pos_of_at (std_map.at_assign_self _ pos type)))
      (deleteKeyframe_lambda_restores QT_NO_DEBUG type habs) hu
  | some old =>
    by_cases hty : type = old
    · subst hty
      rw [addKeyframe_undo_redo_of_same QT_NO_DEBUG pos type undo redo x hat] at h
      simp only [Option.some.injEq, Prod.mk.injEq] at h
      rw [← h.2.1, ← h.2.2.2]
      exact hu
    · obtain ⟨y1, _, hyl, hres⟩ :=
        addKeyframe_undo_redo_of_other QT_NO_DEBUG pos type old undo redo x hat hty
      rw [h] at hres
      simp only [Option.some.injEq, Prod.mk.injEq] at hres
      rw [hres.2.1, hres.2.2.2, hyl, UPDATE_UNDO_REDO_undo_eq]
      exact andThen_assertsHoldFrom
        (changeType_lambda_assertsHoldFrom QT_NO_DEBUG old
          (std_map.count_pos_of_at (std_map.at_assign_self _ pos type)))
        (changeType_lambda_restores QT_NO_DEBUG type hord hat) hu

/-- The redo accumulator after the composable `addKeyframe` violates no `Q_ASSERT`
condition on the entries from which the passed one led to the old entries, when the passed
one violates none there. -/
theorem addKeyframe_undo_redo_redo_assertsHold {QT_NO_DEBUG : Bool} {pos : GenTime}
    {type : KeyframeType} {undo redo undo1 redo1 : Fun GenTime}
    {x y : KeyframeModel GenTime} {b : Bool} {z : List (GenTime × KeyframeType)}
    (h : addKeyframe_undo_redo QT_NO_DEBUG pos type undo redo x = some (b, undo1, redo1, y))
    (hr : redo.restores z x.m_keyframeList) (hc : redo.assertsHoldFrom QT_NO_DEBUG z) :
    redo1.assertsHoldFrom QT_NO_DEBUG z := by
  cases hat : std_map.«at» x.m_keyframeList pos with
  | none =>
    have habs : std_map.count x.m_keyframeList pos = 0 := by simp [std_map.count, hat]
    obtain ⟨y1, _, _, hres⟩ :=
      addKeyframe_undo_redo_of_absent QT_NO_DEBUG pos type undo redo x habs
    rw [h] at hres
    simp only [Option.some.injEq, Prod.mk.injEq] at hres
    rw [hres.2.2.1, UPDATE_UNDO_REDO_redo_eq]
    exact andThen_assertsHoldFrom hc hr
      (addKeyframe_lambda_assertsHoldFrom QT_NO_DEBUG type habs)
  | some old =>
    by_cases hty : type = old
    · subst hty
      rw [addKeyframe_undo_redo_of_same QT_NO_DEBUG pos type undo redo x hat] at h
      simp only [Option.some.injEq, Prod.mk.injEq] at h
      rw [← h.2.2.1]
      exact hc
    · obtain ⟨y1, _, _, hres⟩ :=
        addKeyframe_undo_redo_of_other QT_NO_DEBUG pos type old undo redo x hat hty
      rw [h] at hres
      simp only [Option.some.injEq, Prod.mk.injEq] at hres
      rw [hres.2.2.1, UPDATE_UNDO_REDO_redo_eq]
      exact andThen_assertsHoldFrom hc hr
        (changeType_lambda_assertsHoldFrom QT_NO_DEBUG type (std_map.count_pos_of_at hat))

/-- The undo accumulator after the composable `removeKeyframe` of a stored position of an
ordered map violates no `Q_ASSERT` condition on the new entries, when the passed one
violates none on the old entries. -/
theorem removeKeyframe_undo_redo_undo_assertsHold {QT_NO_DEBUG : Bool} {pos : GenTime}
    {undo redo undo1 redo1 : Fun GenTime} {x y : KeyframeModel GenTime} {b : Bool}
    (hord : std_map.Ordered x.m_keyframeList)
    (hst : std_map.count x.m_keyframeList pos > 0)
    (h : removeKeyframe_undo_redo QT_NO_DEBUG pos undo redo x = some (b, undo1, redo1, y))
    (hu : undo.assertsHoldFrom QT_NO_DEBUG x.m_keyframeList) :
    undo1.assertsHoldFrom QT_NO_DEBUG y.m_keyframeList := by
  obtain ⟨old, hat⟩ := std_map.at_of_count_pos hst
  obtain ⟨y1, _, hyl, hres⟩ :=
    removeKeyframe_undo_redo_of_stored QT_NO_DEBUG pos old undo redo x hat
  rw [h] at hres
  simp only [Option.some.injEq, Prod.mk.injEq] at hres
  rw [hres.2.1, hres.2.2.2, hyl, UPDATE_UNDO_REDO_undo_eq]
  have habs : std_map.count (std_map.erase x.m_keyframeList pos) pos = 0 := by
    rw [std_map.count_eq_zero_iff, ← std_map.at_eq_none_iff]
    exact std_map.at_erase_self hord pos
  exact andThen_assertsHoldFrom
    (addKeyframe_lambda_assertsHoldFrom QT_NO_DEBUG old habs)
    (addKeyframe_lambda_restores QT_NO_DEBUG hord hat) hu

/-- The redo accumulator after the composable `removeKeyframe` of a stored position
violates no `Q_ASSERT` condition on the entries from which the passed one led to the old
entries, when the passed one violates none there. -/
theorem removeKeyframe_undo_redo_redo_assertsHold {QT_NO_DEBUG : Bool} {pos : GenTime}
    {undo redo undo1 redo1 : Fun GenTime}
    {x y : KeyframeModel GenTime} {b : Bool} {z : List (GenTime × KeyframeType)}
    (hst : std_map.count x.m_keyframeList pos > 0)
    (h : removeKeyframe_undo_redo QT_NO_DEBUG pos undo redo x = some (b, undo1, redo1, y))
    (hr : redo.restores z x.m_keyframeList) (hc : redo.assertsHoldFrom QT_NO_DEBUG z) :
    redo1.assertsHoldFrom QT_NO_DEBUG z := by
  obtain ⟨old, hat⟩ := std_map.at_of_count_pos hst
  obtain ⟨y1, _, _, hres⟩ :=
    removeKeyframe_undo_redo_of_stored QT_NO_DEBUG pos old undo redo x hat
  rw [h] at hres
  simp only [Option.some.injEq, Prod.mk.injEq] at hres
  rw [hres.2.2.1, UPDATE_UNDO_REDO_redo_eq]
  exact andThen_assertsHoldFrom hc hr (deleteKeyframe_lambda_assertsHoldFrom QT_NO_DEBUG hst)

/-- The accumulators after the loop of `removeAllKeyframes` over the keys of an ordered
map violate no `Q_ASSERT` condition: the undo accumulator on the empty map, the redo
accumulator on the entries from which the passed one led to the original entries. -/
theorem removeAllKeyframes_loop_assertsHold (QT_NO_DEBUG : Bool)
    (m : List (GenTime × KeyframeType)) (local_undo local_redo undo1 redo1 : Fun GenTime)
    (x y : KeyframeModel GenTime) (z : List (GenTime × KeyframeType))
    (hx : x.m_keyframeList = m) (hord : std_map.Ordered m)
    (h : removeAllKeyframes_loop QT_NO_DEBUG (std_map.keys m) local_undo local_redo x =
      some (Sum.inr (undo1, redo1, y)))
    (hu : local_undo.assertsHoldFrom QT_NO_DEBUG m)
    (hr : local_redo.restores z m) (hc : local_redo.assertsHoldFrom QT_NO_DEBUG z) :
    undo1.assertsHoldFrom QT_NO_DEBUG y.m_keyframeList ∧
      redo1.assertsHoldFrom QT_NO_DEBUG z := by
  induction m generalizing local_undo local_redo x with
  | nil =>
    simp only [std_map.keys, List.map_nil, removeAllKeyframes_loop, Option.some.injEq,
      Sum.inr.injEq, Prod.mk.injEq] at h
    rw [← h.1, ← h.2.1, ← h.2.2, hx]
    exact ⟨hu, hc⟩
  | cons e rest ih =>
    obtain ⟨k, w⟩ := e
    have hxo : std_map.Ordered x.m_keyframeList := by rw [hx]; exact hord
    have hst : std_map.count x.m_keyframeList k > 0 := by
      rw [hx]; simp [std_map.count, std_map.«at»]
    have hat : std_map.«at» x.m_keyframeList k = some w := by
      rw [hx]; simp [std_map.«at»]
    obtain ⟨y1, _, hyl, hres⟩ :=
      removeKeyframe_undo_redo_of_stored QT_NO_DEBUG k w local_undo local_redo x hat
    have hy1 : y1.m_keyframeList = rest := by
      rw [hyl, hx]; simp [std_map.erase]
    simp only [std_map.keys, List.map_cons, removeAllKeyframes_loop, hres,
      not_true_eq_false, if_false] at h
    have hu1 := removeKeyframe_undo_redo_undo_assertsHold hxo hst hres (hx ▸ hu)
    have hr1 := removeKeyframe_undo_redo_redo_restores hst hres (hx ▸ hr)
    have hc1 := removeKeyframe_undo_redo_redo_assertsHold hst hres (hx ▸ hr) hc
    rw [hy1] at hu1 hr1
    exact ih _ _ y1 hy1 hord.tail h hu1 hr1 hc1

theorem observedThroughUndoRedo_intro {QT_NO_DEBUG : Bool} {st : DocUndoStack GenTime}
    {r : Option (Bool × KeyframeModel GenTime × DocUndoStack GenTime)}
    {self1 : KeyframeModel GenTime} {cmd : FunctionalUndoCommand GenTime}
    {m : List (GenTime × KeyframeType)}
    (hrun : r = some (true, self1, cmd :: st))
    (hord : std_map.Ordered self1.m_keyframeList)
    (hu : cmd.m_undo.restores self1.m_keyframeList m)
    (hua : cmd.m_undo.assertsHoldFrom QT_NO_DEBUG self1.m_keyframeList)
    (hr : cmd.m_redo.restores m self1.m_keyframeList)
    (hra : cmd.m_redo.assertsHoldFrom QT_NO_DEBUG m) :
    observedThroughUndoRedo QT_NO_DEBUG st r := by
  obtain ⟨self2, hundo, hl2⟩ := hu self1 rfl
  obtain ⟨self3, hredo, _⟩ := hr self2 hl2
  obtain ⟨hord2, hf2⟩ := (hua self1 rfl).leadsObserver self2 true hord hundo
  obtain ⟨_, hf3⟩ := (hra self2 hl2).leadsObserver self3 true hord2 hredo
  exact ⟨self1, cmd, hrun, self2, self3, hua self1 rfl, hundo, hf2, hra self2 hl2, hredo,
    hf3⟩

theorem addKeyframe_observedThroughUndoRedo (QT_NO_DEBUG : Bool) (pos : GenTime)
    (type : KeyframeType) (self : KeyframeModel GenTime) (st : DocUndoStack GenTime)
    (hord : std_map.Ordered self.m_keyframeList) :
    observedThroughUndoRedo QT_NO_DEBUG st
      (KeyframeModel.addKeyframe QT_NO_DEBUG pos type self st) := by
  obtain ⟨undo1, redo1, y, hres, hord1, hback⟩ := addKeyframe_undo_redo_restores QT_NO_DEBUG
    pos type Fun.true_lambda Fun.true_lambda self hord
  exact observedThroughUndoRedo_intro (addKeyframe_of_true st hres) hord1
    (hback _ (true_lambda_restores _))
    (addKeyframe_undo_redo_undo_assertsHold hord hres (true_lambda_assertsHoldFrom _ _))
    (addKeyframe_undo_redo_redo_restores hres (true_lambda_restores _))
    (addKeyframe_undo_redo_redo_assertsHold hres (true_lambda_restores _)
      (true_lambda_assertsHoldFrom _ _))

theorem removeKeyframe_observedThroughUndoRedo (QT_NO_DEBUG : Bool) (pos : GenTime)
    (self : KeyframeModel GenTime) (st : DocUndoStack GenTime)
    (hord : std_map.Ordered self.m_keyframeList)
    (hst : std_map.count self.m_keyframeList pos > 0) :
    observedThroughUndoRedo QT_NO_DEBUG st
      (KeyframeModel.removeKeyframe QT_NO_DEBUG pos self st) := by
  obtain ⟨undo1, redo1, y, hres, hyl, hback⟩ := removeKeyframe_undo_redo_restores
    QT_NO_DEBUG pos Fun.true_lambda Fun.true_lambda self hord hst
  exact observedThroughUndoRedo_intro (removeKeyframe_of_true st hres)
    (by rw [hyl]; exact hord.erase pos)
    (hback _ (true_lambda_restores _))
    (removeKeyframe_undo_redo_undo_assertsHold hord hst hres
      (true_lambda_assertsHoldFrom _ _))
    (removeKeyframe_undo_redo_redo_restores hst hres (true_lambda_restores _))
    (removeKeyframe_undo_redo_redo_assertsHold hst hres (true_lambda_restores _)
      (true_lambda_assertsHoldFrom _ _))

theorem moveKeyframe_observedThroughUndoRedo (QT_NO_DEBUG : Bool) (oldPos pos : GenTime)
    (self : KeyframeModel GenTime) (st : DocUndoStack GenTime)
    (hord : std_map.Ordered self.m_keyframeList)
    (hst : std_map.count self.m_keyframeList oldPos > 0) (hne : oldPos ≠ pos) :
    observedThroughUndoRedo QT_NO_DEBUG st
      (KeyframeModel.moveKeyframe QT_NO_DEBUG oldPos pos self st) := by
  obtain ⟨oldType, hat⟩ := std_map.at_of_count_pos hst
  obtain ⟨y1, undo2, redo2, y2, _, hyl1, hres2, hrun⟩ :=
    moveKeyframe_of_stored QT_NO_DEBUG oldPos pos oldType self st hat hne
  have hord1 : std_map.Ordered y1.m_keyframeList := by rw [hyl1]; exact hord.erase oldPos
  obtain ⟨undo3, redo3, y3, hres3, hord2, hback⟩ := addKeyframe_undo_redo_restores
    QT_NO_DEBUG pos oldType
    ((addKeyframe_lambda QT_NO_DEBUG oldPos oldType).andThen Fun.true_lambda)
    (UPDATE_UNDO_REDO (deleteKeyframe_lambda QT_NO_DEBUG oldPos)
      (addKeyframe_lambda QT_NO_DEBUG oldPos oldType) Fun.true_lambda Fun.true_lambda).2
    y1 hord1
  rw [hres2] at hres3
  simp only [Option.some.injEq, Prod.mk.injEq, true_and] at hres3
  obtain ⟨hu, _, hy⟩ := hres3
  subst hu hy
  have habs : std_map.count (std_map.erase self.m_keyframeList oldPos) oldPos = 0 := by
    rw [std_map.count_eq_zero_iff, ← std_map.at_eq_none_iff]
    exact std_map.at_erase_self hord oldPos
  have hu : undo2.restores y2.m_keyframeList self.m_keyframeList := by
    apply hback
    rw [hyl1]
    exact andThen_restores (addKeyframe_lambda_restores QT_NO_DEBUG hord hat)
      (true_lambda_restores _)
  have hua : undo2.assertsHoldFrom QT_NO_DEBUG y2.m_keyframeList := by
    apply addKeyframe_undo_redo_undo_assertsHold hord1 hres2
    rw [hyl1]
    exact andThen_assertsHoldFrom
      (addKeyframe_lambda_assertsHoldFrom QT_NO_DEBUG oldType habs)
      (addKeyframe_lambda_restores QT_NO_DEBUG hord hat) (true_lambda_assertsHoldFrom _ _)
  have hr1 : (UPDATE_UNDO_REDO (deleteKeyframe_lambda QT_NO_DEBUG oldPos)
      (addKeyframe_lambda QT_NO_DEBUG oldPos oldType) Fun.true_lambda Fun.true_lambda).2.restores
      self.m_keyframeList y1.m_keyframeList := by
    rw [hyl1]
    exact UPDATE_UNDO_REDO_redo_restores (true_lambda_restores _)
      (deleteKeyframe_lambda_forward QT_NO_DEBUG hst)
  have hr : redo2.restores self.m_keyframeList y2.m_keyframeList :=
    addKeyframe_undo_redo_redo_restores hres2 hr1
  have hra : redo2.assertsHoldFrom QT_NO_DEBUG self.m_keyframeList := by
    apply addKeyframe_undo_redo_redo_assertsHold hres2 hr1
    rw [UPDATE_UNDO_REDO_redo_eq]
    exact andThen_assertsHoldFrom (true_lambda_assertsHoldFrom _ _)
      (true_lambda_restores _) (deleteKeyframe_lambda_assertsHoldFrom QT_NO_DEBUG hst)
  exact observedThroughUndoRedo_intro hrun hord2 hu hua hr hra

theorem removeAllKeyframes_observedThroughUndoRedo (QT_NO_DEBUG : Bool)
    (self : KeyframeModel GenTime) (st : DocUndoStack GenTime)
    (hord : std_map.Ordered self.m_keyframeList) :
    observedThroughUndoRedo QT_NO_DEBUG st
      (KeyframeModel.removeAllKeyframes QT_NO_DEBUG self st) := by
  obtain ⟨self1, cmd, hrun, _, hl, hback⟩ :=
    removeAllKeyframes_of_ordered QT_NO_DEBUG self st hord
  obtain ⟨undo1, redo1, hloop, hst1⟩ := removeAllKeyframes_steps hrun
  have hcmd : cmd = ⟨undo1, redo1, "Delete all keyframes"⟩ := (List.cons.inj hst1).1
  obtain ⟨hua, hra⟩ := removeAllKeyframes_loop_assertsHold QT_NO_DEBUG self.m_keyframeList
    _ _ _ _ self self1 _ rfl hord hloop (true_lambda_assertsHoldFrom _ _)
    (true_lambda_restores _) (true_lambda_assertsHoldFrom _ _)
  have hr := removeAllKeyframes_loop_redo_restores QT_NO_DEBUG self.m_keyframeList _ _ _ _
    self self1 _ rfl hord hloop (true_lambda_restores _)
  refine observedThroughUndoRedo_intro hrun (by rw [hl]; exact List.Pairwise.nil)
    (by rw [hl]; exact hback) ?_ ?_ ?_
  · rw [hcmd]; exact hua
  · rw [hcmd]; exact hr
  · rw [hcmd]; exact hra

end Asserts

/-! ## The claims -/

section Claims

variable {GenTime : Type} [LinearOrder GenTime]

open KeyframeModel

/-- C1: for every store and every finite sequence of public `addKeyframe`,
`removeKeyframe` and `moveKeyframe` calls in which each remove and each move names a
position stored at the moment of the call, the sequence runs to its end, and invoking the
undo closures it pushed onto the undo stack, last pushed first, returns true and restores
exactly the original entries: same keys, same types, same ascending order. -/
theorem C1_round_trip (QT_NO_DEBUG : Bool) (calls : List (Call GenTime))
    (self : KeyframeModel GenTime) (st : DocUndoStack GenTime)
    (hord : std_map.Ordered self.m_keyframeList)
    (hv : callsNameStored QT_NO_DEBUG calls self st = true) :
    ∃ self1 pushed, runCalls QT_NO_DEBUG calls self st = some (self1, pushed ++ st) ∧
      ∃ self2, undoPushed pushed self1 = some (true, self2) ∧
        self2.m_keyframeList = self.m_keyframeList := by
  induction calls generalizing self st with
  | nil => exact ⟨self, [], rfl, self, rfl, rfl⟩
  | cons c cs ih =>
    simp only [callsNameStored, Bool.and_eq_true, decide_eq_true_eq] at hv
    obtain ⟨hc, hrest⟩ := hv
    obtain ⟨y, new, hrun, hyo, hback⟩ := Call.run_restores QT_NO_DEBUG c self st hord hc
    simp only [hrun] at hrest
    obtain ⟨self1, pushed, hcs, self2, hundo, hl⟩ := ih y (new ++ st) hyo hrest
    obtain ⟨self3, hundo3, hl3⟩ := hback self2 hl
    refine ⟨self1, pushed ++ new, ?_, self3, undoPushed_append hundo hundo3, hl3⟩
    simp only [runCalls, hrun, hcs, List.append_assoc]

/-- Witness of C1: a sequence of adds, a retype, moves and a remove on a store of two
keyframes. -/
theorem C1_round_trip_witness :
    std_map.Ordered [((1 : Int), KeyframeType.Linear), (4, KeyframeType.Smooth)] ∧
    ∃ self1 pushed, runCalls false
        [Call.addKeyframe 2 KeyframeType.Discrete, Call.addKeyframe 4 KeyframeType.Linear,
          Call.moveKeyframe 1 3, Call.moveKeyframe 2 4, Call.removeKeyframe 3,
          Call.addKeyframe 4 KeyframeType.Discrete]
        ⟨[((1 : Int), KeyframeType.Linear), (4, KeyframeType.Smooth)], []⟩ [] =
          some (self1, pushed ++ []) ∧
      ∃ self2, undoPushed pushed self1 = some (true, self2) ∧
        self2.m_keyframeList = [((1 : Int), KeyframeType.Linear), (4, KeyframeType.Smooth)] :=
  ⟨by decide, C1_round_trip false _ ⟨_, []⟩ [] (by decide) (by decide)⟩

/-- C2: in every state reachable through the public operations, for every row `row` with
`0 <= row < rowCount()`, `data(row, PosRole)` and `data(row, TypeRole)` return the
position and the type of a stored key that has exactly `row` stored keys strictly less
than it, that key is the only stored key with this property, and the position at row
`row + 1`, when that row exists, is strictly greater. -/
theorem C2_row_correctness (QT_NO_DEBUG : Bool) (self : KeyframeModel GenTime)
    (st : DocUndoStack GenTime) (hreach : Reachable QT_NO_DEBUG self st)
    (getCurrentFps_frames : GenTime → Int) (row : Int) (h0 : 0 ≤ row)
    (h1 : row < rowCount self ⟨-1, false⟩) :
    ∃ pos type,
      data getCurrentFps_frames self ⟨row, true⟩ PosRole = QVariant.seconds pos ∧
      data getCurrentFps_frames self ⟨row, true⟩ TypeRole = QVariant.keyframeType type ∧
      std_map.«at» self.m_keyframeList pos = some type ∧
      (std_map.rank self.m_keyframeList pos : Int) = row ∧
      (∀ other, std_map.count self.m_keyframeList other > 0 →
        (std_map.rank self.m_keyframeList other : Int) = row → other = pos) ∧
      (row + 1 < rowCount self ⟨-1, false⟩ →
        ∃ next, data getCurrentFps_frames self ⟨row + 1, true⟩ PosRole =
          QVariant.seconds next ∧ pos < next) := by
  have hord := hreach.invariant.1
  obtain ⟨r, rfl⟩ := Int.eq_ofNat_of_zero_le h0
  simp only [rowCount, Bool.false_eq_true, if_false, std_map.size] at h1 ⊢
  have hr : r < self.m_keyframeList.length := by omega
  obtain ⟨e, he⟩ : ∃ e, self.m_keyframeList.get? r = some e :=
    ⟨_, List.get?_eq_get hr⟩
  obtain ⟨hrank, hat⟩ := std_map.rank_of_get? hord he
  obtain ⟨hpos, htype⟩ := data_of_get? getCurrentFps_frames self he
  refine ⟨e.1, e.2, hpos, htype, hat, by rw [hrank], ?_, ?_⟩
  · intro other hst hro
    obtain ⟨r2, e2, he2, hk2⟩ :=
      std_map.get?_of_mem_keys ((std_map.count_pos_iff _ _).mp hst)
    have hrank2 := (std_map.rank_of_get? hord he2).1
    rw [hk2] at hrank2
    have : r2 = r := by omega
    subst this
    rw [he] at he2
    rw [← hk2, ← Option.some.inj he2]
  · intro hnext
    have hr1 : r + 1 < self.m_keyframeList.length := by omega
    obtain ⟨e1, he1⟩ : ∃ e1, self.m_keyframeList.get? (r + 1) = some e1 :=
      ⟨_, List.get?_eq_get hr1⟩
    refine ⟨e1.1, ?_, std_map.lt_of_get?_succ hord he he1⟩
    have := (data_of_get? getCurrentFps_frames self he1).1
    simpa using this

/-- Witness of C2: row 0 of the model reached by adding the positions 3 and 1 to the
empty model. -/
theorem C2_row_correctness_witness :
    ∃ (self : KeyframeModel Int) (st : DocUndoStack Int),
      self.m_keyframeList = [(1, KeyframeType.Linear), (3, KeyframeType.Smooth)] ∧
      Reachable false self st ∧
      ∃ pos type,
        data (fun p => p) self ⟨0, true⟩ PosRole = QVariant.seconds pos ∧
        data (fun p => p) self ⟨0, true⟩ TypeRole = QVariant.keyframeType type ∧
        std_map.«at» self.m_keyframeList pos = some type ∧
        (std_map.rank self.m_keyframeList pos : Int) = 0 ∧
        (∀ other, std_map.count self.m_keyframeList other > 0 →
          (std_map.rank self.m_keyframeList other : Int) = 0 → other = pos) ∧
        ((0 : Int) + 1 < rowCount self ⟨-1, false⟩ →
          ∃ next, data (fun p => p) self ⟨0 + 1, true⟩ PosRole =
            QVariant.seconds next ∧ pos < next) :=
  have hreach : Reachable false
      (⟨[(1, KeyframeType.Linear), (3, KeyframeType.Smooth)], _⟩ : KeyframeModel Int) _ :=
    Reachable.addKeyframe 1 KeyframeType.Linear
      (Reachable.addKeyframe 3 KeyframeType.Smooth Reachable.init rfl) rfl
  ⟨_, _, rfl, hreach,
    C2_row_correctness false _ _ hreach (fun p => p) 0 (by decide) (by decide)⟩

/-- C3: for every store, every position `pos` that is not stored and every type,
`addKeyframe(pos, type)` returns true and the resulting store is the original one plus
the entry `(pos, type)`: `rowCount()` grows by exactly one, `pos` maps to `type`, every
other position is stored or absent as before with the type it had, and the entries stay
ordered. -/
theorem C3_addKeyframe_new (QT_NO_DEBUG : Bool) (pos : GenTime) (type : KeyframeType)
    (self : KeyframeModel GenTime) (st : DocUndoStack GenTime)
    (habs : std_map.count self.m_keyframeList pos = 0) :
    ∃ self1 st1, addKeyframe QT_NO_DEBUG pos type self st = some (true, self1, st1) ∧
      rowCount self1 ⟨-1, false⟩ = rowCount self ⟨-1, false⟩ + 1 ∧
      std_map.«at» self1.m_keyframeList pos = some type ∧
      (∀ p, p ≠ pos →
        std_map.«at» self1.m_keyframeList p = std_map.«at» self.m_keyframeList p) ∧
      (std_map.Ordered self.m_keyframeList → std_map.Ordered self1.m_keyframeList) := by
  obtain ⟨y, _, hyl, hres⟩ := addKeyframe_undo_redo_of_absent QT_NO_DEBUG pos type
    Fun.true_lambda Fun.true_lambda self habs
  refine ⟨y, _, addKeyframe_of_true st hres, ?_, ?_, ?_, ?_⟩
  · simp only [rowCount, Bool.false_eq_true, if_false, hyl,
      std_map.size_assign_of_absent ((std_map.count_eq_zero_iff _ _).mp habs)]
    push_cast
    rfl
  · rw [hyl]; exact std_map.at_assign_self _ _ _
  · intro p hp
    rw [hyl]; exact std_map.at_assign_of_ne _ _ _ hp
  · intro hord
    rw [hyl]; exact hord.assign pos type

/-- Witness of C3: adding the position 2 between the stored positions 1 and 4. -/
theorem C3_addKeyframe_new_witness :
    std_map.count [((1 : Int), KeyframeType.Linear), (4, KeyframeType.Smooth)] 2 = 0 ∧
    ∃ self1 st1, addKeyframe false (2 : Int) KeyframeType.Discrete
        ⟨[(1, KeyframeType.Linear), (4, KeyframeType.Smooth)], []⟩ [] =
          some (true, self1, st1) ∧
      rowCount self1 ⟨-1, false⟩ =
        rowCount (⟨[(1, KeyframeType.Linear), (4, KeyframeType.Smooth)], []⟩ :
          KeyframeModel Int) ⟨-1, false⟩ + 1 ∧
      std_map.«at» self1.m_keyframeList 2 = some KeyframeType.Discrete ∧
      (∀ p, p ≠ 2 → std_map.«at» self1.m_keyframeList p =
        std_map.«at» [((1 : Int), KeyframeType.Linear), (4, KeyframeType.Smooth)] p) ∧
      (std_map.Ordered [((1 : Int), KeyframeType.Linear), (4, KeyframeType.Smooth)] →
        std_map.Ordered self1.m_keyframeList) :=
  ⟨by decide, C3_addKeyframe_new false 2 KeyframeType.Discrete ⟨_, []⟩ [] (by decide)⟩

/-- C4: for every store and every position `pos` that is not stored, the undo closure
pushed by `addKeyframe(pos, type)`, invoked directly after the add, returns true and
restores exactly the entries stored before the add, hence the former `rowCount()`, which
is 0 for the empty store. -/
theorem C4_addKeyframe_undo (QT_NO_DEBUG : Bool) (pos : GenTime) (type : KeyframeType)
    (self : KeyframeModel GenTime) (st : DocUndoStack GenTime)
    (habs : std_map.count self.m_keyframeList pos = 0) :
    ∃ self1 cmd, addKeyframe QT_NO_DEBUG pos type self st = some (true, self1, cmd :: st) ∧
      ∃ self2, cmd.m_undo self1 = some (true, self2) ∧
        self2.m_keyframeList = self.m_keyframeList ∧
        rowCount self2 ⟨-1, false⟩ = rowCount self ⟨-1, false⟩ ∧
        (self.m_keyframeList = [] → rowCount self2 ⟨-1, false⟩ = 0) := by
  obtain ⟨y, _, hyl, hres⟩ := addKeyframe_undo_redo_of_absent QT_NO_DEBUG pos type
    Fun.true_lambda Fun.true_lambda self habs
  have hback := UPDATE_UNDO_REDO_undo_restores
    (addKeyframe_lambda QT_NO_DEBUG pos type) Fun.true_lambda
    (deleteKeyframe_lambda_restores QT_NO_DEBUG type habs)
    (true_lambda_restores self.m_keyframeList)
  obtain ⟨self2, hundo, hl⟩ := hback y hyl
  refine ⟨y, _, addKeyframe_of_true st hres, self2, hundo, hl, ?_, ?_⟩
  · simp only [rowCount, hl]
  · intro hempty
    simp [rowCount, hl, hempty, std_map.size]

/-- Witness of C4: add then undo on the empty store. -/
theorem C4_addKeyframe_undo_witness :
    std_map.count ([] : List (Int × KeyframeType)) 1 = 0 ∧
    ∃ self1 cmd, addKeyframe false (1 : Int) KeyframeType.Linear ⟨[], []⟩ [] =
        some (true, self1, cmd :: []) ∧
      ∃ self2, cmd.m_undo self1 = some (true, self2) ∧
        self2.m_keyframeList = [] ∧
        rowCount self2 ⟨-1, false⟩ = rowCount (⟨[], []⟩ : KeyframeModel Int) ⟨-1, false⟩ ∧
        (([] : List (Int × KeyframeType)) = [] → rowCount self2 ⟨-1, false⟩ = 0) :=
  ⟨by decide, C4_addKeyframe_undo false 1 KeyframeType.Linear ⟨[], []⟩ [] (by decide)⟩

/-- C5: for every store in which `pos` is stored with type `t1`, and every type `t2`
different from `t1`, `addKeyframe(pos, t2)` returns true, leaves the keys and
`rowCount()` unchanged, makes `pos` map to `t2` and leaves the type of every other key
unchanged. -/
theorem C5_addKeyframe_retype (QT_NO_DEBUG : Bool) (pos : GenTime) (t1 t2 : KeyframeType)
    (self : KeyframeModel GenTime) (st : DocUndoStack GenTime)
    (hord : std_map.Ordered self.m_keyframeList)
    (hat : std_map.«at» self.m_keyframeList pos = some t1) (hne : t2 ≠ t1) :
    ∃ self1 st1, addKeyframe QT_NO_DEBUG pos t2 self st = some (true, self1, st1) ∧
      std_map.keys self1.m_keyframeList = std_map.keys self.m_keyframeList ∧
      rowCount self1 ⟨-1, false⟩ = rowCount self ⟨-1, false⟩ ∧
      std_map.«at» self1.m_keyframeList pos = some t2 ∧
      (∀ p, p ≠ pos →
        std_map.«at» self1.m_keyframeList p = std_map.«at» self.m_keyframeList p) := by
  obtain ⟨y, _, hyl, hres⟩ := addKeyframe_undo_redo_of_other QT_NO_DEBUG pos t2 t1
    Fun.true_lambda Fun.true_lambda self hat hne
  have hkeys := std_map.keys_assign_of_at hord hat t2
  refine ⟨y, _, addKeyframe_of_true st hres, ?_, ?_, ?_, ?_⟩
  · rw [hyl]; exact hkeys
  · have hlen := congrArg List.length hkeys
    simp only [std_map.keys, List.length_map] at hlen
    simp only [rowCount, Bool.false_eq_true, if_false, hyl, std_map.size, hlen]
  · rw [hyl]; exact std_map.at_assign_self _ _ _
  · intro p hp
    rw [hyl]; exact std_map.at_assign_of_ne _ _ _ hp

/-- Witness of C5: retyping the stored position 4 from Smooth to Discrete. -/
theorem C5_addKeyframe_retype_witness :
    std_map.Ordered [((1 : Int), KeyframeType.Linear), (4, KeyframeType.Smooth)] ∧
    std_map.«at» [((1 : Int), KeyframeType.Linear), (4, KeyframeType.Smooth)] 4 =
      some KeyframeType.Smooth ∧
    KeyframeType.Discrete ≠ KeyframeType.Smooth ∧
    ∃ self1 st1, addKeyframe false (4 : Int) KeyframeType.Discrete
        ⟨[(1, KeyframeType.Linear), (4, KeyframeType.Smooth)], []⟩ [] =
          some (true, self1, st1) ∧
      std_map.keys self1.m_keyframeList =
        std_map.keys [((1 : Int), KeyframeType.Linear), (4, KeyframeType.Smooth)] ∧
      rowCount self1 ⟨-1, false⟩ =
        rowCount (⟨[(1, KeyframeType.Linear), (4, KeyframeType.Smooth)], []⟩ :
          KeyframeModel Int) ⟨-1, false⟩ ∧
      std_map.«at» self1.m_keyframeList 4 = some KeyframeType.Discrete ∧
      (∀ p, p ≠ 4 → std_map.«at» self1.m_keyframeList p =
        std_map.«at» [((1 : Int), KeyframeType.Linear), (4, KeyframeType.Smooth)] p) :=
  ⟨by decide, by decide, by decide,
    C5_addKeyframe_retype false 4 KeyframeType.Smooth KeyframeType.Discrete ⟨_, []⟩ []
      (by decide) (by decide) (by decide)⟩

/-- C6: for every store in which `pos` is stored with type `t1`, and every type `t2`
different from `t1`, the undo closure pushed by `addKeyframe(pos, t2)`, invoked directly
afterwards, returns true and sets `pos` back to `t1` without changing the keys, so that
the entries are those stored before the call; and after `addKeyframe(p, Linear)` then
`addKeyframe(p, Discrete)` on an empty store, the first undo leaves the single entry
`(p, Linear)` and the second undo leaves the store empty. -/
theorem C6_retype_undo (QT_NO_DEBUG : Bool) (pos p : GenTime) (t1 t2 : KeyframeType)
    (self : KeyframeModel GenTime) (st : DocUndoStack GenTime)
    (hord : std_map.Ordered self.m_keyframeList)
    (hat : std_map.«at» self.m_keyframeList pos = some t1) (hne : t2 ≠ t1) :
    (∃ self1 cmd, addKeyframe QT_NO_DEBUG pos t2 self st = some (true, self1, cmd :: st) ∧
      ∃ self2, cmd.m_undo self1 = some (true, self2) ∧
        std_map.«at» self2.m_keyframeList pos = some t1 ∧
        std_map.keys self2.m_keyframeList = std_map.keys self1.m_keyframeList ∧
        self2.m_keyframeList = self.m_keyframeList) ∧
    (∃ s1 c1 s2 c2 u1 u2,
      addKeyframe QT_NO_DEBUG p KeyframeType.Linear ⟨[], []⟩ st = some (true, s1, c1 :: st) ∧
      addKeyframe QT_NO_DEBUG p KeyframeType.Discrete s1 (c1 :: st) =
        some (true, s2, c2 :: c1 :: st) ∧
      c2.m_undo s2 = some (true, u1) ∧ u1.m_keyframeList = [(p, KeyframeType.Linear)] ∧
      c1.m_undo u1 = some (true, u2) ∧ u2.m_keyframeList = []) := by
  constructor
  · obtain ⟨self1, cmd, hrun, hl1, hback⟩ :=
      addKeyframe_other_undo QT_NO_DEBUG pos t1 t2 self st hord hat hne
    obtain ⟨self2, hundo, hl2⟩ := hback self1 rfl
    refine ⟨self1, cmd, hrun, self2, hundo, by rw [hl2]; exact hat, ?_, hl2⟩
    rw [hl2, hl1, std_map.keys_assign_of_at hord hat t2]
  · obtain ⟨s1, c1, hrun1, hl1, hback1⟩ :=
      addKeyframe_absent_undo QT_NO_DEBUG p KeyframeType.Linear ⟨[], []⟩ st
        (by simp [std_map.count, std_map.«at»])
    have hs1 : s1.m_keyframeList = [(p, KeyframeType.Linear)] := by
      rw [hl1]; simp [std_map.assign]
    obtain ⟨s2, c2, hrun2, _, hback2⟩ :=
      addKeyframe_other_undo QT_NO_DEBUG p KeyframeType.Linear KeyframeType.Discrete s1
        (c1 :: st) (by rw [hs1]; simp [std_map.Ordered, std_map.keys])
        (by rw [hs1]; simp [std_map.«at»]) (by decide)
    obtain ⟨u1, hu1, hul1⟩ := hback2 s2 rfl
    obtain ⟨u2, hu2, hul2⟩ := hback1 u1 hul1
    exact ⟨s1, c1, s2, c2, u1, u2, hrun1, hrun2, hu1, by rw [hul1, hs1], hu2, hul2⟩

/-- Witness of C6: retyping the stored position 4 from Smooth to Discrete and undoing
it. -/
theorem C6_retype_undo_witness :
    std_map.Ordered [((1 : Int), KeyframeType.Linear), (4, KeyframeType.Smooth)] ∧
    std_map.«at» [((1 : Int), KeyframeType.Linear), (4, KeyframeType.Smooth)] 4 =
      some KeyframeType.Smooth ∧
    KeyframeType.Discrete ≠ KeyframeType.Smooth ∧
    (∃ self1 cmd, addKeyframe false (4 : Int) KeyframeType.Discrete
        ⟨[(1, KeyframeType.Linear), (4, KeyframeType.Smooth)], []⟩ [] =
          some (true, self1, cmd :: []) ∧
      ∃ self2, cmd.m_undo self1 = some (true, self2) ∧
        std_map.«at» self2.m_keyframeList 4 = some KeyframeType.Smooth ∧
        std_map.keys self2.m_keyframeList = std_map.keys self1.m_keyframeList ∧
        self2.m_keyframeList = [(1, KeyframeType.Linear), (4, KeyframeType.Smooth)]) ∧
    (∃ s1 c1 s2 c2 u1 u2,
      addKeyframe false (7 : Int) KeyframeType.Linear ⟨[], []⟩ [] = some (true, s1, c1 :: []) ∧
      addKeyframe false (7 : Int) KeyframeType.Discrete s1 (c1 :: []) =
        some (true, s2, c2 :: c1 :: []) ∧
      c2.m_undo s2 = some (true, u1) ∧ u1.m_keyframeList = [(7, KeyframeType.Linear)] ∧
      c1.m_undo u1 = some (true, u2) ∧ u2.m_keyframeList = []) :=
  ⟨by decide, by decide, by decide,
    C6_retype_undo false 4 7 KeyframeType.Smooth KeyframeType.Discrete ⟨_, []⟩ []
      (by decide) (by decide) (by decide)⟩

/-- C7 (the code at the failing input): on the store holding position 1 with type Linear,
`addKeyframe(1, Linear)` returns true and changes neither the entries nor the emitted
signals, but it pushes an entry "Change keyframe type" onto the undo stack, made of the
two closures `[]() { return true; }`; this with `Q_ASSERT` enabled and compiled out. -/
theorem C7_addKeyframe_same_type_pushes_entry :
    addKeyframe false (1 : Int) KeyframeType.Linear ⟨[(1, KeyframeType.Linear)], []⟩ [] =
      some (true, ⟨[(1, KeyframeType.Linear)], []⟩,
        [⟨Fun.true_lambda, Fun.true_lambda, "Change keyframe type"⟩]) ∧
    addKeyframe true (1 : Int) KeyframeType.Linear ⟨[(1, KeyframeType.Linear)], []⟩ [] =
      some (true, ⟨[(1, KeyframeType.Linear)], []⟩,
        [⟨Fun.true_lambda, Fun.true_lambda, "Change keyframe type"⟩]) :=
  ⟨addKeyframe_of_same false 1 KeyframeType.Linear ⟨_, []⟩ [] (by decide),
    addKeyframe_of_same true 1 KeyframeType.Linear ⟨_, []⟩ [] (by decide)⟩

/-- C8: for every store in which `pos` is stored, `removeKeyframe(pos)` returns true and
the resulting store is the original one without the entry of `pos`: `rowCount()` shrinks
by exactly one, `pos` is not stored any more, every other position is stored or absent as
before with the type it had, and the entries stay ordered. -/
theorem C8_removeKeyframe_stored (QT_NO_DEBUG : Bool) (pos : GenTime)
    (self : KeyframeModel GenTime) (st : DocUndoStack GenTime)
    (hord : std_map.Ordered self.m_keyframeList)
    (hst : std_map.count self.m_keyframeList pos > 0) :
    ∃ self1 st1, removeKeyframe QT_NO_DEBUG pos self st = some (true, self1, st1) ∧
      rowCount self1 ⟨-1, false⟩ = rowCount self ⟨-1, false⟩ - 1 ∧
      std_map.count self1.m_keyframeList pos = 0 ∧
      (∀ p, p ≠ pos →
        std_map.«at» self1.m_keyframeList p = std_map.«at» self.m_keyframeList p) ∧
      std_map.Ordered self1.m_keyframeList := by
  obtain ⟨self1, cmd, hrun, hl1, _⟩ :=
    removeKeyframe_stored_undo QT_NO_DEBUG pos self st hord hst
  obtain ⟨t, hat⟩ := std_map.at_of_count_pos hst
  refine ⟨self1, _, hrun, ?_, ?_, ?_, ?_⟩
  · have hsz := std_map.size_erase_of_at hat
    simp only [rowCount, Bool.false_eq_true, if_false, hl1]
    omega
  · rw [hl1]
    simp [std_map.count, std_map.at_erase_self hord pos]
  · intro p hp
    rw [hl1]; exact std_map.at_erase_of_ne _ _ hp
  · rw [hl1]; exact hord.erase pos

/-- Witness of C8: removing the stored position 4. -/
theorem C8_removeKeyframe_stored_witness :
    std_map.Ordered [((1 : Int), KeyframeType.Linear), (4, KeyframeType.Smooth)] ∧
    std_map.count [((1 : Int), KeyframeType.Linear), (4, KeyframeType.Smooth)] 4 > 0 ∧
    ∃ self1 st1, removeKeyframe false (4 : Int)
        ⟨[(1, KeyframeType.Linear), (4, KeyframeType.Smooth)], []⟩ [] =
          some (true, self1, st1) ∧
      rowCount self1 ⟨-1, false⟩ =
        rowCount (⟨[(1, KeyframeType.Linear), (4, KeyframeType.Smooth)], []⟩ :
          KeyframeModel Int) ⟨-1, false⟩ - 1 ∧
      std_map.count self1.m_keyframeList 4 = 0 ∧
      (∀ p, p ≠ 4 → std_map.«at» self1.m_keyframeList p =
        std_map.«at» [((1 : Int), KeyframeType.Linear), (4, KeyframeType.Smooth)] p) ∧
      std_map.Ordered self1.m_keyframeList :=
  ⟨by decide, by decide, C8_removeKeyframe_stored false 4 ⟨_, []⟩ [] (by decide) (by decide)⟩

/-- C9: for every store in which `pos` is stored with type `t`, the undo closure pushed by
`removeKeyframe(pos)`, invoked directly afterwards, returns true, stores `pos` again with
the captured type `t` and restores exactly the entries stored before the removal. -/
theorem C9_removeKeyframe_undo (QT_NO_DEBUG : Bool) (pos : GenTime) (t : KeyframeType)
    (self : KeyframeModel GenTime) (st : DocUndoStack GenTime)
    (hord : std_map.Ordered self.m_keyframeList)
    (hat : std_map.«at» self.m_keyframeList pos = some t) :
    ∃ self1 cmd, removeKeyframe QT_NO_DEBUG pos self st = some (true, self1, cmd :: st) ∧
      ∃ self2, cmd.m_undo self1 = some (true, self2) ∧
        std_map.«at» self2.m_keyframeList pos = some t ∧
        self2.m_keyframeList = self.m_keyframeList := by
  obtain ⟨self1, cmd, hrun, _, hback⟩ :=
    removeKeyframe_stored_undo QT_NO_DEBUG pos self st hord (std_map.count_pos_of_at hat)
  obtain ⟨self2, hundo, hl2⟩ := hback self1 rfl
  exact ⟨self1, cmd, hrun, self2, hundo, by rw [hl2]; exact hat, hl2⟩

/-- Witness of C9: removing the stored position 1 of three and undoing it. -/
theorem C9_removeKeyframe_undo_witness :
    std_map.Ordered [((1 : Int), KeyframeType.Discrete), (4, KeyframeType.Smooth),
      (6, KeyframeType.Linear)] ∧
    std_map.«at» [((1 : Int), KeyframeType.Discrete), (4, KeyframeType.Smooth),
      (6, KeyframeType.Linear)] 1 = some KeyframeType.Discrete ∧
    ∃ self1 cmd, removeKeyframe false (1 : Int)
        ⟨[(1, KeyframeType.Discrete), (4, KeyframeType.Smooth), (6, KeyframeType.Linear)],
          []⟩ [] = some (true, self1, cmd :: []) ∧
      ∃ self2, cmd.m_undo self1 = some (true, self2) ∧
        std_map.«at» self2.m_keyframeList 1 = some KeyframeType.Discrete ∧
        self2.m_keyframeList =
          [(1, KeyframeType.Discrete), (4, KeyframeType.Smooth), (6, KeyframeType.Linear)] :=
  ⟨by decide, by decide,
    C9_removeKeyframe_undo false 1 KeyframeType.Discrete ⟨_, []⟩ [] (by decide) (by decide)⟩

/-- C10 (as stated, refuted): on the store holding only position 1, `removeKeyframe(5)`
does not report failure in any build: with `Q_ASSERT` enabled the call aborts, with
`Q_ASSERT` compiled out it returns true. -/
theorem C10_reports_failure_counterexample :
    (¬ ∃ QT_NO_DEBUG self1 st1, removeKeyframe QT_NO_DEBUG (5 : Int)
        ⟨[(1, KeyframeType.Linear)], []⟩ [] = some (false, self1, st1)) ∧
    removeKeyframe false (5 : Int) ⟨[(1, KeyframeType.Linear)], []⟩ [] = none ∧
    ∃ self1 st1, removeKeyframe true (5 : Int) ⟨[(1, KeyframeType.Linear)], []⟩ [] =
      some (true, self1, st1) := by
  obtain ⟨hdebug, self1, st1, hrelease, _⟩ :=
    removeKeyframe_of_absent (5 : Int) ⟨[(1, KeyframeType.Linear)], []⟩ [] (by decide)
  refine ⟨?_, hdebug, self1, st1, hrelease⟩
  rintro ⟨QT_NO_DEBUG, y, st2, h⟩
  cases QT_NO_DEBUG with
  | false => rw [hdebug] at h; exact Option.noConfusion h
  | true =>
    rw [hrelease] at h
    simp at h

/-- C10 (amended): for every store and every position `pos` that is not stored,
`removeKeyframe(pos)` does not report failure: with `Q_ASSERT` enabled the assertion
`Q_ASSERT(m_keyframeList.count(pos) > 0)` aborts the call, and with `Q_ASSERT` compiled
out the call returns true and leaves the stored entries unchanged. -/
theorem C10_removeKeyframe_absent (pos : GenTime)
    (self : KeyframeModel GenTime) (st : DocUndoStack GenTime)
    (habs : std_map.count self.m_keyframeList pos = 0) :
    removeKeyframe false pos self st = none ∧
    ∃ self1 st1, removeKeyframe true pos self st = some (true, self1, st1) ∧
      self1.m_keyframeList = self.m_keyframeList :=
  removeKeyframe_of_absent pos self st habs

/-- Witness of C10 (amended): `removeKeyframe(5)` on the store holding positions 1
and 7. -/
theorem C10_removeKeyframe_absent_witness :
    std_map.count [((1 : Int), KeyframeType.Linear), (7, KeyframeType.Smooth)] 5 = 0 ∧
    removeKeyframe false (5 : Int)
      ⟨[(1, KeyframeType.Linear), (7, KeyframeType.Smooth)], []⟩ [] = none ∧
    ∃ self1 st1, removeKeyframe true (5 : Int)
        ⟨[(1, KeyframeType.Linear), (7, KeyframeType.Smooth)], []⟩ [] =
          some (true, self1, st1) ∧
      self1.m_keyframeList = [(1, KeyframeType.Linear), (7, KeyframeType.Smooth)] :=
  ⟨by decide, C10_removeKeyframe_absent 5 ⟨_, []⟩ [] (by decide)⟩

/-- C11: for every store in which `a` is stored with type `t`, and every position `b`
different from `a` that is not stored, `moveKeyframe(a, b)` returns true and pushes
exactly one entry, described "Move keyframe"; in the resulting store `a` is not stored,
`b` is stored with type `t`, every other position is stored or absent as before with the
type it had, `rowCount()` is unchanged and the entries stay ordered. -/
theorem C11_moveKeyframe_to_free (QT_NO_DEBUG : Bool) (a b : GenTime) (t : KeyframeType)
    (self : KeyframeModel GenTime) (st : DocUndoStack GenTime)
    (hord : std_map.Ordered self.m_keyframeList)
    (hat : std_map.«at» self.m_keyframeList a = some t) (hne : b ≠ a)
    (hfree : std_map.count self.m_keyframeList b = 0) :
    ∃ self1 cmd, moveKeyframe QT_NO_DEBUG a b self st = some (true, self1, cmd :: st) ∧
      cmd.text = "Move keyframe" ∧
      rowCount self1 ⟨-1, false⟩ = rowCount self ⟨-1, false⟩ ∧
      std_map.count self1.m_keyframeList a = 0 ∧
      std_map.«at» self1.m_keyframeList b = some t ∧
      (∀ p, p ≠ a → p ≠ b →
        std_map.«at» self1.m_keyframeList p = std_map.«at» self.m_keyframeList p) ∧
      std_map.Ordered self1.m_keyframeList := by
  obtain ⟨y1, undo2, redo2, y2, _, hyl1, hres2, hrun⟩ :=
    moveKeyframe_of_stored QT_NO_DEBUG a b t self st hat (Ne.symm hne)
  have hb1 : std_map.«at» y1.m_keyframeList b = none := by
    rw [hyl1, std_map.at_erase_of_ne _ _ hne, std_map.at_eq_none_iff,
      ← std_map.count_eq_zero_iff]
    exact hfree
  have hfree1 : std_map.count y1.m_keyframeList b = 0 := by simp [std_map.count, hb1]
  obtain ⟨y, _, hyl, hres⟩ := addKeyframe_undo_redo_of_absent QT_NO_DEBUG b t
    ((addKeyframe_lambda QT_NO_DEBUG a t).andThen Fun.true_lambda)
    (UPDATE_UNDO_REDO (deleteKeyframe_lambda QT_NO_DEBUG a)
      (addKeyframe_lambda QT_NO_DEBUG a t) Fun.true_lambda Fun.true_lambda).2 y1 hfree1
  rw [hres2] at hres
  simp only [Option.some.injEq, Prod.mk.injEq, true_and] at hres
  have hy : y2 = y := hres.2.2
  subst hy
  have hl2 : y2.m_keyframeList =
      std_map.assign (std_map.erase self.m_keyframeList a) b t := by rw [hyl, hyl1]
  refine ⟨y2, _, hrun, rfl, ?_, ?_, ?_, ?_, ?_⟩
  · have h1 := std_map.size_erase_of_at hat
    have h2 := std_map.size_assign_of_absent
      ((std_map.count_eq_zero_iff _ _).mp (hyl1 ▸ hfree1)) t
    simp only [rowCount, Bool.false_eq_true, if_false, hl2]
    omega
  · rw [hl2]
    simp [std_map.count, std_map.at_assign_of_ne _ _ _ (Ne.symm hne),
      std_map.at_erase_self hord a]
  · rw [hl2]; exact std_map.at_assign_self _ _ _
  · intro p hpa hpb
    rw [hl2, std_map.at_assign_of_ne _ _ _ hpb, std_map.at_erase_of_ne _ _ hpa]
  · rw [hl2]; exact (hord.erase a).assign b t

/-- Witness of C11: the scenario of the spec, moving position 1 to the free position 3
next to the stored position 2. -/
theorem C11_moveKeyframe_to_free_witness :
    std_map.Ordered [((1 : Int), KeyframeType.Linear), (2, KeyframeType.Linear)] ∧
    std_map.«at» [((1 : Int), KeyframeType.Linear), (2, KeyframeType.Linear)] 1 =
      some KeyframeType.Linear ∧
    (3 : Int) ≠ 1 ∧
    std_map.count [((1 : Int), KeyframeType.Linear), (2, KeyframeType.Linear)] 3 = 0 ∧
    ∃ self1 cmd, moveKeyframe false (1 : Int) 3
        ⟨[(1, KeyframeType.Linear), (2, KeyframeType.Linear)], []⟩ [] =
          some (true, self1, cmd :: []) ∧
      cmd.text = "Move keyframe" ∧
      rowCount self1 ⟨-1, false⟩ =
        rowCount (⟨[(1, KeyframeType.Linear), (2, KeyframeType.Linear)], []⟩ :
          KeyframeModel Int) ⟨-1, false⟩ ∧
      std_map.count self1.m_keyframeList 1 = 0 ∧
      std_map.«at» self1.m_keyframeList 3 = some KeyframeType.Linear ∧
      (∀ p, p ≠ 1 → p ≠ 3 → std_map.«at» self1.m_keyframeList p =
        std_map.«at» [((1 : Int), KeyframeType.Linear), (2, KeyframeType.Linear)] p) ∧
      std_map.Ordered self1.m_keyframeList :=
  ⟨by decide, by decide, by decide, by decide,
    C11_moveKeyframe_to_free false 1 3 KeyframeType.Linear ⟨_, []⟩ []
      (by decide) (by decide) (by decide) (by decide)⟩

/-- C12: for every store in which `a` is stored with type `t`, and every position `b` for
which `moveKeyframe(a, b)` returns true: when `b` differs from `a` the move pushed a
single entry, whose undo closure, invoked directly afterwards, returns true and restores
exactly the entries stored before the move; that closure runs the inverse of the add step
(leading back to the store without `a`) before the inverse of the remove step
(`addKeyframe_lambda(a, t)`, leading back to the original store).  When `b` equals `a`
nothing was pushed and the entries are unchanged. -/
theorem C12_moveKeyframe_undo (QT_NO_DEBUG : Bool) (a b : GenTime) (t : KeyframeType)
    (self self1 : KeyframeModel GenTime) (st st1 : DocUndoStack GenTime)
    (hord : std_map.Ordered self.m_keyframeList)
    (hat : std_map.«at» self.m_keyframeList a = some t)
    (hrun : moveKeyframe QT_NO_DEBUG a b self st = some (true, self1, st1)) :
    (b = a → st1 = st ∧ self1.m_keyframeList = self.m_keyframeList) ∧
    (b ≠ a → ∃ cmd, st1 = cmd :: st ∧
      (∃ self2, cmd.m_undo self1 = some (true, self2) ∧
        self2.m_keyframeList = self.m_keyframeList) ∧
      ∃ inverseOfAdd : Fun GenTime,
        cmd.m_undo = inverseOfAdd.andThen
          ((addKeyframe_lambda QT_NO_DEBUG a t).andThen Fun.true_lambda) ∧
        inverseOfAdd.restores self1.m_keyframeList
          (std_map.erase self.m_keyframeList a) ∧
        (addKeyframe_lambda QT_NO_DEBUG a t).restores
          (std_map.erase self.m_keyframeList a) self.m_keyframeList) := by
  constructor
  · intro hba
    subst hba
    rw [moveKeyframe_same_of_stored QT_NO_DEBUG b self st (std_map.count_pos_of_at hat)]
      at hrun
    simp only [Option.some.injEq, Prod.mk.injEq, true_and] at hrun
    exact ⟨hrun.2.symm, by rw [← hrun.1]⟩
  · intro hne
    obtain ⟨y1, undo2, redo2, y2, _, hyl1, hres2, hrun2⟩ :=
      moveKeyframe_of_stored QT_NO_DEBUG a b t self st hat (Ne.symm hne)
    rw [hrun2] at hrun
    simp only [Option.some.injEq, Prod.mk.injEq, true_and] at hrun
    obtain ⟨hself, hst⟩ := hrun
    subst hself
    have hord1 : std_map.Ordered y1.m_keyframeList := by rw [hyl1]; exact hord.erase a
    obtain ⟨undo3, redo3, y3, inverse, hres3, hform, hinv, _⟩ :=
      addKeyframe_undo_redo_inverse QT_NO_DEBUG b t
        ((addKeyframe_lambda QT_NO_DEBUG a t).andThen Fun.true_lambda)
        (UPDATE_UNDO_REDO (deleteKeyframe_lambda QT_NO_DEBUG a)
          (addKeyframe_lambda QT_NO_DEBUG a t) Fun.true_lambda Fun.true_lambda).2 y1 hord1
    rw [hres2] at hres3
    simp only [Option.some.injEq, Prod.mk.injEq, true_and] at hres3
    obtain ⟨hu, _, hy⟩ := hres3
    subst hu hy
    rw [hyl1] at hinv
    have hrem := addKeyframe_lambda_restores QT_NO_DEBUG hord hat
    have hall : undo2.restores y2.m_keyframeList self.m_keyframeList := by
      rw [hform]
      exact andThen_restores hinv (andThen_restores hrem (true_lambda_restores _))
    refine ⟨_, hst.symm, hall y2 rfl, inverse, hform, hinv, hrem⟩

/-- Witness of C12: the scenario of the spec, `moveKeyframe(1, 3)` on the store of the
positions 1 and 2. -/
theorem C12_moveKeyframe_undo_witness :
    std_map.Ordered [((1 : Int), KeyframeType.Linear), (2, KeyframeType.Linear)] ∧
    std_map.«at» [((1 : Int), KeyframeType.Linear), (2, KeyframeType.Linear)] 1 =
      some KeyframeType.Linear ∧
    ∃ (self1 : KeyframeModel Int) (st1 : DocUndoStack Int),
      moveKeyframe false (1 : Int) 3
        ⟨[(1, KeyframeType.Linear), (2, KeyframeType.Linear)], []⟩ [] =
          some (true, self1, st1) ∧
      ((3 : Int) = 1 → st1 = [] ∧
        self1.m_keyframeList = [(1, KeyframeType.Linear), (2, KeyframeType.Linear)]) ∧
      ((3 : Int) ≠ 1 → ∃ cmd, st1 = cmd :: [] ∧
        (∃ self2, cmd.m_undo self1 = some (true, self2) ∧
          self2.m_keyframeList = [(1, KeyframeType.Linear), (2, KeyframeType.Linear)]) ∧
        ∃ inverseOfAdd : Fun Int,
          cmd.m_undo = inverseOfAdd.andThen
            ((addKeyframe_lambda false 1 KeyframeType.Linear).andThen Fun.true_lambda) ∧
          inverseOfAdd.restores self1.m_keyframeList
            (std_map.erase [((1 : Int), KeyframeType.Linear), (2, KeyframeType.Linear)] 1) ∧
          (addKeyframe_lambda false 1 KeyframeType.Linear).restores
            (std_map.erase [((1 : Int), KeyframeType.Linear), (2, KeyframeType.Linear)] 1)
            [(1, KeyframeType.Linear), (2, KeyframeType.Linear)]) :=
  ⟨by decide, by decide, _, _, rfl,
    C12_moveKeyframe_undo false 1 3 KeyframeType.Linear ⟨_, []⟩ _ [] _
      (by decide) (by decide) rfl⟩

/-- C13 (as stated, refuted): on the store holding only position 1, `moveKeyframe(5, 5)`
aborts with `Q_ASSERT` enabled, and with `Q_ASSERT` compiled out it returns true after
`operator[]` has stored position 5 with a value-initialised type: the store is changed. -/
theorem C13_move_identity_counterexample :
    moveKeyframe false (5 : Int) 5 ⟨[(1, KeyframeType.Linear)], []⟩ [] = none ∧
    moveKeyframe true (5 : Int) 5 ⟨[(1, KeyframeType.Linear)], []⟩ [] =
      some (true, ⟨[(1, KeyframeType.Linear), (5, KeyframeType.Linear)], []⟩, []) ∧
    [((1 : Int), KeyframeType.Linear), (5, KeyframeType.Linear)] ≠
      [(1, KeyframeType.Linear)] :=
  ⟨moveKeyframe_of_absent_debug 5 5 ⟨_, []⟩ [] (by decide),
    moveKeyframe_same_of_absent_release 5 ⟨_, []⟩ [] (by decide), by decide⟩

/-- C13 (amended): for every store in which `pos` is stored, `moveKeyframe(pos, pos)`
returns true and leaves the store, the emitted signals and the undo stack exactly as they
were. -/
theorem C13_moveKeyframe_same_stored (QT_NO_DEBUG : Bool) (pos : GenTime)
    (self : KeyframeModel GenTime) (st : DocUndoStack GenTime)
    (hst : std_map.count self.m_keyframeList pos > 0) :
    moveKeyframe QT_NO_DEBUG pos pos self st = some (true, self, st) :=
  moveKeyframe_same_of_stored QT_NO_DEBUG pos self st hst

/-- Witness of C13 (amended): `moveKeyframe(4, 4)` on a store holding position 4. -/
theorem C13_moveKeyframe_same_stored_witness :
    std_map.count [((1 : Int), KeyframeType.Linear), (4, KeyframeType.Smooth)] 4 > 0 ∧
    moveKeyframe false (4 : Int) 4
      ⟨[(1, KeyframeType.Linear), (4, KeyframeType.Smooth)], []⟩ [] =
        some (true, ⟨[(1, KeyframeType.Linear), (4, KeyframeType.Smooth)], []⟩, []) :=
  ⟨by decide, C13_moveKeyframe_same_stored false 4 ⟨_, []⟩ [] (by decide)⟩

/-- C15 (as stated, refuted): on the store holding position 1 with type Linear and
position 2 with type Smooth, `moveKeyframe(1, 2)` returns true in both builds and leaves
the single entry `(2, Linear)`. -/
theorem C15_move_to_occupied_counterexample :
    (∃ self1 st1, moveKeyframe false (1 : Int) 2
        ⟨[(1, KeyframeType.Linear), (2, KeyframeType.Smooth)], []⟩ [] =
          some (true, self1, st1) ∧
      self1.m_keyframeList = [(2, KeyframeType.Linear)]) ∧
    (∃ self1 st1, moveKeyframe true (1 : Int) 2
        ⟨[(1, KeyframeType.Linear), (2, KeyframeType.Smooth)], []⟩ [] =
          some (true, self1, st1) ∧
      self1.m_keyframeList = [(2, KeyframeType.Linear)]) ∧
    [((2 : Int), KeyframeType.Linear)] ≠
      [(1, KeyframeType.Linear), (2, KeyframeType.Smooth)] :=
  ⟨⟨_, _, rfl, rfl⟩, ⟨_, _, rfl, rfl⟩, by decide⟩

/-- C15 (amended): for every store and all distinct positions `a` and `b` that are both
stored, `a` with type `t`, `moveKeyframe(a, b)` returns true: the add step finds `b`
occupied and gives it the type `t` instead of failing; afterwards the keys are those of
the original store without `a`, and `b` holds `t`, so the store does not end as it
started. -/
theorem C15_moveKeyframe_to_occupied (QT_NO_DEBUG : Bool) (a b : GenTime)
    (t : KeyframeType) (self : KeyframeModel GenTime) (st : DocUndoStack GenTime)
    (hord : std_map.Ordered self.m_keyframeList)
    (hat : std_map.«at» self.m_keyframeList a = some t) (hne : a ≠ b)
    (hb : std_map.count self.m_keyframeList b > 0) :
    ∃ self1 st1, moveKeyframe QT_NO_DEBUG a b self st = some (true, self1, st1) ∧
      std_map.keys self1.m_keyframeList =
        std_map.keys (std_map.erase self.m_keyframeList a) ∧
      std_map.count self1.m_keyframeList a = 0 ∧
      std_map.«at» self1.m_keyframeList b = some t ∧
      self1.m_keyframeList ≠ self.m_keyframeList := by
  obtain ⟨y1, undo2, redo2, y2, _, hyl1, hres2, hrun⟩ :=
    moveKeyframe_of_stored QT_NO_DEBUG a b t self st hat hne
  obtain ⟨tb, hatb⟩ := std_map.at_of_count_pos hb
  have hatb1 : std_map.«at» y1.m_keyframeList b = some tb := by
    rw [hyl1, std_map.at_erase_of_ne _ _ (Ne.symm hne)]; exact hatb
  have hord1 : std_map.Ordered y1.m_keyframeList := by rw [hyl1]; exact hord.erase a
  have hkeys : std_map.keys y2.m_keyframeList = std_map.keys y1.m_keyframeList ∧
      std_map.«at» y2.m_keyframeList b = some t ∧
      std_map.«at» y2.m_keyframeList a = std_map.«at» y1.m_keyframeList a := by
    by_cases hty : t = tb
    · subst hty
      rw [addKeyframe_undo_redo_of_same QT_NO_DEBUG b t _ _ y1 hatb1] at hres2
      simp only [Option.some.injEq, Prod.mk.injEq, true_and] at hres2
      rw [← hres2.2.2]
      exact ⟨rfl, hatb1, rfl⟩
    · obtain ⟨y, _, hyl, hres⟩ := addKeyframe_undo_redo_of_other QT_NO_DEBUG b t tb
        ((addKeyframe_lambda QT_NO_DEBUG a t).andThen Fun.true_lambda)
        (UPDATE_UNDO_REDO (deleteKeyframe_lambda QT_NO_DEBUG a)
          (addKeyframe_lambda QT_NO_DEBUG a t) Fun.true_lambda Fun.true_lambda).2 y1
        hatb1 hty
      rw [hres2] at hres
      simp only [Option.some.injEq, Prod.mk.injEq, true_and] at hres
      rw [hres.2.2, hyl]
      exact ⟨std_map.keys_assign_of_at hord1 hatb1 t, std_map.at_assign_self _ _ _,
        std_map.at_assign_of_ne _ _ _ hne⟩
  have ha : std_map.«at» y2.m_keyframeList a = none := by
    rw [hkeys.2.2, hyl1]; exact std_map.at_erase_self hord a
  refine ⟨y2, _, hrun, by rw [hkeys.1, hyl1], by simp [std_map.count, ha], hkeys.2.1, ?_⟩
  intro heq
  rw [heq, hat] at ha
  exact Option.noConfusion ha

/-- Witness of C15 (amended): `moveKeyframe(1, 4)` on a store holding the positions 1, 4
and 6. -/
theorem C15_moveKeyframe_to_occupied_witness :
    std_map.Ordered [((1 : Int), KeyframeType.Discrete), (4, KeyframeType.Smooth),
      (6, KeyframeType.Linear)] ∧
    std_map.«at» [((1 : Int), KeyframeType.Discrete), (4, KeyframeType.Smooth),
      (6, KeyframeType.Linear)] 1 = some KeyframeType.Discrete ∧
    (1 : Int) ≠ 4 ∧
    std_map.count [((1 : Int), KeyframeType.Discrete), (4, KeyframeType.Smooth),
      (6, KeyframeType.Linear)] 4 > 0 ∧
    ∃ self1 st1, moveKeyframe false (1 : Int) 4
        ⟨[(1, KeyframeType.Discrete), (4, KeyframeType.Smooth), (6, KeyframeType.Linear)],
          []⟩ [] = some (true, self1, st1) ∧
      std_map.keys self1.m_keyframeList =
        std_map.keys (std_map.erase [((1 : Int), KeyframeType.Discrete),
          (4, KeyframeType.Smooth), (6, KeyframeType.Linear)] 1) ∧
      std_map.count self1.m_keyframeList 1 = 0 ∧
      std_map.«at» self1.m_keyframeList 4 = some KeyframeType.Discrete ∧
      self1.m_keyframeList ≠
        [(1, KeyframeType.Discrete), (4, KeyframeType.Smooth), (6, KeyframeType.Linear)] :=
  ⟨by decide, by decide, by decide, by decide,
    C15_moveKeyframe_to_occupied false 1 4 KeyframeType.Discrete ⟨_, []⟩ []
      (by decide) (by decide) (by decide) (by decide)⟩

/-- C16 (as stated, refuted): on the store holding only position 1, `moveKeyframe(5, 7)`
does not report failure: with `Q_ASSERT` enabled it aborts, and with `Q_ASSERT` compiled
out it returns true, stores position 7 with a value-initialised type and pushes an entry
"Move keyframe". -/
theorem C16_move_absent_counterexample :
    moveKeyframe false (5 : Int) 7 ⟨[(1, KeyframeType.Linear)], []⟩ [] = none ∧
    (∃ self1 cmd, moveKeyframe true (5 : Int) 7 ⟨[(1, KeyframeType.Linear)], []⟩ [] =
        some (true, self1, [cmd]) ∧
      self1.m_keyframeList = [(1, KeyframeType.Linear), (7, KeyframeType.Linear)] ∧
      cmd.text = "Move keyframe") ∧
    [((1 : Int), KeyframeType.Linear), (7, KeyframeType.Linear)] ≠
      [(1, KeyframeType.Linear)] :=
  ⟨moveKeyframe_of_absent_debug 5 7 ⟨_, []⟩ [] (by decide), ⟨_, _, rfl, rfl, rfl⟩,
    by decide⟩

/-- C16 (amended): for every store, every position `a` that is not stored and every
position `b` different from `a`, `moveKeyframe(a, b)` does not report failure: with
`Q_ASSERT` enabled the assertion `Q_ASSERT(m_keyframeList.count(oldPos) > 0)` aborts the
call, and with `Q_ASSERT` compiled out the call returns true, pushes one entry "Move
keyframe" and leaves `b` stored with a value-initialised type, every other position
being stored or absent as before with the type it had. -/
theorem C16_moveKeyframe_absent (a b : GenTime)
    (self : KeyframeModel GenTime) (st : DocUndoStack GenTime)
    (habs : std_map.count self.m_keyframeList a = 0) (hne : b ≠ a) :
    moveKeyframe false a b self st = none ∧
    ∃ self1 cmd, moveKeyframe true a b self st = some (true, self1, cmd :: st) ∧
      cmd.text = "Move keyframe" ∧
      std_map.«at» self1.m_keyframeList b = some default ∧
      (∀ p, p ≠ b →
        std_map.«at» self1.m_keyframeList p = std_map.«at» self.m_keyframeList p) :=
  ⟨moveKeyframe_of_absent_debug a b self st habs,
    moveKeyframe_of_absent_release a b self st habs (Ne.symm hne)⟩

/-- Witness of C16 (amended): `moveKeyframe(5, 4)` on a store holding the positions 1
and 4. -/
theorem C16_moveKeyframe_absent_witness :
    std_map.count [((1 : Int), KeyframeType.Linear), (4, KeyframeType.Smooth)] 5 = 0 ∧
    (4 : Int) ≠ 5 ∧
    moveKeyframe false (5 : Int) 4
      ⟨[(1, KeyframeType.Linear), (4, KeyframeType.Smooth)], []⟩ [] = none ∧
    ∃ self1 cmd, moveKeyframe true (5 : Int) 4
        ⟨[(1, KeyframeType.Linear), (4, KeyframeType.Smooth)], []⟩ [] =
          some (true, self1, cmd :: []) ∧
      cmd.text = "Move keyframe" ∧
      std_map.«at» self1.m_keyframeList 4 = some default ∧
      (∀ p, p ≠ 4 → std_map.«at» self1.m_keyframeList p =
        std_map.«at» [((1 : Int), KeyframeType.Linear), (4, KeyframeType.Smooth)] p) :=
  ⟨by decide, by decide, C16_moveKeyframe_absent 5 4 ⟨_, []⟩ [] (by decide) (by decide)⟩

/-- C17: for every store, `removeAllKeyframes()` returns true, leaves the store empty
(`rowCount()` is 0) and pushes exactly one entry, described "Delete all keyframes",
however many keyframes were stored. -/
theorem C17_removeAllKeyframes (QT_NO_DEBUG : Bool)
    (self : KeyframeModel GenTime) (st : DocUndoStack GenTime)
    (hord : std_map.Ordered self.m_keyframeList) :
    ∃ self1 cmd, removeAllKeyframes QT_NO_DEBUG self st = some (true, self1, cmd :: st) ∧
      cmd.text = "Delete all keyframes" ∧
      self1.m_keyframeList = [] ∧
      rowCount self1 ⟨-1, false⟩ = 0 := by
  obtain ⟨self1, cmd, hrun, htext, hl, _⟩ :=
    removeAllKeyframes_of_ordered QT_NO_DEBUG self st hord
  exact ⟨self1, cmd, hrun, htext, hl, by simp [rowCount, hl, std_map.size]⟩

/-- Witness of C17: the scenario of the spec, a store of three keyframes. -/
theorem C17_removeAllKeyframes_witness :
    std_map.Ordered [((1 : Int), KeyframeType.Discrete), (2, KeyframeType.Smooth),
      (3, KeyframeType.Linear)] ∧
    ∃ self1 cmd, removeAllKeyframes false
        (⟨[(1, KeyframeType.Discrete), (2, KeyframeType.Smooth), (3, KeyframeType.Linear)],
          []⟩ : KeyframeModel Int) [] = some (true, self1, cmd :: []) ∧
      cmd.text = "Delete all keyframes" ∧
      self1.m_keyframeList = [] ∧
      rowCount self1 ⟨-1, false⟩ = 0 :=
  ⟨by decide, C17_removeAllKeyframes false ⟨_, []⟩ [] (by decide)⟩

/-- C18: for every store, the undo closure of the single entry pushed by
`removeAllKeyframes()`, invoked directly afterwards, returns true and restores exactly the
entries stored before the call: same keys, same types, same row order. -/
theorem C18_removeAllKeyframes_undo (QT_NO_DEBUG : Bool)
    (self : KeyframeModel GenTime) (st : DocUndoStack GenTime)
    (hord : std_map.Ordered self.m_keyframeList) :
    ∃ self1 cmd, removeAllKeyframes QT_NO_DEBUG self st = some (true, self1, cmd :: st) ∧
      ∃ self2, cmd.m_undo self1 = some (true, self2) ∧
        self2.m_keyframeList = self.m_keyframeList := by
  obtain ⟨self1, cmd, hrun, _, hl, hback⟩ :=
    removeAllKeyframes_of_ordered QT_NO_DEBUG self st hord
  exact ⟨self1, cmd, hrun, hback self1 hl⟩

/-- Witness of C18: the scenario of the spec, a store of three keyframes. -/
theorem C18_removeAllKeyframes_undo_witness :
    std_map.Ordered [((1 : Int), KeyframeType.Discrete), (2, KeyframeType.Smooth),
      (3, KeyframeType.Linear)] ∧
    ∃ self1 cmd, removeAllKeyframes false
        (⟨[(1, KeyframeType.Discrete), (2, KeyframeType.Smooth), (3, KeyframeType.Linear)],
          []⟩ : KeyframeModel Int) [] = some (true, self1, cmd :: []) ∧
      ∃ self2, cmd.m_undo self1 = some (true, self2) ∧
        self2.m_keyframeList =
          [(1, KeyframeType.Discrete), (2, KeyframeType.Smooth), (3, KeyframeType.Linear)] :=
  ⟨by decide, C18_removeAllKeyframes_undo false ⟨_, []⟩ [] (by decide)⟩

/-- C19: for every store and all arguments, if one of the public calls
`addKeyframe(pos, type)`, `removeKeyframe(pos)`, `moveKeyframe(oldPos, pos)` and
`removeAllKeyframes()` returns false, then the undo stack is exactly as it was before the
call.  Each public operation is its body (`addKeyframe_with` and the like) at the
composable operations it calls, and the property holds of the bodies whatever the callees
do: the `PUSH_UNDO` of lines 88, 115, 132 and 258 is reached only with a true result, and
the paths of a false result (lines 86-89, 113-116, 133-137, 252-256) push nothing.  For
the source functions themselves the premise never occurs: the composable operations never
return false, so whenever a public call returns, its result is true. -/
theorem C19_failed_call_pushes_nothing (QT_NO_DEBUG : Bool)
    (removeKeyframe_step : GenTime → Step GenTime)
    (addKeyframe_step : GenTime → KeyframeType → Step GenTime)
    (oldPos pos : GenTime) (type : KeyframeType)
    (self : KeyframeModel GenTime) (st : DocUndoStack GenTime) :
    ((∀ self1 st1,
        addKeyframe_with addKeyframe_step pos type self st = some (false, self1, st1) →
        st1 = st) ∧
      (∀ self1 st1,
        removeKeyframe_with removeKeyframe_step pos self st = some (false, self1, st1) →
        st1 = st) ∧
      (∀ self1 st1,
        moveKeyframe_with removeKeyframe_step addKeyframe_step QT_NO_DEBUG oldPos pos
          self st = some (false, self1, st1) →
        st1 = st) ∧
      (∀ self1 st1,
        removeAllKeyframes_with removeKeyframe_step QT_NO_DEBUG self st =
          some (false, self1, st1) →
        st1 = st)) ∧
    (addKeyframe QT_NO_DEBUG pos type self st =
        addKeyframe_with (addKeyframe_undo_redo QT_NO_DEBUG) pos type self st ∧
      removeKeyframe QT_NO_DEBUG pos self st =
        removeKeyframe_with (removeKeyframe_undo_redo QT_NO_DEBUG) pos self st ∧
      moveKeyframe QT_NO_DEBUG oldPos pos self st =
        moveKeyframe_with (removeKeyframe_undo_redo QT_NO_DEBUG)
          (addKeyframe_undo_redo QT_NO_DEBUG) QT_NO_DEBUG oldPos pos self st ∧
      removeAllKeyframes QT_NO_DEBUG self st =
        removeAllKeyframes_with (removeKeyframe_undo_redo QT_NO_DEBUG) QT_NO_DEBUG
          self st) ∧
    ((∀ self1 st1, addKeyframe QT_NO_DEBUG pos type self st = some (false, self1, st1) →
        st1 = st) ∧
      (∀ self1 st1, removeKeyframe QT_NO_DEBUG pos self st = some (false, self1, st1) →
        st1 = st) ∧
      (∀ self1 st1, moveKeyframe QT_NO_DEBUG oldPos pos self st = some (false, self1, st1) →
        st1 = st) ∧
      (∀ self1 st1, removeAllKeyframes QT_NO_DEBUG self st = some (false, self1, st1) →
        st1 = st)) ∧
    ((∀ res self1 st1, addKeyframe QT_NO_DEBUG pos type self st = some (res, self1, st1) →
        res = true) ∧
      (∀ res self1 st1, removeKeyframe QT_NO_DEBUG pos self st = some (res, self1, st1) →
        res = true) ∧
      (∀ res self1 st1, moveKeyframe QT_NO_DEBUG oldPos pos self st =
        some (res, self1, st1) → res = true) ∧
      (∀ res self1 st1, removeAllKeyframes QT_NO_DEBUG self st = some (res, self1, st1) →
        res = true)) := by
  refine ⟨⟨?_, ?_, ?_, ?_⟩, ⟨?_, ?_, ?_, ?_⟩, ⟨?_, ?_, ?_, ?_⟩, ?_, ?_, ?_, ?_⟩
  · intro self1 st1 h
    exact addKeyframe_with_false h
  · intro self1 st1 h
    exact removeKeyframe_with_false h
  · intro self1 st1 h
    exact moveKeyframe_with_false h
  · intro self1 st1 h
    exact removeAllKeyframes_with_false h
  · exact addKeyframe_eq_with QT_NO_DEBUG pos type self st
  · exact removeKeyframe_eq_with QT_NO_DEBUG pos self st
  · exact moveKeyframe_eq_with QT_NO_DEBUG oldPos pos self st
  · exact removeAllKeyframes_eq_with QT_NO_DEBUG self st
  · intro self1 st1 h
    rw [addKeyframe_eq_with] at h
    exact addKeyframe_with_false h
  · intro self1 st1 h
    rw [removeKeyframe_eq_with] at h
    exact removeKeyframe_with_false h
  · intro self1 st1 h
    rw [moveKeyframe_eq_with] at h
    exact moveKeyframe_with_false h
  · intro self1 st1 h
    rw [removeAllKeyframes_eq_with] at h
    exact removeAllKeyframes_with_false h
  · intro res self1 st1 h
    exact addKeyframe_result h
  · intro res self1 st1 h
    exact removeKeyframe_result h
  · intro res self1 st1 h
    exact moveKeyframe_result h
  · intro res self1 st1 h
    exact removeAllKeyframes_result h

/-- Witness of C19: the four bodies on the store of the positions 1 and 4, with one entry
on the undo stack, around an insert step that returns false at once and a remove step that
returns false at position 4.  `addKeyframe(4, Linear)` and `removeKeyframe(4)` return
false at once; `moveKeyframe(1, 4)` and `removeAllKeyframes()` remove the row of position
1, roll it back and return false.  The undo stack keeps its one entry. -/
theorem C19_failed_call_pushes_nothing_witness :
    (∃ self1 : KeyframeModel Int,
      addKeyframe_with (fun _ _ undo redo y => some (false, undo, redo, y)) (4 : Int)
          KeyframeType.Linear
          ⟨[(1, KeyframeType.Discrete), (4, KeyframeType.Smooth)], []⟩
          [⟨Fun.true_lambda, Fun.true_lambda, "Add keyframe"⟩] =
        some (false, self1, [⟨Fun.true_lambda, Fun.true_lambda, "Add keyframe"⟩])) ∧
    (∃ self1 : KeyframeModel Int,
      removeKeyframe_with
          (fun p undo redo y => if p = 4 then some (false, undo, redo, y)
            else removeKeyframe_undo_redo false p undo redo y) (4 : Int)
          ⟨[(1, KeyframeType.Discrete), (4, KeyframeType.Smooth)], []⟩
          [⟨Fun.true_lambda, Fun.true_lambda, "Add keyframe"⟩] =
        some (false, self1, [⟨Fun.true_lambda, Fun.true_lambda, "Add keyframe"⟩])) ∧
    (∃ self1 : KeyframeModel Int,
      moveKeyframe_with
          (fun p undo redo y => if p = 4 then some (false, undo, redo, y)
            else removeKeyframe_undo_redo false p undo redo y)
          (fun _ _ undo redo y => some (false, undo, redo, y)) false (1 : Int) 4
          ⟨[(1, KeyframeType.Discrete), (4, KeyframeType.Smooth)], []⟩
          [⟨Fun.true_lambda, Fun.true_lambda, "Add keyframe"⟩] =
        some (false, self1, [⟨Fun.true_lambda, Fun.true_lambda, "Add keyframe"⟩]) ∧
      self1.emitted =
        [(Signal.beginRemoveRows 0 0,
            [(1, KeyframeType.Discrete), (4, KeyframeType.Smooth)]),
          (Signal.endRemoveRows, [(4, KeyframeType.Smooth)]),
          (Signal.beginInsertRows 0 0, [(4, KeyframeType.Smooth)]),
          (Signal.endInsertRows,
            [(1, KeyframeType.Discrete), (4, KeyframeType.Smooth)])]) ∧
    (∃ self1 : KeyframeModel Int,
      removeAllKeyframes_with
          (fun p undo redo y => if p = 4 then some (false, undo, redo, y)
            else removeKeyframe_undo_redo false p undo redo y) false
          (⟨[(1, KeyframeType.Discrete), (4, KeyframeType.Smooth)], []⟩ :
            KeyframeModel Int)
          [⟨Fun.true_lambda, Fun.true_lambda, "Add keyframe"⟩] =
        some (false, self1, [⟨Fun.true_lambda, Fun.true_lambda, "Add keyframe"⟩]) ∧
      self1.emitted =
        [(Signal.beginRemoveRows 0 0,
            [(1, KeyframeType.Discrete), (4, KeyframeType.Smooth)]),
          (Signal.endRemoveRows, [(4, KeyframeType.Smooth)]),
          (Signal.beginInsertRows 0 0, [(4, KeyframeType.Smooth)]),
          (Signal.endInsertRows,
            [(1, KeyframeType.Discrete), (4, KeyframeType.Smooth)])]) ∧
    (∀ (self1 : KeyframeModel Int) (st1 : DocUndoStack Int),
      addKeyframe_with (fun _ _ undo redo y => some (false, undo, redo, y)) (4 : Int)
          KeyframeType.Linear
          ⟨[(1, KeyframeType.Discrete), (4, KeyframeType.Smooth)], []⟩
          [⟨Fun.true_lambda, Fun.true_lambda, "Add keyframe"⟩] =
        some (false, self1, st1) →
      st1 = [⟨Fun.true_lambda, Fun.true_lambda, "Add keyframe"⟩]) ∧
    (∀ (self1 : KeyframeModel Int) (st1 : DocUndoStack Int),
      removeKeyframe_with
          (fun p undo redo y => if p = 4 then some (false, undo, redo, y)
            else removeKeyframe_undo_redo false p undo redo y) (4 : Int)
          ⟨[(1, KeyframeType.Discrete), (4, KeyframeType.Smooth)], []⟩
          [⟨Fun.true_lambda, Fun.true_lambda, "Add keyframe"⟩] =
        some (false, self1, st1) →
      st1 = [⟨Fun.true_lambda, Fun.true_lambda, "Add keyframe"⟩]) ∧
    (∀ (self1 : KeyframeModel Int) (st1 : DocUndoStack Int),
      moveKeyframe_with
          (fun p undo redo y => if p = 4 then some (false, undo, redo, y)
            else removeKeyframe_undo_redo false p undo redo y)
          (fun _ _ undo redo y => some (false, undo, redo, y)) false (1 : Int) 4
          ⟨[(1, KeyframeType.Discrete), (4, KeyframeType.Smooth)], []⟩
          [⟨Fun.true_lambda, Fun.true_lambda, "Add keyframe"⟩] =
        some (false, self1, st1) →
      st1 = [⟨Fun.true_lambda, Fun.true_lambda, "Add keyframe"⟩]) ∧
    (∀ (self1 : KeyframeModel Int) (st1 : DocUndoStack Int),
      removeAllKeyframes_with
          (fun p undo redo y => if p = 4 then some (false, undo, redo, y)
            else removeKeyframe_undo_redo false p undo redo y) false
          (⟨[(1, KeyframeType.Discrete), (4, KeyframeType.Smooth)], []⟩ :
            KeyframeModel Int)
          [⟨Fun.true_lambda, Fun.true_lambda, "Add keyframe"⟩] =
        some (false, self1, st1) →
      st1 = [⟨Fun.true_lambda, Fun.true_lambda, "Add keyframe"⟩]) :=
  have h := (C19_failed_call_pushes_nothing false
    (fun p undo redo y => if p = 4 then some (false, undo, redo, y)
            else removeKeyframe_undo_redo false p undo redo y)
    (fun _ _ undo redo y => some (false, undo, redo, y)) (1 : Int) 4 KeyframeType.Linear
    ⟨[(1, KeyframeType.Discrete), (4, KeyframeType.Smooth)], []⟩
    [⟨Fun.true_lambda, Fun.true_lambda, "Add keyframe"⟩]).1
  ⟨⟨_, rfl⟩, ⟨_, rfl⟩, ⟨_, rfl, rfl⟩, ⟨_, rfl, rfl⟩, h.1, h.2.1, h.2.2.1, h.2.2.2⟩

/-- C20: for every store and every position `pos` that is not stored, the insert command
built by `addKeyframe_lambda(pos, type)` returns true and emits exactly
`beginInsertRows(row, row)` on the store as it was, then, after the mutation,
`endInsertRows()` on the store with the new entry, which sits at index `row`; `row` is the
number of stored keys strictly less than `pos` in the store before the mutation, it is
`rowCount()` when `pos` is greater than every stored key, and it is the distance from
`begin()` to `lower_bound(pos)` also when `lower_bound(pos)` is `end()`. -/
theorem C20_addKeyframe_lambda_signals (QT_NO_DEBUG : Bool) (pos : GenTime)
    (type : KeyframeType) (self : KeyframeModel GenTime)
    (hord : std_map.Ordered self.m_keyframeList)
    (habs : std_map.count self.m_keyframeList pos = 0) :
    ∃ self1, addKeyframe_lambda QT_NO_DEBUG pos type self = some (true, self1) ∧
      self1.emitted = self.emitted ++
        [(Signal.beginInsertRows (std_map.rank self.m_keyframeList pos : Nat)
            (std_map.rank self.m_keyframeList pos : Nat), self.m_keyframeList),
          (Signal.endInsertRows, self1.m_keyframeList)] ∧
      self1.m_keyframeList.get? (std_map.rank self.m_keyframeList pos) = some (pos, type) ∧
      std_map.size self1.m_keyframeList = std_map.size self.m_keyframeList + 1 ∧
      ((∀ k ∈ std_map.keys self.m_keyframeList, k < pos) →
        ((std_map.rank self.m_keyframeList pos : Nat) : Int) = rowCount self ⟨-1, false⟩) ∧
      std_map.rank self.m_keyframeList pos = std_map.lower_bound self.m_keyframeList pos := by
  obtain ⟨y, hy, hyl, hem⟩ :=
    addKeyframe_lambda_emitted QT_NO_DEBUG pos type self (Or.inr habs)
  have hlb := lower_bound_eq_rank hord pos
  refine ⟨y, hy, ?_, ?_, ?_, ?_, hlb.symm⟩
  · rw [hem, hyl, hlb]
  · rw [hyl, ← hlb]; exact get?_assign_lower_bound _ _ _
  · rw [hyl]
    exact std_map.size_assign_of_absent ((std_map.count_eq_zero_iff _ _).mp habs) type
  · intro hall
    simp only [rowCount, Bool.false_eq_true, if_false, rank_eq_size_of_all_lt hall]

/-- Witness of C20: inserting position 5 into the store of the positions 1, 4 and 7. -/
theorem C20_addKeyframe_lambda_signals_witness :
    std_map.Ordered [((1 : Int), KeyframeType.Discrete), (4, KeyframeType.Smooth),
      (7, KeyframeType.Linear)] ∧
    std_map.count [((1 : Int), KeyframeType.Discrete), (4, KeyframeType.Smooth),
      (7, KeyframeType.Linear)] 5 = 0 ∧
    std_map.rank [((1 : Int), KeyframeType.Discrete), (4, KeyframeType.Smooth),
      (7, KeyframeType.Linear)] 5 = 2 ∧
    ∃ self1, addKeyframe_lambda false (5 : Int) KeyframeType.Linear
        ⟨[(1, KeyframeType.Discrete), (4, KeyframeType.Smooth), (7, KeyframeType.Linear)],
          []⟩ = some (true, self1) ∧
      self1.emitted = [] ++
        [(Signal.beginInsertRows
            (std_map.rank [((1 : Int), KeyframeType.Discrete), (4, KeyframeType.Smooth),
              (7, KeyframeType.Linear)] 5 : Nat)
            (std_map.rank [((1 : Int), KeyframeType.Discrete), (4, KeyframeType.Smooth),
              (7, KeyframeType.Linear)] 5 : Nat),
            [(1, KeyframeType.Discrete), (4, KeyframeType.Smooth),
              (7, KeyframeType.Linear)]),
          (Signal.endInsertRows, self1.m_keyframeList)] ∧
      self1.m_keyframeList.get? (std_map.rank [((1 : Int), KeyframeType.Discrete),
        (4, KeyframeType.Smooth), (7, KeyframeType.Linear)] 5) =
          some (5, KeyframeType.Linear) ∧
      std_map.size self1.m_keyframeList =
        std_map.size [((1 : Int), KeyframeType.Discrete), (4, KeyframeType.Smooth),
          (7, KeyframeType.Linear)] + 1 ∧
      ((∀ k ∈ std_map.keys [((1 : Int), KeyframeType.Discrete), (4, KeyframeType.Smooth),
          (7, KeyframeType.Linear)], k < 5) →
        ((std_map.rank [((1 : Int), KeyframeType.Discrete), (4, KeyframeType.Smooth),
          (7, KeyframeType.Linear)] 5 : Nat) : Int) =
            rowCount (⟨[(1, KeyframeType.Discrete), (4, KeyframeType.Smooth),
              (7, KeyframeType.Linear)], []⟩ : KeyframeModel Int) ⟨-1, false⟩) ∧
      std_map.rank [((1 : Int), KeyframeType.Discrete), (4, KeyframeType.Smooth),
        (7, KeyframeType.Linear)] 5 =
          std_map.lower_bound [((1 : Int), KeyframeType.Discrete), (4, KeyframeType.Smooth),
            (7, KeyframeType.Linear)] 5 :=
  ⟨by decide, by decide, by decide,
    C20_addKeyframe_lambda_signals false 5 KeyframeType.Linear ⟨_, []⟩
      (by decide) (by decide)⟩

/-- C21: for every store in which `pos` is stored, the remove command built by
`deleteKeyframe_lambda(pos)` returns true and emits exactly `beginRemoveRows(row, row)` on
the store as it was, then, after the erase, `endRemoveRows()` on the store without `pos`;
`row` is the number of stored keys strictly less than `pos` before the erase, which is
the row at which `data()` returned `pos` immediately before the call, and the distance
from `begin()` to `find(pos)`. -/
theorem C21_deleteKeyframe_lambda_signals (QT_NO_DEBUG : Bool) (pos : GenTime)
    (self : KeyframeModel GenTime) (getCurrentFps_frames : GenTime → Int)
    (hord : std_map.Ordered self.m_keyframeList)
    (hst : std_map.count self.m_keyframeList pos > 0) :
    ∃ self1, deleteKeyframe_lambda QT_NO_DEBUG pos self = some (true, self1) ∧
      self1.emitted = self.emitted ++
        [(Signal.beginRemoveRows (std_map.rank self.m_keyframeList pos : Nat)
            (std_map.rank self.m_keyframeList pos : Nat), self.m_keyframeList),
          (Signal.endRemoveRows, self1.m_keyframeList)] ∧
      self1.m_keyframeList = std_map.erase self.m_keyframeList pos ∧
      std_map.count self1.m_keyframeList pos = 0 ∧
      std_map.size self1.m_keyframeList + 1 = std_map.size self.m_keyframeList ∧
      data getCurrentFps_frames self ⟨(std_map.rank self.m_keyframeList pos : Nat), true⟩
        PosRole = QVariant.seconds pos ∧
      std_map.rank self.m_keyframeList pos = std_map.find self.m_keyframeList pos := by
  obtain ⟨w, hat⟩ := std_map.at_of_count_pos hst
  obtain ⟨y, hy, hyl, hem⟩ := deleteKeyframe_lambda_emitted QT_NO_DEBUG pos self (Or.inr hst)
  have hfr := find_eq_rank hord hat
  refine ⟨y, hy, ?_, hyl, ?_, ?_, ?_, hfr.symm⟩
  · rw [hem, hyl, hfr]
  · rw [hyl]; simp [std_map.count, std_map.at_erase_self hord pos]
  · rw [hyl]; exact std_map.size_erase_of_at hat
  · have hg := get?_find_of_at hat
    rw [hfr] at hg
    exact (data_of_get? getCurrentFps_frames self hg).1

/-- Witness of C21: removing position 4 from the store of the positions 1, 4 and 7. -/
theorem C21_deleteKeyframe_lambda_signals_witness :
    std_map.Ordered [((1 : Int), KeyframeType.Discrete), (4, KeyframeType.Smooth),
      (7, KeyframeType.Linear)] ∧
    std_map.count [((1 : Int), KeyframeType.Discrete), (4, KeyframeType.Smooth),
      (7, KeyframeType.Linear)] 4 > 0 ∧
    std_map.rank [((1 : Int), KeyframeType.Discrete), (4, KeyframeType.Smooth),
      (7, KeyframeType.Linear)] 4 = 1 ∧
    ∃ self1, deleteKeyframe_lambda false (4 : Int)
        ⟨[(1, KeyframeType.Discrete), (4, KeyframeType.Smooth), (7, KeyframeType.Linear)],
          []⟩ = some (true, self1) ∧
      self1.emitted = [] ++
        [(Signal.beginRemoveRows
            (std_map.rank [((1 : Int), KeyframeType.Discrete), (4, KeyframeType.Smooth),
              (7, KeyframeType.Linear)] 4 : Nat)
            (std_map.rank [((1 : Int), KeyframeType.Discrete), (4, KeyframeType.Smooth),
              (7, KeyframeType.Linear)] 4 : Nat),
            [(1, KeyframeType.Discrete), (4, KeyframeType.Smooth),
              (7, KeyframeType.Linear)]),
          (Signal.endRemoveRows, self1.m_keyframeList)] ∧
      self1.m_keyframeList = std_map.erase [((1 : Int), KeyframeType.Discrete),
        (4, KeyframeType.Smooth), (7, KeyframeType.Linear)] 4 ∧
      std_map.count self1.m_keyframeList 4 = 0 ∧
      std_map.size self1.m_keyframeList + 1 =
        std_map.size [((1 : Int), KeyframeType.Discrete), (4, KeyframeType.Smooth),
          (7, KeyframeType.Linear)] ∧
      data (fun p => p) (⟨[(1, KeyframeType.Discrete), (4, KeyframeType.Smooth),
          (7, KeyframeType.Linear)], []⟩ : KeyframeModel Int)
        ⟨(std_map.rank [((1 : Int), KeyframeType.Discrete), (4, KeyframeType.Smooth),
          (7, KeyframeType.Linear)] 4 : Nat), true⟩ PosRole = QVariant.seconds 4 ∧
      std_map.rank [((1 : Int), KeyframeType.Discrete), (4, KeyframeType.Smooth),
        (7, KeyframeType.Linear)] 4 =
          std_map.find [((1 : Int), KeyframeType.Discrete), (4, KeyframeType.Smooth),
            (7, KeyframeType.Linear)] 4 :=
  ⟨by decide, by decide, by decide,
    C21_deleteKeyframe_lambda_signals false 4 ⟨_, []⟩ (fun p => p) (by decide) (by decide)⟩

/-- C22: for every store in which `pos` is stored, the retype command built by
`changeType_lambda(pos, type)` returns true and emits exactly one signal,
`dataChanged(row, row, [TypeRole])`, on the store in which `pos` already maps to `type`,
and no signal of an insertion or removal; `row` is the number of stored keys strictly
less than `pos`, and `rowCount()` is unchanged. -/
theorem C22_changeType_lambda_signals (QT_NO_DEBUG : Bool) (pos : GenTime)
    (type : KeyframeType) (self : KeyframeModel GenTime)
    (hord : std_map.Ordered self.m_keyframeList)
    (hst : std_map.count self.m_keyframeList pos > 0) :
    ∃ self1, changeType_lambda QT_NO_DEBUG pos type self = some (true, self1) ∧
      self1.emitted = self.emitted ++
        [(Signal.dataChanged (std_map.rank self.m_keyframeList pos : Nat)
            (std_map.rank self.m_keyframeList pos : Nat) [TypeRole],
          self1.m_keyframeList)] ∧
      std_map.«at» self1.m_keyframeList pos = some type ∧
      std_map.keys self1.m_keyframeList = std_map.keys self.m_keyframeList ∧
      rowCount self1 ⟨-1, false⟩ = rowCount self ⟨-1, false⟩ := by
  obtain ⟨w, hat⟩ := std_map.at_of_count_pos hst
  obtain ⟨y, hy, hyl, hem⟩ :=
    changeType_lambda_returns QT_NO_DEBUG pos type self (Or.inr hst)
  have hfr := find_eq_rank hord hat
  have hkeys := std_map.keys_assign_of_at hord hat type
  refine ⟨y, hy, ?_, ?_, ?_, ?_⟩
  · rw [hem, hyl, hfr]
  · rw [hyl]; exact std_map.at_assign_self _ _ _
  · rw [hyl]; exact hkeys
  · have hlen := congrArg List.length hkeys
    simp only [std_map.keys, List.length_map] at hlen
    simp only [rowCount, Bool.false_eq_true, if_false, hyl, std_map.size, hlen]

/-- Witness of C22: retyping position 4 in the store of the positions 1, 4 and 7. -/
theorem C22_changeType_lambda_signals_witness :
    std_map.Ordered [((1 : Int), KeyframeType.Discrete), (4, KeyframeType.Smooth),
      (7, KeyframeType.Linear)] ∧
    std_map.count [((1 : Int), KeyframeType.Discrete), (4, KeyframeType.Smooth),
      (7, KeyframeType.Linear)] 4 > 0 ∧
    ∃ self1, changeType_lambda false (4 : Int) KeyframeType.Linear
        ⟨[(1, KeyframeType.Discrete), (4, KeyframeType.Smooth), (7, KeyframeType.Linear)],
          []⟩ = some (true, self1) ∧
      self1.emitted = [] ++
        [(Signal.dataChanged
            (std_map.rank [((1 : Int), KeyframeType.Discrete), (4, KeyframeType.Smooth),
              (7, KeyframeType.Linear)] 4 : Nat)
            (std_map.rank [((1 : Int), KeyframeType.Discrete), (4, KeyframeType.Smooth),
              (7, KeyframeType.Linear)] 4 : Nat) [TypeRole],
          self1.m_keyframeList)] ∧
      std_map.«at» self1.m_keyframeList 4 = some KeyframeType.Linear ∧
      std_map.keys self1.m_keyframeList =
        std_map.keys [((1 : Int), KeyframeType.Discrete), (4, KeyframeType.Smooth),
          (7, KeyframeType.Linear)] ∧
      rowCount self1 ⟨-1, false⟩ =
        rowCount (⟨[(1, KeyframeType.Discrete), (4, KeyframeType.Smooth),
          (7, KeyframeType.Linear)], []⟩ : KeyframeModel Int) ⟨-1, false⟩ :=
  ⟨by decide, by decide,
    C22_changeType_lambda_signals false 4 KeyframeType.Linear ⟨_, []⟩
      (by decide) (by decide)⟩

/-- C23: the empty initial store has strictly ascending keys; every public operation
(`addKeyframe`, `removeKeyframe`, `moveKeyframe`, `removeAllKeyframes`), with any
arguments and any undo stack, maps a store with strictly ascending keys to a store with
strictly ascending keys; so in every reachable state the keys are strictly ascending,
hence pairwise distinct, and the undo and the redo closure of every entry of the undo
stack lead again to a store with strictly ascending keys. -/
theorem C23_keys_stay_ascending (QT_NO_DEBUG : Bool) (self : KeyframeModel GenTime)
    (st : DocUndoStack GenTime) (hreach : Reachable QT_NO_DEBUG self st) :
    std_map.Ordered ([] : List (GenTime × KeyframeType)) ∧
    (∀ (x : KeyframeModel GenTime) (sx : DocUndoStack GenTime),
      std_map.Ordered x.m_keyframeList →
      (∀ pos type res x1 s1, addKeyframe QT_NO_DEBUG pos type x sx = some (res, x1, s1) →
        std_map.Ordered x1.m_keyframeList) ∧
      (∀ pos res x1 s1, removeKeyframe QT_NO_DEBUG pos x sx = some (res, x1, s1) →
        std_map.Ordered x1.m_keyframeList) ∧
      (∀ oldPos pos res x1 s1,
        moveKeyframe QT_NO_DEBUG oldPos pos x sx = some (res, x1, s1) →
        std_map.Ordered x1.m_keyframeList) ∧
      (∀ res x1 s1, removeAllKeyframes QT_NO_DEBUG x sx = some (res, x1, s1) →
        std_map.Ordered x1.m_keyframeList)) ∧
    std_map.Ordered self.m_keyframeList ∧
    (std_map.keys self.m_keyframeList).Nodup ∧
    (∀ cmd ∈ st, ∀ res self1,
      (cmd.m_undo self = some (res, self1) → std_map.Ordered self1.m_keyframeList) ∧
      (cmd.m_redo self = some (res, self1) → std_map.Ordered self1.m_keyframeList)) := by
  have hinv := hreach.invariant
  refine ⟨by simp [std_map.Ordered, std_map.keys], ?_, hinv.1, Ordered_keys_nodup hinv.1, ?_⟩
  · intro x sx hx
    exact ⟨fun _ _ _ _ _ h => addKeyframe_ordered hx h,
      fun _ _ _ _ h => removeKeyframe_ordered hx h,
      fun _ _ _ _ _ h => moveKeyframe_ordered hx h,
      fun _ _ _ h => removeAllKeyframes_ordered hx h⟩
  · intro cmd hcmd res self1
    exact ⟨fun h => (hinv.2 cmd hcmd).1 _ _ _ hinv.1 h,
      fun h => (hinv.2 cmd hcmd).2 _ _ _ hinv.1 h⟩

/-- Witness of C23: the state reached by adding the positions 3 and 1 to the empty model
and moving position 3 to position 2. -/
theorem C23_keys_stay_ascending_witness :
    ∃ (self : KeyframeModel Int) (st : DocUndoStack Int),
      self.m_keyframeList = [(1, KeyframeType.Linear), (2, KeyframeType.Smooth)] ∧
      Reachable false self st ∧
      st.length = 3 ∧
      std_map.Ordered ([] : List (Int × KeyframeType)) ∧
      (∀ (x : KeyframeModel Int) (sx : DocUndoStack Int),
        std_map.Ordered x.m_keyframeList →
        (∀ pos type res x1 s1, addKeyframe false pos type x sx = some (res, x1, s1) →
          std_map.Ordered x1.m_keyframeList) ∧
        (∀ pos res x1 s1, removeKeyframe false pos x sx = some (res, x1, s1) →
          std_map.Ordered x1.m_keyframeList) ∧
        (∀ oldPos pos res x1 s1,
          moveKeyframe false oldPos pos x sx = some (res, x1, s1) →
          std_map.Ordered x1.m_keyframeList) ∧
        (∀ res x1 s1, removeAllKeyframes false x sx = some (res, x1, s1) →
          std_map.Ordered x1.m_keyframeList)) ∧
      std_map.Ordered self.m_keyframeList ∧
      (std_map.keys self.m_keyframeList).Nodup ∧
      (∀ cmd ∈ st, ∀ res self1,
        (cmd.m_undo self = some (res, self1) → std_map.Ordered self1.m_keyframeList) ∧
        (cmd.m_redo self = some (res, self1) → std_map.Ordered self1.m_keyframeList)) :=
  have hreach : Reachable false
      (⟨[(1, KeyframeType.Linear), (2, KeyframeType.Smooth)], _⟩ : KeyframeModel Int) _ :=
    Reachable.moveKeyframe 3 2
      (Reachable.addKeyframe 1 KeyframeType.Linear
        (Reachable.addKeyframe 3 KeyframeType.Smooth Reachable.init rfl) rfl) rfl
  ⟨_, _, rfl, hreach, rfl, C23_keys_stay_ascending false _ _ hreach⟩

/-- C25: for every store in which `pos` is stored with type `t`, and for all accumulators
`undo` and `redo` passed in, the composable `addKeyframe(pos, t, undo, redo)` returns true
and leaves the model (its entries and its emitted signals) and both accumulators exactly
as they were passed. -/
theorem C25_addKeyframe_same_composable (QT_NO_DEBUG : Bool) (pos : GenTime)
    (t : KeyframeType) (undo redo : Fun GenTime) (self : KeyframeModel GenTime)
    (hat : std_map.«at» self.m_keyframeList pos = some t) :
    addKeyframe_undo_redo QT_NO_DEBUG pos t undo redo self = some (true, undo, redo, self) :=
  addKeyframe_undo_redo_of_same QT_NO_DEBUG pos t undo redo self hat

/-- Witness of C25: the stored position 4 with its type Smooth, within a transaction that
has accumulated the removal of position 1. -/
theorem C25_addKeyframe_same_composable_witness :
    std_map.«at» [((2 : Int), KeyframeType.Linear), (4, KeyframeType.Smooth)] 4 =
      some KeyframeType.Smooth ∧
    addKeyframe_undo_redo false (4 : Int) KeyframeType.Smooth
      ((addKeyframe_lambda false 1 KeyframeType.Discrete).andThen Fun.true_lambda)
      (Fun.true_lambda.andThen (deleteKeyframe_lambda false 1))
      ⟨[(2, KeyframeType.Linear), (4, KeyframeType.Smooth)], []⟩ =
        some (true, (addKeyframe_lambda false 1 KeyframeType.Discrete).andThen Fun.true_lambda,
          Fun.true_lambda.andThen (deleteKeyframe_lambda false 1),
          ⟨[(2, KeyframeType.Linear), (4, KeyframeType.Smooth)], []⟩) :=
  ⟨by decide, C25_addKeyframe_same_composable false 4 KeyframeType.Smooth _ _ ⟨_, []⟩
    (by decide)⟩

/-- C28: for every store and all distinct positions `a` and `b` that are both stored, `a`
with type `t`, `moveKeyframe(a, b)` returns true and pushes one entry, described "Move
keyframe"; in the resulting store `a` is not stored, `b` maps to `t` (its former type is
overwritten), every other position is stored or absent as before with the type it had,
and `rowCount()` has dropped by exactly one. -/
theorem C28_moveKeyframe_overwrites (QT_NO_DEBUG : Bool) (a b : GenTime)
    (t : KeyframeType) (self : KeyframeModel GenTime) (st : DocUndoStack GenTime)
    (hord : std_map.Ordered self.m_keyframeList)
    (hat : std_map.«at» self.m_keyframeList a = some t) (hne : a ≠ b)
    (hb : std_map.count self.m_keyframeList b > 0) :
    ∃ self1 cmd, moveKeyframe QT_NO_DEBUG a b self st = some (true, self1, cmd :: st) ∧
      cmd.text = "Move keyframe" ∧
      std_map.count self1.m_keyframeList a = 0 ∧
      std_map.«at» self1.m_keyframeList b = some t ∧
      (∀ p, p ≠ a → p ≠ b →
        std_map.«at» self1.m_keyframeList p = std_map.«at» self.m_keyframeList p) ∧
      rowCount self1 ⟨-1, false⟩ = rowCount self ⟨-1, false⟩ - 1 ∧
      std_map.Ordered self1.m_keyframeList := by
  obtain ⟨y1, undo2, redo2, y2, _, hyl1, hres2, hrun⟩ :=
    moveKeyframe_of_stored QT_NO_DEBUG a b t self st hat hne
  obtain ⟨tb, hatb⟩ := std_map.at_of_count_pos hb
  have hatb1 : std_map.«at» y1.m_keyframeList b = some tb := by
    rw [hyl1, std_map.at_erase_of_ne _ _ (Ne.symm hne)]; exact hatb
  have hord1 : std_map.Ordered y1.m_keyframeList := by rw [hyl1]; exact hord.erase a
  have hkeys := addKeyframe_undo_redo_keys_of_stored hord1 hatb1 hres2
  obtain ⟨undo3, redo3, y3, hres3, hb3, hother⟩ := addKeyframe_undo_redo_returns
    QT_NO_DEBUG b t ((addKeyframe_lambda QT_NO_DEBUG a t).andThen Fun.true_lambda)
    (UPDATE_UNDO_REDO (deleteKeyframe_lambda QT_NO_DEBUG a)
      (addKeyframe_lambda QT_NO_DEBUG a t) Fun.true_lambda Fun.true_lambda).2 y1
  rw [hres2] at hres3
  simp only [Option.some.injEq, Prod.mk.injEq, true_and] at hres3
  have hy : y2 = y3 := hres3.2.2
  subst hy
  have ha : std_map.«at» y2.m_keyframeList a = none := by
    rw [hother a hne, hyl1]; exact std_map.at_erase_self hord a
  refine ⟨y2, _, hrun, rfl, by simp [std_map.count, ha], hb3, ?_, ?_, ?_⟩
  · intro p hpa hpb
    rw [hother p hpb, hyl1, std_map.at_erase_of_ne _ _ hpa]
  · have hlen := congrArg List.length hkeys
    have hsz := std_map.size_erase_of_at hat
    simp only [std_map.keys, List.length_map, hyl1] at hlen
    simp only [rowCount, Bool.false_eq_true, if_false, std_map.size] at hsz ⊢
    omega
  · exact (addKeyframe_undo_redo_keepsOrdered
      (UPDATE_UNDO_REDO_keepsOrdered (deleteKeyframe_lambda_keepsOrdered QT_NO_DEBUG a)
        (addKeyframe_lambda_keepsOrdered QT_NO_DEBUG a t) true_lambda_keepsOrdered
        true_lambda_keepsOrdered).1
      (UPDATE_UNDO_REDO_keepsOrdered (deleteKeyframe_lambda_keepsOrdered QT_NO_DEBUG a)
        (addKeyframe_lambda_keepsOrdered QT_NO_DEBUG a t) true_lambda_keepsOrdered
        true_lambda_keepsOrdered).2 hord1 hres2).1

/-- Witness of C28: `moveKeyframe(1, 2)` on the store holding position 1 with type Linear
and position 2 with type Smooth. -/
theorem C28_moveKeyframe_overwrites_witness :
    std_map.Ordered [((1 : Int), KeyframeType.Linear), (2, KeyframeType.Smooth)] ∧
    std_map.«at» [((1 : Int), KeyframeType.Linear), (2, KeyframeType.Smooth)] 1 =
      some KeyframeType.Linear ∧
    (1 : Int) ≠ 2 ∧
    std_map.count [((1 : Int), KeyframeType.Linear), (2, KeyframeType.Smooth)] 2 > 0 ∧
    ∃ self1 cmd, moveKeyframe false (1 : Int) 2
        ⟨[(1, KeyframeType.Linear), (2, KeyframeType.Smooth)], []⟩ [] =
          some (true, self1, cmd :: []) ∧
      cmd.text = "Move keyframe" ∧
      std_map.count self1.m_keyframeList 1 = 0 ∧
      std_map.«at» self1.m_keyframeList 2 = some KeyframeType.Linear ∧
      (∀ p, p ≠ 1 → p ≠ 2 → std_map.«at» self1.m_keyframeList p =
        std_map.«at» [((1 : Int), KeyframeType.Linear), (2, KeyframeType.Smooth)] p) ∧
      rowCount self1 ⟨-1, false⟩ =
        rowCount (⟨[(1, KeyframeType.Linear), (2, KeyframeType.Smooth)], []⟩ :
          KeyframeModel Int) ⟨-1, false⟩ - 1 ∧
      std_map.Ordered self1.m_keyframeList :=
  ⟨by decide, by decide, by decide, by decide,
    C28_moveKeyframe_overwrites false 1 2 KeyframeType.Linear ⟨_, []⟩ []
      (by decide) (by decide) (by decide) (by decide)⟩

/-- C29: whenever the positions asserted by `Q_ASSERT` are stored (`pos` for
`removeKeyframe`, `oldPos` for `moveKeyframe`), the public `addKeyframe`, `removeKeyframe`,
`moveKeyframe` and `removeAllKeyframes` all return true, with `Q_ASSERT` enabled too, so
that no assertion aborts them; every closure built by the model returns true whenever it
returns, so do the composable `addKeyframe` and `removeKeyframe`, and the loop of
`removeAllKeyframes` never takes its early `return false`: the two rollback branches are
never entered. -/
theorem C29_calls_return_true (QT_NO_DEBUG : Bool) (p pos oldPos newPos : GenTime)
    (type : KeyframeType) (self : KeyframeModel GenTime) (st : DocUndoStack GenTime)
    (hord : std_map.Ordered self.m_keyframeList)
    (hpos : std_map.count self.m_keyframeList pos > 0)
    (hold : std_map.count self.m_keyframeList oldPos > 0) :
    ((∃ self1 st1, addKeyframe QT_NO_DEBUG p type self st = some (true, self1, st1)) ∧
      (∃ self1 st1, removeKeyframe QT_NO_DEBUG pos self st = some (true, self1, st1)) ∧
      (∃ self1 st1,
        moveKeyframe QT_NO_DEBUG oldPos newPos self st = some (true, self1, st1)) ∧
      (∃ self1 st1, removeAllKeyframes QT_NO_DEBUG self st = some (true, self1, st1))) ∧
    (∀ f : Fun GenTime, IsCommand QT_NO_DEBUG f →
      ∀ x y b, f x = some (b, y) → b = true) ∧
    (∀ (q : GenTime) ty undo redo x b undo1 redo1 y,
      addKeyframe_undo_redo QT_NO_DEBUG q ty undo redo x = some (b, undo1, redo1, y) →
        b = true) ∧
    (∀ (q : GenTime) undo redo x b undo1 redo1 y,
      removeKeyframe_undo_redo QT_NO_DEBUG q undo redo x = some (b, undo1, redo1, y) →
        b = true) ∧
    (∀ (all_pos : List GenTime) local_undo local_redo x y,
      removeAllKeyframes_loop QT_NO_DEBUG all_pos local_undo local_redo x ≠
        some (Sum.inl y)) := by
  refine ⟨⟨?_, ?_, ?_, ?_⟩, ?_, ?_, ?_, ?_⟩
  · obtain ⟨undo1, redo1, y, hres, _, _⟩ := addKeyframe_undo_redo_returns QT_NO_DEBUG p type
      Fun.true_lambda Fun.true_lambda self
    exact ⟨y, _, addKeyframe_of_true st hres⟩
  · obtain ⟨self1, cmd, hrun, _, _⟩ :=
      removeKeyframe_stored_undo QT_NO_DEBUG pos self st hord hpos
    exact ⟨self1, _, hrun⟩
  · by_cases heq : oldPos = newPos
    · subst heq
      exact ⟨self, st, moveKeyframe_same_of_stored QT_NO_DEBUG oldPos self st hold⟩
    · obtain ⟨oldType, hat⟩ := std_map.at_of_count_pos hold
      obtain ⟨y1, undo2, redo2, y2, _, _, _, hrun⟩ :=
        moveKeyframe_of_stored QT_NO_DEBUG oldPos newPos oldType self st hat heq
      exact ⟨y2, _, hrun⟩
  · obtain ⟨self1, cmd, hrun, _, _, _⟩ :=
      removeAllKeyframes_of_ordered QT_NO_DEBUG self st hord
    exact ⟨self1, _, hrun⟩
  · intro f hf x y b h
    exact hf.result h
  · intro q ty undo redo x b undo1 redo1 y h
    exact addKeyframe_undo_redo_result h
  · intro q undo redo x b undo1 redo1 y h
    exact removeKeyframe_undo_redo_result h
  · intro all_pos local_undo local_redo x y h
    exact removeAllKeyframes_loop_result all_pos h

/-- Witness of C29: the four calls on the store of the positions 1, 4 and 7, with
`Q_ASSERT` enabled. -/
theorem C29_calls_return_true_witness :
    std_map.Ordered [((1 : Int), KeyframeType.Discrete), (4, KeyframeType.Smooth),
      (7, KeyframeType.Linear)] ∧
    std_map.count [((1 : Int), KeyframeType.Discrete), (4, KeyframeType.Smooth),
      (7, KeyframeType.Linear)] 4 > 0 ∧
    std_map.count [((1 : Int), KeyframeType.Discrete), (4, KeyframeType.Smooth),
      (7, KeyframeType.Linear)] 7 > 0 ∧
    ((∃ self1 st1, addKeyframe false (5 : Int) KeyframeType.Linear
        ⟨[(1, KeyframeType.Discrete), (4, KeyframeType.Smooth), (7, KeyframeType.Linear)],
          []⟩ [] = some (true, self1, st1)) ∧
      (∃ self1 st1, removeKeyframe false (4 : Int)
        ⟨[(1, KeyframeType.Discrete), (4, KeyframeType.Smooth), (7, KeyframeType.Linear)],
          []⟩ [] = some (true, self1, st1)) ∧
      (∃ self1 st1, moveKeyframe false (7 : Int) 1
        ⟨[(1, KeyframeType.Discrete), (4, KeyframeType.Smooth), (7, KeyframeType.Linear)],
          []⟩ [] = some (true, self1, st1)) ∧
      (∃ self1 st1, removeAllKeyframes false
        (⟨[(1, KeyframeType.Discrete), (4, KeyframeType.Smooth), (7, KeyframeType.Linear)],
          []⟩ : KeyframeModel Int) [] = some (true, self1, st1))) ∧
    (∀ f : Fun Int, IsCommand false f → ∀ x y b, f x = some (b, y) → b = true) ∧
    (∀ (q : Int) ty undo redo x b undo1 redo1 y,
      addKeyframe_undo_redo false q ty undo redo x = some (b, undo1, redo1, y) →
        b = true) ∧
    (∀ (q : Int) undo redo x b undo1 redo1 y,
      removeKeyframe_undo_redo false q undo redo x = some (b, undo1, redo1, y) →
        b = true) ∧
    (∀ (all_pos : List Int) local_undo local_redo x y,
      removeAllKeyframes_loop false all_pos local_undo local_redo x ≠
        some (Sum.inl y)) :=
  ⟨by decide, by decide, by decide,
    C29_calls_return_true false 5 4 7 1 KeyframeType.Linear ⟨_, []⟩ []
      (by decide) (by decide) (by decide)⟩

/-- C30: for every store, index and role, `data(index, role)` returns a valid value if and
only if the index is valid with `0 <= row < rowCount()` and the role is one of
`DisplayRole`, `EditRole`, `PosRole`, `FrameRole`, `UserRole`, `TypeRole`; in every other
case it returns the empty `QVariant()`, whatever the store holds; and `rowCount(parent)`
is the number of stored keys for an invalid parent and 0 for a valid parent. -/
theorem C30_data_valid_iff (getCurrentFps_frames : GenTime → Int)
    (self : KeyframeModel GenTime) (index parent : QModelIndex) (role : Int) :
    (data getCurrentFps_frames self index role ≠ QVariant.invalid ↔
      (0 ≤ index.row ∧ index.row < rowCount self ⟨-1, false⟩ ∧ index.isValid = true ∧
        (role = DisplayRole ∨ role = EditRole ∨ role = PosRole ∨ role = FrameRole ∨
          role = UserRole ∨ role = TypeRole))) ∧
    (parent.isValid = false →
      rowCount self parent = ((std_map.keys self.m_keyframeList).length : Nat)) ∧
    (parent.isValid = true → rowCount self parent = 0) := by
  refine ⟨?_, ?_, ?_⟩
  · simp only [rowCount, Bool.false_eq_true, if_false, std_map.size]
    by_cases hbad : index.row < 0 ∨ index.row ≥ (self.m_keyframeList.length : Nat) ∨
        ¬ index.isValid = true
    · have hd : data getCurrentFps_frames self index role = QVariant.invalid := by
        unfold data
        rw [if_pos (by simpa [std_map.size] using hbad)]
      constructor
      · intro h; exact absurd hd h
      · rintro ⟨h0, h1, h2, _⟩
        rcases hbad with hbad | hbad | hbad
        · omega
        · omega
        · exact absurd h2 hbad
    · have hgood : 0 ≤ index.row ∧ index.row < (self.m_keyframeList.length : Nat) ∧
          index.isValid = true := by
        refine ⟨?_, ?_, ?_⟩
        · by_contra hc; exact hbad (Or.inl (by omega))
        · by_contra hc; exact hbad (Or.inr (Or.inl (by omega)))
        · by_contra hc; exact hbad (Or.inr (Or.inr hc))
      have hlt : index.row.toNat < self.m_keyframeList.length := by omega
      obtain ⟨it, hit⟩ : ∃ it, self.m_keyframeList.get? index.row.toNat = some it :=
        ⟨_, List.get?_eq_get hlt⟩
      have hd : data getCurrentFps_frames self index role =
          (if role = DisplayRole ∨ role = EditRole ∨ role = PosRole then
            QVariant.seconds it.1
          else if role = FrameRole ∨ role = UserRole then
            QVariant.frames (getCurrentFps_frames it.1)
          else if role = TypeRole then QVariant.keyframeType it.2
          else QVariant.invalid) := by
        unfold data
        rw [if_neg (by simpa [std_map.size] using hbad), hit]
      rw [hd]
      constructor
      · intro h
        refine ⟨hgood.1, hgood.2.1, hgood.2.2, ?_⟩
        by_contra hrole
        simp only [not_or] at hrole
        apply h
        simp [hrole.1, hrole.2.1, hrole.2.2.1, hrole.2.2.2.1, hrole.2.2.2.2.1,
          hrole.2.2.2.2.2]
      · rintro ⟨_, _, _, hrole⟩
        split_ifs with h1 h2 h3
        · simp
        · simp
        · simp
        · exfalso
          rcases hrole with h | h | h | h | h | h
          · exact h1 (Or.inl h)
          · exact h1 (Or.inr (Or.inl h))
          · exact h1 (Or.inr (Or.inr h))
          · exact h2 (Or.inl h)
          · exact h2 (Or.inr h)
          · exact h3 h
  · intro hp
    simp [rowCount, hp, std_map.size, std_map.keys]
  · intro hp
    simp [rowCount, hp]

/-- C27 (as stated, refuted): with `Q_ASSERT` compiled out, a public mutation and a closure
invocation that return true and leave the observer with other rows than the store.
`removeKeyframe(0)` on the store holding only position 1 leaves the store as it was, but
it emits `beginRemoveRows(0, 0)` and `endRemoveRows()` for the entry that `operator[]` had
inserted without a signal; an observer that held the row of position 1 deletes it and
ends with no row.  The redo closure pushed by `addKeyframe(1, Linear)` on the empty store,
invoked directly after the call, leaves the single entry of position 1, but it emits
`beginInsertRows(0, 0)` and `endInsertRows()`; an observer that held the row of position 1
inserts it again and ends with two rows. -/
theorem C27_observer_diverges_counterexample :
    (∃ self1 st1, removeKeyframe true (0 : Int) ⟨[(1, KeyframeType.Linear)], []⟩ [] =
        some (true, self1, st1) ∧
      self1.m_keyframeList = [(1, KeyframeType.Linear)] ∧
      self1.emitted =
        [(Signal.beginRemoveRows 0 0, [(0, KeyframeType.Linear), (1, KeyframeType.Linear)]),
          (Signal.endRemoveRows, [(1, KeyframeType.Linear)])] ∧
      (Observer.replay ⟨[((1 : Int), KeyframeType.Linear)], none⟩ self1.emitted).rows = [] ∧
      ([] : List (Int × KeyframeType)) ≠ self1.m_keyframeList) ∧
    (∃ self1 cmd self2, addKeyframe true (1 : Int) KeyframeType.Linear ⟨[], []⟩ [] =
        some (true, self1, [cmd]) ∧
      Reachable true self1 [cmd] ∧
      self1.m_keyframeList = [(1, KeyframeType.Linear)] ∧
      cmd.m_redo self1 = some (true, self2) ∧
      self2.m_keyframeList = [(1, KeyframeType.Linear)] ∧
      self2.emitted = self1.emitted ++
        [(Signal.beginInsertRows 0 0, [(1, KeyframeType.Linear)]),
          (Signal.endInsertRows, [(1, KeyframeType.Linear)])] ∧
      (Observer.replay ⟨self1.m_keyframeList, none⟩
        [(Signal.beginInsertRows 0 0, [(1, KeyframeType.Linear)]),
          (Signal.endInsertRows, [(1, KeyframeType.Linear)])]).rows =
        [(1, KeyframeType.Linear), (1, KeyframeType.Linear)] ∧
      [((1 : Int), KeyframeType.Linear), (1, KeyframeType.Linear)] ≠
        self2.m_keyframeList) :=
  ⟨⟨_, _, rfl, rfl, rfl, rfl, by decide⟩,
    ⟨_, _, _, rfl, Reachable.addKeyframe 1 KeyframeType.Linear Reachable.init rfl, rfl, rfl,
      rfl, rfl, rfl, by decide⟩⟩

/-- C27 (amended): in every reachable state, the signals emitted by a public mutation or
by the invocation of the undo or redo closure of an entry of the undo stack, when it
returns and violates no `Q_ASSERT` condition, lead an observer, which starts with the
`(position, type)` sequence of the store and replays them in order, to the sequence of the
store afterwards.  No condition is violated by `addKeyframe` and `removeAllKeyframes`; by
`removeKeyframe(pos)` and `moveKeyframe(oldPos, pos)` when the asserted position is
stored; by a closure when each command it runs finds its position stored or absent as
asserted (`AssertsHold`); and, with `Q_ASSERT` enabled, by whatever returns.  In either
build this covers the undo closure of the entry that such a public call has just pushed,
invoked directly afterwards, and its redo closure invoked after that.  For
`moveKeyframe(a, b)` with `a` stored and `b` free, the signals are the removal of the row
of `a` and then the insertion at the row that `b` has in the store from which `a` has
already been removed. -/
theorem C27_observer_follows (QT_NO_DEBUG : Bool) (self : KeyframeModel GenTime)
    (st : DocUndoStack GenTime) (hreach : Reachable QT_NO_DEBUG self st) :
    (∀ pos type res self1 st1,
      addKeyframe QT_NO_DEBUG pos type self st = some (res, self1, st1) →
        Observer.follows self self1) ∧
    (∀ pos res self1 st1,
      (QT_NO_DEBUG = false ∨ std_map.count self.m_keyframeList pos > 0) →
      removeKeyframe QT_NO_DEBUG pos self st = some (res, self1, st1) →
        Observer.follows self self1) ∧
    (∀ oldPos pos res self1 st1,
      (QT_NO_DEBUG = false ∨ std_map.count self.m_keyframeList oldPos > 0) →
      moveKeyframe QT_NO_DEBUG oldPos pos self st = some (res, self1, st1) →
        Observer.follows self self1) ∧
    (∀ res self1 st1, removeAllKeyframes QT_NO_DEBUG self st = some (res, self1, st1) →
        Observer.follows self self1) ∧
    (∀ cmd ∈ st, ∀ res self1,
      ((QT_NO_DEBUG = false ∨ AssertsHold QT_NO_DEBUG cmd.m_undo self) →
        cmd.m_undo self = some (res, self1) → Observer.follows self self1) ∧
      ((QT_NO_DEBUG = false ∨ AssertsHold QT_NO_DEBUG cmd.m_redo self) →
        cmd.m_redo self = some (res, self1) → Observer.follows self self1)) ∧
    ((∀ pos type,
        observedThroughUndoRedo QT_NO_DEBUG st (addKeyframe QT_NO_DEBUG pos type self st)) ∧
      (∀ pos, std_map.count self.m_keyframeList pos > 0 →
        observedThroughUndoRedo QT_NO_DEBUG st (removeKeyframe QT_NO_DEBUG pos self st)) ∧
      (∀ oldPos pos, std_map.count self.m_keyframeList oldPos > 0 → oldPos ≠ pos →
        observedThroughUndoRedo QT_NO_DEBUG st
          (moveKeyframe QT_NO_DEBUG oldPos pos self st)) ∧
      observedThroughUndoRedo QT_NO_DEBUG st (removeAllKeyframes QT_NO_DEBUG self st)) ∧
    (∀ a b t, std_map.«at» self.m_keyframeList a = some t → b ≠ a →
      std_map.count self.m_keyframeList b = 0 →
      ∃ self1 st1, moveKeyframe QT_NO_DEBUG a b self st = some (true, self1, st1) ∧
        self1.emitted = self.emitted ++
          [(Signal.beginRemoveRows (std_map.rank self.m_keyframeList a : Nat)
              (std_map.rank self.m_keyframeList a : Nat), self.m_keyframeList),
            (Signal.endRemoveRows, std_map.erase self.m_keyframeList a),
            (Signal.beginInsertRows
              (std_map.rank (std_map.erase self.m_keyframeList a) b : Nat)
              (std_map.rank (std_map.erase self.m_keyframeList a) b : Nat),
              std_map.erase self.m_keyframeList a),
            (Signal.endInsertRows, self1.m_keyframeList)]) := by
  have hord := hreach.invariant.1
  refine ⟨?_, ?_, ?_, ?_, ?_, ⟨?_, ?_, ?_, ?_⟩, ?_⟩
  · intro pos type res self1 st1 h
    exact addKeyframe_follows hord h
  · intro pos res self1 st1 hc h
    exact removeKeyframe_follows hc h
  · intro oldPos pos res self1 st1 hc h
    exact moveKeyframe_follows hord hc h
  · intro res self1 st1 h
    exact removeAllKeyframes_follows hord h
  · intro cmd hcmd res self1
    have hc := hreach.isCommand cmd hcmd
    constructor
    · intro hcond h
      rcases hcond with hdbg | ha
      · subst hdbg
        exact (hc.1.replays self self1 res hord h).2
      · exact (ha.leadsObserver self1 res hord h).2
    · intro hcond h
      rcases hcond with hdbg | ha
      · subst hdbg
        exact (hc.2.replays self self1 res hord h).2
      · exact (ha.leadsObserver self1 res hord h).2
  · intro pos type
    exact addKeyframe_observedThroughUndoRedo QT_NO_DEBUG pos type self st hord
  · intro pos hst
    exact removeKeyframe_observedThroughUndoRedo QT_NO_DEBUG pos self st hord hst
  · intro oldPos pos hst hne
    exact moveKeyframe_observedThroughUndoRedo QT_NO_DEBUG oldPos pos self st hord hst hne
  · exact removeAllKeyframes_observedThroughUndoRedo QT_NO_DEBUG self st hord
  · intro a b t hat hne hfree
    exact moveKeyframe_to_free_emitted QT_NO_DEBUG a b t self st hord hat hne hfree

/-- Witness of C27 (amended): with `Q_ASSERT` compiled out, the state reached by adding the
positions 3 and 1 to the empty model and moving position 3 to position 2. -/
theorem C27_observer_follows_witness :
    ∃ (self : KeyframeModel Int) (st : DocUndoStack Int),
      self.m_keyframeList = [(1, KeyframeType.Linear), (2, KeyframeType.Smooth)] ∧
      Reachable true self st ∧
      st.length = 3 ∧
      (∀ pos type res self1 st1,
        addKeyframe true pos type self st = some (res, self1, st1) →
          Observer.follows self self1) ∧
      (∀ pos res self1 st1,
        (true = false ∨ std_map.count self.m_keyframeList pos > 0) →
        removeKeyframe true pos self st = some (res, self1, st1) →
          Observer.follows self self1) ∧
      (∀ oldPos pos res self1 st1,
        (true = false ∨ std_map.count self.m_keyframeList oldPos > 0) →
        moveKeyframe true oldPos pos self st = some (res, self1, st1) →
          Observer.follows self self1) ∧
      (∀ res self1 st1, removeAllKeyframes true self st = some (res, self1, st1) →
          Observer.follows self self1) ∧
      (∀ cmd ∈ st, ∀ res self1,
        ((true = false ∨ AssertsHold true cmd.m_undo self) →
          cmd.m_undo self = some (res, self1) → Observer.follows self self1) ∧
        ((true = false ∨ AssertsHold true cmd.m_redo self) →
          cmd.m_redo self = some (res, self1) → Observer.follows self self1)) ∧
      ((∀ pos type,
          observedThroughUndoRedo true st (addKeyframe true pos type self st)) ∧
        (∀ pos, std_map.count self.m_keyframeList pos > 0 →
          observedThroughUndoRedo true st (removeKeyframe true pos self st)) ∧
        (∀ oldPos pos, std_map.count self.m_keyframeList oldPos > 0 → oldPos ≠ pos →
          observedThroughUndoRedo true st
            (moveKeyframe true oldPos pos self st)) ∧
        observedThroughUndoRedo true st (removeAllKeyframes true self st)) ∧
      (∀ a b t, std_map.«at» self.m_keyframeList a = some t → b ≠ a →
        std_map.count self.m_keyframeList b = 0 →
        ∃ self1 st1, moveKeyframe true a b self st = some (true, self1, st1) ∧
          self1.emitted = self.emitted ++
            [(Signal.beginRemoveRows (std_map.rank self.m_keyframeList a : Nat)
                (std_map.rank self.m_keyframeList a : Nat), self.m_keyframeList),
              (Signal.endRemoveRows, std_map.erase self.m_keyframeList a),
              (Signal.beginInsertRows
                (std_map.rank (std_map.erase self.m_keyframeList a) b : Nat)
                (std_map.rank (std_map.erase self.m_keyframeList a) b : Nat),
                std_map.erase self.m_keyframeList a),
              (Signal.endInsertRows, self1.m_keyframeList)]) :=
  have hreach : Reachable true
      (⟨[(1, KeyframeType.Linear), (2, KeyframeType.Smooth)], _⟩ : KeyframeModel Int) _ :=
    Reachable.moveKeyframe 3 2
      (Reachable.addKeyframe 1 KeyframeType.Linear
        (Reachable.addKeyframe 3 KeyframeType.Smooth Reachable.init rfl) rfl) rfl
  ⟨_, _, rfl, hreach, rfl, C27_observer_follows true _ _ hreach⟩

end Claims

end Kdenlive
